import Mathlib

/-!
Rate limiter: decision engine, counter stores and admission filter.

A shallow embedding of `internal/ratelimiter` (the `RateLimiter.Allow` decision
engine, `limiter.go` and `models.go`), of `internal/ratelimiter/store`
(the `RateLimiterStore` interface, the mutex-guarded `MemoryStore` and the
`RedisStore`: `store.go`, `memory.go` and `redis.go`) and of the admission
filter `internal/middleware/rate_limiter.go`.

Modelling conventions.

* `time.Time` and `time.Duration` are integers counting nanoseconds; `t.After u`
  is `t > u`, `t.Before u` is `t < u`, `t.Add d` is `t + d`.
* Every store operation receives the instant `now` that `time.Now()` yields
  while it runs; one `Allow` call is a single instant.
* A Go `map[string]V` is a function `String → Option V`; `delete` and
  assignment are `Function.update`; indexing a missing key yields the zero
  value of `V`.
* Go's `int` is the integers without bound in `MemoryStore.IncrementRequestCount`
  and in what is built on it: a counter would need `2^63` increments inside one
  window to leave the 64-bit range.  `MemoryStore.IncrementRequestCountInt64` is
  the same method on the 64-bit `int`, with the wrap-around of `s.counts[key]++`;
  the two agree as long as the counter stays below the largest `int`.
* A Go `error` is `Option GoError`, `nil` being `none`; a `(T, error)` result is
  `Except GoError T`.
* The store behind the `RateLimiterStore` interface is an explicit state `σ`
  threaded through the calls.  `Allow` additionally reports the list of store
  calls it issued, in order.
* The Redis client is a method table `RedisClient ρ` over the state `ρ` of the
  service behind it, so that `RedisStore` runs over any client, failing ones
  included; `redisService` is a model of the service itself.
* The filter's effect on the HTTP exchange is the list of its calls to
  `next.ServeHTTP` and `http.Error`, with their arguments.
-/

namespace Ratelimiter

/-! ## Time -/

/-- Instants, in nanoseconds. -/
abbrev Time := Int

/-- Durations (`time.Duration`), in nanoseconds. -/
abbrev Duration := Int

/-- The constant `time.Second`. -/
def Second : Duration := 1000000000

/-- The constant `time.Minute`. -/
def Minute : Duration := 60 * Second

/-! ## models.go -/

/-- LimitType: the kind of limit, `IPLimit = iota`, then `TokenLimit`. -/
inductive LimitType where
  | IPLimit
  | TokenLimit
deriving DecidableEq, Repr

/-- LimiterConfig: limits per second and block durations for both kinds. -/
structure LimiterConfig where
  IPLimit : Int
  IPBlockTime : Duration
  TokenLimit : Int
  TokenBlockTime : Duration
deriving DecidableEq, Repr

/-- LimiterRequest: client address and optional access token. -/
structure LimiterRequest where
  IP : String
  Token : String
deriving DecidableEq, Repr

/-- LimitExceededError: the struct behind `*LimitExceededError`. -/
structure LimitExceededError where
  Typ : LimitType
  Message : String
deriving DecidableEq, Repr

/-- NewLimitExceededError builds the limit error of the given kind. -/
def NewLimitExceededError (limitType : LimitType) : LimitExceededError :=
  { Typ := limitType,
    Message := "you have reached the maximum number of requests or actions allowed within a certain time frame" }

/-- Go error values: a `*LimitExceededError`, a `*fmt.wrapError` (what
`fmt.Errorf` returns for a format with one `%w`), or any other error, known
only by its message. -/
inductive GoError where
  | limitExceeded (e : LimitExceededError)
  | wrapError (msg : String) (err : GoError)
  | errorString (msg : String)
deriving DecidableEq, Repr

/-- The `Error()` method of an error value. -/
def GoError.Error : GoError → String
  | .limitExceeded e => e.Message
  | .wrapError msg _ => msg
  | .errorString msg => msg

/-- The `Unwrap()` result used by `errors.Unwrap`: only a `*fmt.wrapError`
carries a wrapped error. -/
def GoError.Unwrap : GoError → Option GoError
  | .wrapError _ err => some err
  | _ => none

/-- The type assertion `err.(*LimitExceededError)`: the struct when the
dynamic type is `*LimitExceededError`, nothing otherwise. -/
def GoError.asLimitExceeded : GoError → Option LimitExceededError
  | .limitExceeded e => some e
  | _ => none

/-- The call `fmt.Errorf(pfx + "%w", err)`: the message is the text before the
verb followed by `err.Error()`, and the result wraps `err`. -/
def fmtErrorf (pfx : String) (err : GoError) : GoError :=
  .wrapError (pfx ++ err.Error) err

/-! ## store/store.go -/

deriving instance DecidableEq for Except

/-- RateLimiterStore: the method table of the store interface over a store
state `σ`.  Each method returns its Go result and the state it leaves. -/
structure RateLimiterStore (σ : Type) where
  GetRequestCount : Time → String → σ → Except GoError Int × σ
  IncrementRequestCount : Time → String → Duration → σ → Except GoError Int × σ
  IsBlocked : Time → String → σ → Except GoError Bool × σ
  Block : Time → String → Duration → σ → Option GoError × σ
  Close : σ → Option GoError × σ

/-- Factory: a function producing a store (its methods and its initial state)
or an error. -/
abbrev Factory (σ : Type) := Unit → Except GoError (RateLimiterStore σ × σ)

/-! ## store/memory.go -/

/-- MemoryStore: the three maps of the in-memory store (the mutex is not
modelled: every method runs under the lock, atomically). -/
structure MemoryStore where
  counts : String → Option Int
  blocked : String → Option Time
  expiryTime : String → Option Time

namespace MemoryStore

/-- NewMemoryStore: three empty maps. -/
def NewMemoryStore : MemoryStore :=
  { counts := fun _ => none, blocked := fun _ => none, expiryTime := fun _ => none }

/-- The index expression `s.counts[key]`: zero when the key is missing. -/
def countAt (s : MemoryStore) (key : String) : Int :=
  (s.counts key).getD 0

/-- The condition `expiry, ok := s.expiryTime[key]; ok && time.Now().After(expiry)`. -/
def windowExpired (s : MemoryStore) (now : Time) (key : String) : Bool :=
  match s.expiryTime key with
  | some expiry => decide (now > expiry)
  | none => false

/-- GetRequestCount: 0 for an expired window, otherwise `s.counts[key]`. -/
def GetRequestCount (s : MemoryStore) (now : Time) (key : String) :
    Except GoError Int × MemoryStore :=
  if s.windowExpired now key then
    (.ok 0, s)
  else
    (.ok (s.countAt key), s)

/-- IncrementRequestCount: drop an expired window, increment the counter, set
the expiry when the counter became 1, return the counter. -/
def IncrementRequestCount (s : MemoryStore) (now : Time) (key : String)
    (expiration : Duration) : Except GoError Int × MemoryStore :=
  let s1 : MemoryStore :=
    if s.windowExpired now key then
      { s with counts := Function.update s.counts key none,
               expiryTime := Function.update s.expiryTime key none }
    else s
  let s2 : MemoryStore :=
    { s1 with counts := Function.update s1.counts key (some (s1.countAt key + 1)) }
  let s3 : MemoryStore :=
    if s2.countAt key = 1 then
      { s2 with expiryTime := Function.update s2.expiryTime key (some (now + expiration)) }
    else s2
  (.ok (s3.countAt key), s3)

/-- The expression `blockUntil, blocked := s.blocked[key]; blocked && time.Now().Before(blockUntil)`. -/
def blockedAt (s : MemoryStore) (now : Time) (key : String) : Bool :=
  match s.blocked key with
  | some blockUntil => decide (now < blockUntil)
  | none => false

/-- IsBlocked: whether an unexpired block is recorded for the key. -/
def IsBlocked (s : MemoryStore) (now : Time) (key : String) :
    Except GoError Bool × MemoryStore :=
  (.ok (s.blockedAt now key), s)

/-- Block: record `now + blockTime` and delete the counter and its expiry. -/
def Block (s : MemoryStore) (now : Time) (key : String) (blockTime : Duration) :
    Option GoError × MemoryStore :=
  (none,
    { blocked := Function.update s.blocked key (some (now + blockTime)),
      counts := Function.update s.counts key none,
      expiryTime := Function.update s.expiryTime key none })

/-- Close: nothing to do for the in-memory store. -/
def Close (s : MemoryStore) : Option GoError × MemoryStore :=
  (none, s)

/-- The `MemoryStore` methods as an implementation of `RateLimiterStore`. -/
def methods : RateLimiterStore MemoryStore :=
  { GetRequestCount := fun now key s => s.GetRequestCount now key,
    IncrementRequestCount := fun now key expiration s =>
      s.IncrementRequestCount now key expiration,
    IsBlocked := fun now key s => s.IsBlocked now key,
    Block := fun now key blockTime s => s.Block now key blockTime,
    Close := fun s => s.Close }

/-- A store factory returning the given in-memory store. -/
def factory (s : MemoryStore) : Factory MemoryStore :=
  fun _ => .ok (methods, s)

end MemoryStore

/-! ## The counter as a machine integer -/

/-- The largest value of Go's `int`, which is 64 bits wide on the platforms the
program is built for (`math.MaxInt64`). -/
def MaxInt : Int := 9223372036854775807

/-- The smallest value of Go's `int` (`math.MinInt64`). -/
def MinInt : Int := -9223372036854775808

/-- The `int` that an arithmetic expression yields whose value over the
integers is `n`: the two's complement wrap-around into the 64-bit range. -/
def wrapInt (n : Int) : Int :=
  (n - MinInt) % 18446744073709551616 + MinInt

/-- IncrementRequestCount on the 64-bit `int`: as
`MemoryStore.IncrementRequestCount`, with the statement `s.counts[key]++`
wrapping around from the largest `int` to the smallest. -/
def MemoryStore.IncrementRequestCountInt64 (s : MemoryStore) (now : Time) (key : String)
    (expiration : Duration) : Except GoError Int × MemoryStore :=
  let s1 : MemoryStore :=
    if s.windowExpired now key then
      { s with counts := Function.update s.counts key none,
               expiryTime := Function.update s.expiryTime key none }
    else s
  let s2 : MemoryStore :=
    { s1 with counts := Function.update s1.counts key (some (wrapInt (s1.countAt key + 1))) }
  let s3 : MemoryStore :=
    if s2.countAt key = 1 then
      { s2 with expiryTime := Function.update s2.expiryTime key (some (now + expiration)) }
    else s2
  (.ok (s3.countAt key), s3)

/-- A store in which the counter of the key `"k"` stands at the largest `int`,
in a window that closes at instant 10. -/
def fullCounterStore : MemoryStore :=
  { counts := Function.update (fun _ => none) "k" (some MaxInt),
    blocked := fun _ => none,
    expiryTime := Function.update (fun _ => none) "k" (some 10) }

/-! ## config/config.go (the fields the limiter reads) -/

/-- Config: the application configuration. -/
structure Config where
  ServerPort : String
  RateLimitIP : Int
  RateLimitIPBlockTime : Duration
  RateLimitToken : Int
  RateLimitTokenBlockTime : Duration
  RedisHost : String
  RedisPort : String
  RedisPassword : String
  RedisDB : Int
  StorageType : String
deriving DecidableEq, Repr

/-! ## limiter.go -/

/-- RateLimiter: the limiter configuration and the store it talks to. -/
structure RateLimiter (σ : Type) where
  config : LimiterConfig
  store : RateLimiterStore σ

/-- NewRateLimiter: run the factory, fail with a wrapped error when it fails,
otherwise copy the four limits from the configuration.  The second component
is the state of the store the factory created. -/
def NewRateLimiter {σ : Type} (cfg : Config) (storeFactory : Factory σ) :
    Except GoError (RateLimiter σ × σ) :=
  match storeFactory () with
  | .error err => .error (fmtErrorf "falha ao criar armazenamento: " err)
  | .ok (limiterStore, s) =>
    let limiterConfig : LimiterConfig :=
      { IPLimit := cfg.RateLimitIP,
        IPBlockTime := cfg.RateLimitIPBlockTime,
        TokenLimit := cfg.RateLimitToken,
        TokenBlockTime := cfg.RateLimitTokenBlockTime }
    .ok ({ config := limiterConfig, store := limiterStore }, s)

/-- A store call issued by `Allow`, with its arguments. -/
inductive StoreCall where
  | IsBlocked (key : String)
  | IncrementRequestCount (key : String) (expiration : Duration)
  | Block (key : String) (blockTime : Duration)
deriving DecidableEq, Repr

/-- The key argument of a store call. -/
def StoreCall.key : StoreCall → String
  | .IsBlocked key => key
  | .IncrementRequestCount key _ => key
  | .Block key _ => key

/-- What one `Allow` call yields: the returned error (`none` is `nil`), the
store state it leaves, and the store calls it made, in order. -/
structure AllowResult (σ : Type) where
  err : Option GoError
  store : σ
  calls : List StoreCall

/-- Allow: the token branch when `req.Token != ""`, the IP branch otherwise;
in each, `IsBlocked`, then `IncrementRequestCount` with `time.Second`, then
`Block` when the count is above the limit. -/
def RateLimiter.Allow {σ : Type} (rl : RateLimiter σ) (now : Time)
    (req : LimiterRequest) (s : σ) : AllowResult σ :=
  if req.Token ≠ "" then
    let tokenKey := "token:" ++ req.Token
    match rl.store.IsBlocked now tokenKey s with
    | (.error err, s1) =>
      { err := some (fmtErrorf "erro ao verificar bloqueio do token: " err),
        store := s1, calls := [.IsBlocked tokenKey] }
    | (.ok blocked, s1) =>
      if blocked then
        { err := some (.limitExceeded (NewLimitExceededError .TokenLimit)),
          store := s1, calls := [.IsBlocked tokenKey] }
      else
        match rl.store.IncrementRequestCount now tokenKey Second s1 with
        | (.error err, s2) =>
          { err := some (fmtErrorf "erro ao incrementar contador do token: " err),
            store := s2,
            calls := [.IsBlocked tokenKey, .IncrementRequestCount tokenKey Second] }
        | (.ok count, s2) =>
          if count > rl.config.TokenLimit then
            match rl.store.Block now tokenKey rl.config.TokenBlockTime s2 with
            | (some err, s3) =>
              { err := some (fmtErrorf "erro ao bloquear token: " err),
                store := s3,
                calls := [.IsBlocked tokenKey, .IncrementRequestCount tokenKey Second,
                          .Block tokenKey rl.config.TokenBlockTime] }
            | (none, s3) =>
              { err := some (.limitExceeded (NewLimitExceededError .TokenLimit)),
                store := s3,
                calls := [.IsBlocked tokenKey, .IncrementRequestCount tokenKey Second,
                          .Block tokenKey rl.config.TokenBlockTime] }
          else
            { err := none, store := s2,
              calls := [.IsBlocked tokenKey, .IncrementRequestCount tokenKey Second] }
  else
    let ipKey := "ip:" ++ req.IP
    match rl.store.IsBlocked now ipKey s with
    | (.error err, s1) =>
      { err := some (fmtErrorf "erro ao verificar bloqueio do IP: " err),
        store := s1, calls := [.IsBlocked ipKey] }
    | (.ok blocked, s1) =>
      if blocked then
        { err := some (.limitExceeded (NewLimitExceededError .IPLimit)),
          store := s1, calls := [.IsBlocked ipKey] }
      else
        match rl.store.IncrementRequestCount now ipKey Second s1 with
        | (.error err, s2) =>
          { err := some (fmtErrorf "erro ao incrementar contador do IP: " err),
            store := s2,
            calls := [.IsBlocked ipKey, .IncrementRequestCount ipKey Second] }
        | (.ok count, s2) =>
          if count > rl.config.IPLimit then
            match rl.store.Block now ipKey rl.config.IPBlockTime s2 with
            | (some err, s3) =>
              { err := some (fmtErrorf "erro ao bloquear IP: " err),
                store := s3,
                calls := [.IsBlocked ipKey, .IncrementRequestCount ipKey Second,
                          .Block ipKey rl.config.IPBlockTime] }
            | (none, s3) =>
              { err := some (.limitExceeded (NewLimitExceededError .IPLimit)),
                store := s3,
                calls := [.IsBlocked ipKey, .IncrementRequestCount ipKey Second,
                          .Block ipKey rl.config.IPBlockTime] }
          else
            { err := none, store := s2,
              calls := [.IsBlocked ipKey, .IncrementRequestCount ipKey Second] }

/-- Close: close the store. -/
def RateLimiter.Close {σ : Type} (rl : RateLimiter σ) (s : σ) : Option GoError × σ :=
  rl.store.Close s

/-! ## Vocabulary of the specification -/

/-- The effective key of a request: the credential key when a non-empty
credential is present, the address key otherwise. -/
def effectiveKey (req : LimiterRequest) : String :=
  if req.Token ≠ "" then "token:" ++ req.Token else "ip:" ++ req.IP

/-- The kind of limit a request is evaluated against. -/
def limitKind (req : LimiterRequest) : LimitType :=
  if req.Token ≠ "" then .TokenLimit else .IPLimit

/-- The configured limit of a kind. -/
def LimiterConfig.limitOf (cfg : LimiterConfig) : LimitType → Int
  | .IPLimit => cfg.IPLimit
  | .TokenLimit => cfg.TokenLimit

/-- The configured block duration of a kind. -/
def LimiterConfig.blockTimeOf (cfg : LimiterConfig) : LimitType → Duration
  | .IPLimit => cfg.IPBlockTime
  | .TokenLimit => cfg.TokenBlockTime

/-- The deny verdict of a kind, as the error value `Allow` returns. -/
def deny (kind : LimitType) : Option GoError :=
  some (.limitExceeded (NewLimitExceededError kind))

/-- A sequence of `Allow` calls, each at its own instant, on the same limiter
and store: the returned errors in order and the final store state. -/
def RateLimiter.AllowSeq {σ : Type} (rl : RateLimiter σ) :
    List (Time × LimiterRequest) → σ → List (Option GoError) × σ
  | [], s => ([], s)
  | (now, req) :: rest, s =>
    let r := rl.Allow now req s
    let out := RateLimiter.AllowSeq rl rest r.store
    (r.err :: out.1, out.2)

/-- The in-memory limiter with the limits of `cfg`. -/
def memoryLimiter (cfg : Config) : RateLimiter MemoryStore :=
  { config :=
      { IPLimit := cfg.RateLimitIP,
        IPBlockTime := cfg.RateLimitIPBlockTime,
        TokenLimit := cfg.RateLimitToken,
        TokenBlockTime := cfg.RateLimitTokenBlockTime },
    store := MemoryStore.methods }

/-- A configuration with the given limits and block durations and the default
values of `LoadConfig` elsewhere. -/
def testConfig (ipLimit : Int) (ipBlock : Duration) (tokenLimit : Int)
    (tokenBlock : Duration) : Config :=
  { ServerPort := "8080",
    RateLimitIP := ipLimit,
    RateLimitIPBlockTime := ipBlock,
    RateLimitToken := tokenLimit,
    RateLimitTokenBlockTime := tokenBlock,
    RedisHost := "localhost",
    RedisPort := "6379",
    RedisPassword := "",
    RedisDB := 0,
    StorageType := "memory" }

/-- The text before the wrapped error when `IsBlocked` fails, per kind. -/
def msgIsBlocked : LimitType → String
  | .TokenLimit => "erro ao verificar bloqueio do token: "
  | .IPLimit => "erro ao verificar bloqueio do IP: "

/-- The text before the wrapped error when `IncrementRequestCount` fails, per kind. -/
def msgIncrement : LimitType → String
  | .TokenLimit => "erro ao incrementar contador do token: "
  | .IPLimit => "erro ao incrementar contador do IP: "

/-- The text before the wrapped error when `Block` fails, per kind. -/
def msgBlock : LimitType → String
  | .TokenLimit => "erro ao bloquear token: "
  | .IPLimit => "erro ao bloquear IP: "

/-- The algorithm of the specification for one effective key, limit `limit`,
block duration `blockTime` and limit kind `kind`: deny at once when blocked,
else increment with a one-second window, block and deny when the count is
above the limit, else permit. -/
def allowKey {σ : Type} (store : RateLimiterStore σ) (now : Time) (key : String)
    (limit : Int) (blockTime : Duration) (kind : LimitType) (s : σ) : AllowResult σ :=
  match store.IsBlocked now key s with
  | (.error err, s1) =>
    { err := some (fmtErrorf (msgIsBlocked kind) err), store := s1,
      calls := [.IsBlocked key] }
  | (.ok true, s1) =>
    { err := deny kind, store := s1, calls := [.IsBlocked key] }
  | (.ok false, s1) =>
    match store.IncrementRequestCount now key Second s1 with
    | (.error err, s2) =>
      { err := some (fmtErrorf (msgIncrement kind) err), store := s2,
        calls := [.IsBlocked key, .IncrementRequestCount key Second] }
    | (.ok count, s2) =>
      if count > limit then
        match store.Block now key blockTime s2 with
        | (some err, s3) =>
          { err := some (fmtErrorf (msgBlock kind) err), store := s3,
            calls := [.IsBlocked key, .IncrementRequestCount key Second,
                      .Block key blockTime] }
        | (none, s3) =>
          { err := deny kind, store := s3,
            calls := [.IsBlocked key, .IncrementRequestCount key Second,
                      .Block key blockTime] }
      else
        { err := none, store := s2,
          calls := [.IsBlocked key, .IncrementRequestCount key Second] }

/-- A store every call of which fails with the error `e`; its state counts the
calls made. -/
def failingStore (e : GoError) : RateLimiterStore Nat :=
  { GetRequestCount := fun _ _ n => (.error e, n + 1),
    IncrementRequestCount := fun _ _ _ n => (.error e, n + 1),
    IsBlocked := fun _ _ n => (.error e, n + 1),
    Block := fun _ _ _ n => (some e, n + 1),
    Close := fun n => (some e, n + 1) }

/-! ## Sequences of store calls -/

/-- A call of one of the four counting methods of `RateLimiterStore`, with its
arguments. -/
inductive StoreOp where
  | GetRequestCount (key : String)
  | IncrementRequestCount (key : String) (expiration : Duration)
  | IsBlocked (key : String)
  | Block (key : String) (blockTime : Duration)
deriving DecidableEq, Repr

/-- What a store call returns: a count with an error, a flag with an error, or
only an error. -/
inductive OpResult where
  | count (r : Except GoError Int)
  | flag (r : Except GoError Bool)
  | done (r : Option GoError)
deriving DecidableEq

/-- One call on a store at the instant `now`: its result and the state it
leaves. -/
def RateLimiterStore.call {σ : Type} (st : RateLimiterStore σ) (now : Time) :
    StoreOp → σ → OpResult × σ
  | .GetRequestCount key, s =>
    ((OpResult.count (st.GetRequestCount now key s).1), (st.GetRequestCount now key s).2)
  | .IncrementRequestCount key expiration, s =>
    ((OpResult.count (st.IncrementRequestCount now key expiration s).1),
      (st.IncrementRequestCount now key expiration s).2)
  | .IsBlocked key, s =>
    ((OpResult.flag (st.IsBlocked now key s).1), (st.IsBlocked now key s).2)
  | .Block key blockTime, s =>
    ((OpResult.done (st.Block now key blockTime s).1), (st.Block now key blockTime s).2)

/-- A sequence of calls on a store, each at its own instant: the results in
order and the final state. -/
def RateLimiterStore.run {σ : Type} (st : RateLimiterStore σ) :
    List (Time × StoreOp) → σ → List OpResult × σ
  | [], s => ([], s)
  | (now, op) :: rest, s =>
    ((st.call now op s).1 :: (RateLimiterStore.run st rest (st.call now op s).2).1,
      (RateLimiterStore.run st rest (st.call now op s).2).2)

/-- The sweep `cleanup` of the in-memory store at the instant `now`: every key
whose window expiry has passed loses its counter and expiry, then every key
whose block has passed loses its block record. -/
def MemoryStore.cleanup (s : MemoryStore) (now : Time) : MemoryStore :=
  let s1 : MemoryStore :=
    { s with
      counts := fun key =>
        match s.expiryTime key with
        | some expiry => if now > expiry then none else s.counts key
        | none => s.counts key,
      expiryTime := fun key =>
        match s.expiryTime key with
        | some expiry => if now > expiry then none else some expiry
        | none => none }
  { s1 with
    blocked := fun key =>
      match s1.blocked key with
      | some blockUntil => if now > blockUntil then none else some blockUntil
      | none => none }

/-- As of time `t`, the store `b` is the store `a` with some records dropped
that had already expired: for every key, either the counter and window expiry
agree or the window of `a` ended before `t` and `b` has neither, and either
the block records agree or the block of `a` ended before `t` and `b` has none. -/
def MemoryStore.SweptAt (t : Time) (a b : MemoryStore) : Prop :=
  ∀ k : String,
    ((b.counts k = a.counts k ∧ b.expiryTime k = a.expiryTime k) ∨
      (∃ e, a.expiryTime k = some e ∧ e < t ∧ b.counts k = none ∧ b.expiryTime k = none)) ∧
    (b.blocked k = a.blocked k ∨
      (∃ u, a.blocked k = some u ∧ u < t ∧ b.blocked k = none))

/-! ## middleware/rate_limiter.go -/

/-- What the filter reads of an `*http.Request`: `Header name` is
`r.Header.Get(name)`, the empty string when the header is absent, and
`RemoteAddr` the peer address of the connection. -/
structure Request where
  Header : String → String
  RemoteAddr : String

/-- The two functions of the standard package `net` that `getClientIP` calls:
`ParseIP s` is `net.ParseIP(s).String()` when `net.ParseIP(s)` is not nil, and
`SplitHostPort` returns host and port or an error. -/
structure NetLib where
  ParseIP : String → Option String
  SplitHostPort : String → Except GoError (String × String)

/-- The loop of `getClientIP` over the alternate headers: the value of the
first header of the list that is not empty. -/
def firstHeader (r : Request) : List String → Option String
  | [] => none
  | header :: rest =>
    if r.Header header ≠ "" then some (r.Header header) else firstHeader r rest

/-- getClientIP: the parsed `X-Forwarded-For` header when it is present and
parses as an IP, else the first non-empty of `X-Real-IP` and `X-Client-IP`,
else the host part of `RemoteAddr`, or `RemoteAddr` itself when it does not
split. -/
def getClientIP (net : NetLib) (r : Request) : String :=
  let ip := r.Header "X-Forwarded-For"
  match (if ip ≠ "" then net.ParseIP ip else none) with
  | some ips => ips
  | none =>
    match firstHeader r ["X-Real-IP", "X-Client-IP"] with
    | some ip => ip
    | none =>
      match net.SplitHostPort r.RemoteAddr with
      | .error _ => r.RemoteAddr
      | .ok (ip, _) => ip

/-- What the filter does with a request: it hands it to the next handler
(`next.ServeHTTP(w, r)`) or replies itself with `http.Error(w, text, code)`. -/
inductive HandlerAction where
  | ServeNext (r : Request)
  | HttpError (text : String) (code : Nat)

/-- The constant `http.StatusTooManyRequests`. -/
def StatusTooManyRequests : Nat := 429

/-- The constant `http.StatusInternalServerError`. -/
def StatusInternalServerError : Nat := 500

/-- Middleware: the handler the filter wraps around `next`, run on one request
at the instant `now`: what it does, in order, and the store state it leaves. -/
def Middleware {σ : Type} (net : NetLib) (limiter : RateLimiter σ) (now : Time)
    (r : Request) (s : σ) : List HandlerAction × σ :=
  let ip := getClientIP net r
  let token := r.Header "API_KEY"
  let req : LimiterRequest := { IP := ip, Token := token }
  match (limiter.Allow now req s).err with
  | some err =>
    match err.asLimitExceeded with
    | some _ =>
      ([.HttpError err.Error StatusTooManyRequests], (limiter.Allow now req s).store)
    | none =>
      ([.HttpError "Internal Server Error" StatusInternalServerError],
        (limiter.Allow now req s).store)
  | none => ([.ServeNext r], (limiter.Allow now req s).store)

/-- A stand-in for package `net` on inputs without a forwarded address: nothing
parses as an IP and every address splits into itself and an empty port. -/
def plainNet : NetLib :=
  { ParseIP := fun _ => none, SplitHostPort := fun addr => .ok (addr, "") }

/-- A request without headers from the given peer address. -/
def bareRequest (remoteAddr : String) : Request :=
  { Header := fun _ => "", RemoteAddr := remoteAddr }

/-! ## store/redis.go -/

/-- The digits loop of `strconv.Atoi`: the number a string of ASCII digits
denotes, continuing from `acc`; nothing when a character is not a digit. -/
def parseDigits : List Char → Nat → Option Nat
  | [], acc => some acc
  | c :: cs, acc =>
    if c.isDigit then parseDigits cs (acc * 10 + (c.toNat - 48)) else none

/-- The standard function `strconv.Atoi`: an optional sign followed by at least
one decimal digit; a syntax error otherwise.  The range check is absent, `int`
being the unbounded integers. -/
def Atoi (s : String) : Except GoError Int :=
  match s.data with
  | [] => .error (.errorString ("strconv.Atoi: parsing " ++ s.quote ++ ": invalid syntax"))
  | c :: cs =>
    if c = '-' ∨ c = '+' then
      match cs, parseDigits cs 0 with
      | _ :: _, some n => .ok (if c = '-' then -(n : Int) else (n : Int))
      | _, _ =>
        .error (.errorString ("strconv.Atoi: parsing " ++ s.quote ++ ": invalid syntax"))
    else
      match parseDigits (c :: cs) 0 with
      | some n => .ok (n : Int)
      | none =>
        .error (.errorString ("strconv.Atoi: parsing " ++ s.quote ++ ": invalid syntax"))

/-- The outcome of `client.Get(ctx, key).Result()`: the error `redis.Nil` (the
key does not exist), another error, or the value. -/
inductive GetReply where
  | Nil
  | Err (err : GoError)
  | Val (val : String)
deriving DecidableEq

/-- The commands of the go-redis client that `RedisStore` issues, as a method
table over the state `ρ` of the service behind it.  Each method returns the
outcome of `.Result()` and the state the command leaves. -/
structure RedisClient (ρ : Type) where
  Get : Time → String → ρ → GetReply × ρ
  Incr : Time → String → ρ → Except GoError Int × ρ
  Expire : Time → String → Duration → ρ → Except GoError Bool × ρ
  Exists : Time → String → ρ → Except GoError Int × ρ
  Set : Time → String → String → Duration → ρ → Except GoError String × ρ
  Del : Time → String → ρ → Except GoError Int × ρ
  Close : ρ → Option GoError × ρ

/-- RedisStore: the store over a Redis client. -/
structure RedisStore (ρ : Type) where
  client : RedisClient ρ

namespace RedisStore

/-- The counter key `fmt.Sprintf("count:%s", key)`. -/
def countKey (key : String) : String := "count:" ++ key

/-- The block-marker key `fmt.Sprintf("blocked:%s", key)`. -/
def blockKey (key : String) : String := "blocked:" ++ key

/-- GetRequestCount: `GET count:key`; 0 when the key does not exist, else the
value parsed by `strconv.Atoi`. -/
def GetRequestCount {ρ : Type} (s : RedisStore ρ) (now : Time) (key : String) (r : ρ) :
    Except GoError Int × ρ :=
  match s.client.Get now (countKey key) r with
  | (.Nil, r1) => (.ok 0, r1)
  | (.Err err, r1) => (.error err, r1)
  | (.Val val, r1) =>
    match Atoi val with
    | .error err => (.error err, r1)
    | .ok count => (.ok count, r1)

/-- IncrementRequestCount: `INCR count:key`, then `EXPIRE count:key expiration`
when the value became 1; the outcome of `EXPIRE` is not looked at. -/
def IncrementRequestCount {ρ : Type} (s : RedisStore ρ) (now : Time) (key : String)
    (expiration : Duration) (r : ρ) : Except GoError Int × ρ :=
  match s.client.Incr now (countKey key) r with
  | (.error err, r1) => (.error err, r1)
  | (.ok val, r1) =>
    if val = 1 then
      (.ok val, (s.client.Expire now (countKey key) expiration r1).2)
    else
      (.ok val, r1)

/-- IsBlocked: `EXISTS blocked:key` is greater than 0. -/
def IsBlocked {ρ : Type} (s : RedisStore ρ) (now : Time) (key : String) (r : ρ) :
    Except GoError Bool × ρ :=
  match s.client.Exists now (blockKey key) r with
  | (.error err, r1) => (.error err, r1)
  | (.ok found, r1) => (.ok (decide (found > 0)), r1)

/-- Block: `SET blocked:key "1"` with the block time as expiration, then
`DEL count:key`. -/
def Block {ρ : Type} (s : RedisStore ρ) (now : Time) (key : String) (blockTime : Duration)
    (r : ρ) : Option GoError × ρ :=
  match s.client.Set now (blockKey key) "1" blockTime r with
  | (.error err, r1) => (some err, r1)
  | (.ok _, r1) =>
    match s.client.Del now (countKey key) r1 with
    | (.error err, r2) => (some err, r2)
    | (.ok _, r2) => (none, r2)

/-- Close: close the client. -/
def Close {ρ : Type} (s : RedisStore ρ) (r : ρ) : Option GoError × ρ :=
  s.client.Close r

/-- The `RedisStore` methods as an implementation of `RateLimiterStore`. -/
def methods {ρ : Type} (s : RedisStore ρ) : RateLimiterStore ρ :=
  { GetRequestCount := fun now key r => s.GetRequestCount now key r,
    IncrementRequestCount := fun now key expiration r =>
      s.IncrementRequestCount now key expiration r,
    IsBlocked := fun now key r => s.IsBlocked now key r,
    Block := fun now key blockTime r => s.Block now key blockTime r,
    Close := fun r => s.Close r }

end RedisStore

/-- A command sent to the service, with its arguments. -/
inductive RedisCmd where
  | Get (key : String)
  | Incr (key : String)
  | Expire (key : String) (expiration : Duration)
  | Exists (key : String)
  | Set (key : String) (value : String) (expiration : Duration)
  | Del (key : String)
  | Close
deriving DecidableEq, Repr

/-- A client that behaves as `c` and also records, in order, the commands it
is asked to send. -/
def RedisClient.traced {ρ : Type} (c : RedisClient ρ) : RedisClient (ρ × List RedisCmd) :=
  { Get := fun now key r => ((c.Get now key r.1).1, ((c.Get now key r.1).2, r.2 ++ [.Get key])),
    Incr := fun now key r =>
      ((c.Incr now key r.1).1, ((c.Incr now key r.1).2, r.2 ++ [.Incr key])),
    Expire := fun now key d r =>
      ((c.Expire now key d r.1).1, ((c.Expire now key d r.1).2, r.2 ++ [.Expire key d])),
    Exists := fun now key r =>
      ((c.Exists now key r.1).1, ((c.Exists now key r.1).2, r.2 ++ [.Exists key])),
    Set := fun now key value d r =>
      ((c.Set now key value d r.1).1,
        ((c.Set now key value d r.1).2, r.2 ++ [.Set key value d])),
    Del := fun now key r =>
      ((c.Del now key r.1).1, ((c.Del now key r.1).2, r.2 ++ [.Del key])),
    Close := fun r => ((c.Close r.1).1, ((c.Close r.1).2, r.2 ++ [.Close])) }

/-- A client that behaves as `c` except that every `EXPIRE` fails with `e` and
changes nothing. -/
def RedisClient.failingExpire {ρ : Type} (c : RedisClient ρ) (e : GoError) : RedisClient ρ :=
  { c with Expire := fun _ _ _ r => (.error e, r) }

/-! ## How the client sends a duration -/

/-- The constant `time.Millisecond`. -/
def Millisecond : Duration := 1000000

/-- The constant `redis.KeepTTL` of the client. -/
def KeepTTL : Duration := -1

/-- The function `usePrecise` of the go-redis client: whether `Set` sends a
duration in milliseconds (`PX`) rather than in seconds (`EX`). -/
def usePrecise (dur : Duration) : Bool :=
  decide (dur < Second ∨ Int.tmod dur Second ≠ 0)

/-- The function `formatMs` of the go-redis client: a duration as a whole
number of milliseconds, cut off towards zero; 1 for a positive duration below
one millisecond. -/
def formatMs (dur : Duration) : Int :=
  if dur > 0 ∧ dur < Millisecond then 1 else Int.tdiv dur Millisecond

/-- The function `formatSec` of the go-redis client, which `Expire` applies to
its duration: a whole number of seconds, cut off towards zero; 1 for a positive
duration below one second. -/
def formatSec (dur : Duration) : Int :=
  if dur > 0 ∧ dur < Second then 1 else Int.tdiv dur Second

/-! ## The key-value service -/

/-- The decimal digits of `n`, most significant first, in front of `acc`;
`fuel` bounds the number of digits. -/
def decimalDigits : Nat → Nat → List Char → List Char
  | 0, _, acc => acc
  | fuel + 1, n, acc =>
    if n < 10 then Char.ofNat (48 + n) :: acc
    else decimalDigits fuel (n / 10) (Char.ofNat (48 + n % 10) :: acc)

/-- The decimal text of an integer, as the service stores a counter. -/
def formatInt : Int → String
  | .ofNat m => String.mk (decimalDigits (m + 1) m [])
  | .negSucc m => String.mk ('-' :: decimalDigits (m + 2) (m + 1) [])

/-- When a key with a time-to-live is gone: once the current time is after the
deadline `set time + time-to-live`, or already at the deadline. -/
inductive ExpiryRule where
  | afterDeadline
  | atDeadline
deriving DecidableEq, Repr

/-- Whether a deadline has passed under a rule; a key without deadline never
expires. -/
def ExpiryRule.expired : ExpiryRule → Time → Option Time → Bool
  | _, _, none => false
  | .afterDeadline, now, some deadline => decide (now > deadline)
  | .atDeadline, now, some deadline => decide (now ≥ deadline)

/-- An entry of the service: a string value and the deadline of its
time-to-live, if it has one. -/
structure RedisEntry where
  value : String
  deadline : Option Time
deriving DecidableEq, Repr

/-- The state of the service: a key-value map with per-key time-to-live. -/
abbrev RedisDB := String → Option RedisEntry

/-- The empty service. -/
def RedisDB.empty : RedisDB := fun _ => none

/-- The entry of a key that the service shows at the instant `now`: none when
the key is missing or its time-to-live has run out. -/
def RedisDB.lookup (rule : ExpiryRule) (db : RedisDB) (now : Time) (key : String) :
    Option RedisEntry :=
  match db key with
  | some entry => if rule.expired now entry.deadline then none else some entry
  | none => none

/-- Modelled from the spec: the external key-value service behind the Redis
client, which is not part of the repository: a key-value map with per-key
time-to-live in which every command succeeds, offering atomic increment,
set-expiry, existence check, set-with-expiry and delete.  `INCR` creates a
missing key with value 1 and no time-to-live and keeps the time-to-live of an
existing one.  The time-to-live is what the go-redis client sends: `Expire`
sends `EXPIRE key formatSec(d)`, whole seconds, which puts the deadline that
many seconds after `now` and deletes the key when the number is not positive;
`Set` sends `PX formatMs(d)` or `EX formatSec(d)` for a positive duration,
`KEEPTTL` for the duration `redis.KeepTTL`, and no time-to-live otherwise.  A
key whose time-to-live has run out under `rule` is treated as missing by every
command. -/
def redisService (rule : ExpiryRule) : RedisClient RedisDB :=
  { Get := fun now key db =>
      match db.lookup rule now key with
      | some entry => (.Val entry.value, db)
      | none => (.Nil, db),
    Incr := fun now key db =>
      match db.lookup rule now key with
      | some entry =>
        match Atoi entry.value with
        | .ok n =>
          (.ok (n + 1),
            Function.update db key (some { value := formatInt (n + 1),
                                           deadline := entry.deadline }))
        | .error _ =>
          (.error (.errorString "ERR value is not an integer or out of range"), db)
      | none =>
        (.ok 1, Function.update db key (some { value := formatInt 1, deadline := none })),
    Expire := fun now key d db =>
      match db.lookup rule now key with
      | some entry =>
        if formatSec d > 0 then
          (.ok true,
            Function.update db key
              (some { value := entry.value, deadline := some (now + formatSec d * Second) }))
        else
          (.ok true, Function.update db key none)
      | none => (.ok false, db),
    Exists := fun now key db =>
      match db.lookup rule now key with
      | some _ => (.ok 1, db)
      | none => (.ok 0, db),
    Set := fun now key value d db =>
      (.ok "OK",
        Function.update db key
          (some { value := value,
                  deadline :=
                    if d > 0 then
                      if usePrecise d then some (now + formatMs d * Millisecond)
                      else some (now + formatSec d * Second)
                    else if d = KeepTTL then
                      match db.lookup rule now key with
                      | some entry => entry.deadline
                      | none => none
                    else none })),
    Del := fun now key db =>
      match db.lookup rule now key with
      | some _ => (.ok 1, Function.update db key none)
      | none => (.ok 0, Function.update db key none),
    Close := fun db => (none, db) }

/-- The `RedisStore` over the modelled service. -/
def redisStore (rule : ExpiryRule) : RedisStore RedisDB :=
  { client := redisService rule }

/-! ## Comparing the two stores -/

/-- The duration argument of a store call, when it has one. -/
def StoreOp.duration : StoreOp → Option Duration
  | .IncrementRequestCount _ d => some d
  | .Block _ d => some d
  | _ => none

/-- The deadline `t + d` that the call `earlier`, made at `t`, may give to the
record the call `later` reads: the window an increment opens is read by the
counts and increments of the same key, the block a `Block` sets by `IsBlocked`
on the same key. -/
def StoreOp.deadlineFor (earlier : StoreOp) (t : Time) (later : StoreOp) : Option Time :=
  match earlier, later with
  | .IncrementRequestCount k d, .GetRequestCount k' => if k = k' then some (t + d) else none
  | .IncrementRequestCount k d, .IncrementRequestCount k' _ =>
    if k = k' then some (t + d) else none
  | .Block k d, .IsBlocked k' => if k = k' then some (t + d) else none
  | _, _ => none

/-- No call of the sequence reads a record at the very instant at which a
duration given by an earlier call of the sequence runs out. -/
def offDeadlines (ops : List (Time × StoreOp)) : Prop :=
  ops.Pairwise (fun a b => a.2.deadlineFor a.1 b.2 ≠ some b.1)

/-- Every duration given in the sequence is positive. -/
def positiveDurations (ops : List (Time × StoreOp)) : Prop :=
  ∀ c ∈ ops, ∀ d, c.2.duration = some d → 0 < d

/-- The duration of a store call is one the client sends to the service as it
is: a window of whole seconds, a block time of whole milliseconds. -/
def StoreOp.wholeDuration : StoreOp → Prop
  | .IncrementRequestCount _ d => Second ∣ d
  | .Block _ d => Millisecond ∣ d
  | _ => True

/-- Every window given in the sequence is a whole number of seconds and every
block time a whole number of milliseconds. -/
def wholeDurations (ops : List (Time × StoreOp)) : Prop :=
  ∀ c ∈ ops, c.2.wholeDuration

/-- The service holds exactly the records of the in-memory store: under
`count:k` the counter of `k` as decimal text with the window expiry as
deadline, under `blocked:k` the marker `"1"` with the block expiry as deadline. -/
def RedisMirrors (m : MemoryStore) (db : RedisDB) : Prop :=
  ∀ k : String,
    db (RedisStore.countKey k) =
      (m.counts k).map (fun c => { value := formatInt c, deadline := m.expiryTime k }) ∧
    db (RedisStore.blockKey k) =
      (m.blocked k).map (fun u => { value := "1", deadline := some u })

/-- The call `op` at the instant `t` does not read a record of the store at
the very instant its deadline falls. -/
def MemoryStore.offDeadline (m : MemoryStore) (t : Time) (op : StoreOp) : Prop :=
  match op with
  | .GetRequestCount k => m.expiryTime k ≠ some t
  | .IncrementRequestCount k _ => m.expiryTime k ≠ some t
  | .IsBlocked k => m.blocked k ≠ some t
  | .Block _ _ => True

/-! ## Reachable states of the in-memory store -/

/-- The representation invariant of the in-memory store: the counts map and
the expiryTime map have the same keys, and every stored count is at least 1. -/
def MemoryStore.RepInv (s : MemoryStore) : Prop :=
  ∀ k : String,
    ((s.counts k).isSome = (s.expiryTime k).isSome) ∧ ∀ v, s.counts k = some v → 1 ≤ v

/-- One thing that happens to the in-memory store of a limiter: an `Allow` call
or a sweep of the cleanup routine, at an instant. -/
inductive MemStep where
  | Allow (now : Time) (req : LimiterRequest)
  | cleanup (now : Time)

/-- The instant of a step. -/
def MemStep.time : MemStep → Time
  | .Allow now _ => now
  | .cleanup now => now

/-- The store a step leaves. -/
def RateLimiter.step (rl : RateLimiter MemoryStore) : MemStep → MemoryStore → MemoryStore
  | .Allow now req, s => (rl.Allow now req s).store
  | .cleanup now, s => s.cleanup now

/-- The store a sequence of steps leaves. -/
def RateLimiter.steps (rl : RateLimiter MemoryStore) : List MemStep → MemoryStore → MemoryStore
  | [], s => s
  | st :: rest, s => RateLimiter.steps rl rest (rl.step st s)

/-- Whether a call with its outcome is a permitted call for the key `k` at a
time in the half-open interval from `a` to `a + time.Second`. -/
def admittedIn (k : String) (a : Time) (p : (Time × LimiterRequest) × Option GoError) : Bool :=
  decide (effectiveKey p.1.2 = k) && decide (p.2 = none) && decide (a ≤ p.1.1) &&
    decide (p.1.1 < a + Second)

/-- The number of permitted calls for the key `k`, among `calls` run in order
from the store `s`, whose times fall in the half-open interval from `a` to
`a + time.Second`. -/
def RateLimiter.admitted (rl : RateLimiter MemoryStore) (k : String) (a : Time)
    (calls : List (Time × LimiterRequest)) (s : MemoryStore) : Nat :=
  (List.zip calls (rl.AllowSeq calls s).1).countP (admittedIn k a)

/-- An upper bound on the calls for `k` that can still be permitted before the
instant `D`, read off the records of `k`: what is left of the limit `L` in a
window that closes at or after `D`; that and one more window for a window that
closes before `D`; one window without a counter; nothing while blocked until
`D` or later. -/
def MemoryStore.admitBudget (s : MemoryStore) (k : String) (L : Int) (D : Time) : Int :=
  match s.counts k with
  | some v =>
    match s.expiryTime k with
    | some ew => if D ≤ ew then L - v else 2 * L - v
    | none => 2 * L - v
  | none =>
    match s.blocked k with
    | some u => if D ≤ u then 0 else L
    | none => L

/-- Every stored count is at least 1, belongs to the effective key of some
request, and is at most the limit of the kind of that request. -/
def RateLimiter.CountsWithinLimits (rl : RateLimiter MemoryStore) (s : MemoryStore) : Prop :=
  ∀ (key : String) (v : Int), s.counts key = some v →
    1 ≤ v ∧ ∃ req : LimiterRequest,
      effectiveKey req = key ∧ v ≤ rl.config.limitOf (limitKind req)

/-- A key that has both a block record and a counter has a block that ended at
or before the instant `t`. -/
def MemoryStore.BlocksEndedBy (s : MemoryStore) (t : Time) : Prop :=
  ∀ (key : String) (u : Time) (v : Int),
    s.blocked key = some u → s.counts key = some v → u ≤ t

/-! ## Package net on IPv4 text -/

/-- The fields of a text between its dots. -/
def dotFields : List Char → List (List Char)
  | [] => [[]]
  | c :: cs =>
    if c = '.' then [] :: dotFields cs
    else
      match dotFields cs with
      | [] => [[c]]
      | f :: fs => (c :: f) :: fs

/-- A field of an IPv4 text: one to three decimal digits, no zero before
another digit, a value of at most 255. -/
def ipv4Field (cs : List Char) : Bool :=
  match parseDigits cs 0 with
  | some n =>
    decide (1 ≤ cs.length) && decide (cs.length ≤ 3) && decide (n ≤ 255) &&
      (decide (cs.length = 1) || decide (cs.head? ≠ some '0'))
  | none => false

/-- The parts of an address before and after its last colon. -/
def splitLastColon : List Char → Option (List Char × List Char)
  | [] => none
  | c :: cs =>
    match splitLastColon cs with
    | some (host, port) => some (c :: host, port)
    | none => if c = ':' then some ([], cs) else none

/-- A stand-in for package `net` on IPv4 text: `ParseIP` accepts the dotted
decimal form of four fields and returns it as written, which is how
`IP.String` prints it, and accepts nothing else; `SplitHostPort` splits at the
last colon and fails without one.  IPv6 text is outside this stand-in. -/
def dottedNet : NetLib :=
  { ParseIP := fun s =>
      if (dotFields s.data).length = 4 ∧ (dotFields s.data).all ipv4Field = true then some s
      else none,
    SplitHostPort := fun addr =>
      match splitLastColon addr.data with
      | some (host, port) => .ok (String.mk host, String.mk port)
      | none => .error (.errorString ("address " ++ addr ++ ": missing port in address")) }

/-- A request with the given headers, as name and value, from the given peer
address. -/
def requestWith (headers : List (String × String)) (remoteAddr : String) : Request :=
  { Header := fun name => ((headers.find? (fun h => h.1 = name)).map Prod.snd).getD "",
    RemoteAddr := remoteAddr }

/-! ## Properties -/

/-- The two branches of `Allow` are one algorithm run on the effective key
with the limit and block duration of the request's kind. -/
theorem Allow_eq_allowKey {σ : Type} (rl : RateLimiter σ) (now : Time)
    (req : LimiterRequest) (s : σ) :
    rl.Allow now req s =
      allowKey rl.store now (effectiveKey req) (rl.config.limitOf (limitKind req))
        (rl.config.blockTimeOf (limitKind req)) (limitKind req) s := by
  unfold RateLimiter.Allow allowKey effectiveKey limitKind
  by_cases hT : req.Token ≠ ""
  · simp only [hT, if_true, ne_eq, not_false_eq_true, LimiterConfig.limitOf,
      LimiterConfig.blockTimeOf, msgIsBlocked, msgIncrement, msgBlock, deny]
    rcases h1 : rl.store.IsBlocked now ("token:" ++ req.Token) s with ⟨r1, s1⟩
    rcases r1 with e1 | b1
    · rfl
    · cases b1 <;> simp
  · simp only [hT, if_false, ne_eq, not_false_eq_true, LimiterConfig.limitOf,
      LimiterConfig.blockTimeOf, msgIsBlocked, msgIncrement, msgBlock, deny]
    rcases h1 : rl.store.IsBlocked now ("ip:" ++ req.IP) s with ⟨r1, s1⟩
    rcases r1 with e1 | b1
    · rfl
    · cases b1 <;> simp

/-! ### The in-memory store -/

/-- An increment that opens a window: the counter was zero or its window had
expired. -/
theorem MemoryStore.IncrementRequestCount_fresh (s : MemoryStore) (now : Time)
    (key : String) (d : Duration)
    (h : s.countAt key = 0 ∨ s.windowExpired now key = true) :
    s.IncrementRequestCount now key d =
      (.ok 1,
        { counts := Function.update s.counts key (some 1),
          blocked := s.blocked,
          expiryTime := Function.update s.expiryTime key (some (now + d)) }) := by
  unfold MemoryStore.IncrementRequestCount
  by_cases hw : s.windowExpired now key = true
  · simp [hw, MemoryStore.countAt]
  · rcases h with h | h
    · simp only [Bool.not_eq_true] at hw
      simp only [MemoryStore.countAt] at h
      simp [hw, h, MemoryStore.countAt]
    · exact absurd h hw

/-- An increment inside a live window: the counter is non-zero and the window
has not expired. -/
theorem MemoryStore.IncrementRequestCount_live (s : MemoryStore) (now : Time)
    (key : String) (d : Duration)
    (h0 : s.countAt key ≠ 0) (hw : s.windowExpired now key = false) :
    s.IncrementRequestCount now key d =
      (.ok (s.countAt key + 1),
        { counts := Function.update s.counts key (some (s.countAt key + 1)),
          blocked := s.blocked,
          expiryTime := s.expiryTime }) := by
  unfold MemoryStore.IncrementRequestCount
  simp only [MemoryStore.countAt] at h0
  simp [hw, h0, MemoryStore.countAt]

/-- The increment returns the counter it leaves, and no error. -/
theorem MemoryStore.IncrementRequestCount_fst (s : MemoryStore) (now : Time)
    (key : String) (d : Duration) :
    (s.IncrementRequestCount now key d).1 =
      .ok ((s.IncrementRequestCount now key d).2.countAt key) := rfl

/-- The increment leaves every block record as it was. -/
theorem MemoryStore.IncrementRequestCount_blocked (s : MemoryStore) (now : Time)
    (key : String) (d : Duration) :
    (s.IncrementRequestCount now key d).2.blocked = s.blocked := by
  unfold MemoryStore.IncrementRequestCount
  simp only
  split <;> split <;> rfl

/-- The counter the increment leaves is stored in the map. -/
theorem MemoryStore.IncrementRequestCount_counts (s : MemoryStore) (now : Time)
    (key : String) (d : Duration) :
    (s.IncrementRequestCount now key d).2.counts key =
      some ((s.IncrementRequestCount now key d).2.countAt key) := by
  unfold MemoryStore.IncrementRequestCount
  simp only
  split <;> split <;> simp [MemoryStore.countAt]

/-- On a blocked key the in-memory limiter denies and leaves the store as it was. -/
theorem allowKey_memory_blocked (s : MemoryStore) (now : Time) (key : String)
    (L : Int) (B : Duration) (kind : LimitType) (hb : s.blockedAt now key = true) :
    allowKey MemoryStore.methods now key L B kind s =
      { err := deny kind, store := s, calls := [.IsBlocked key] } := by
  simp [allowKey, MemoryStore.methods, MemoryStore.IsBlocked, hb]

/-- On a key that is not blocked the in-memory limiter increments and compares. -/
theorem allowKey_memory_open (s : MemoryStore) (now : Time) (key : String)
    (L : Int) (B : Duration) (kind : LimitType) (hb : s.blockedAt now key = false) :
    allowKey MemoryStore.methods now key L B kind s =
      if (s.IncrementRequestCount now key Second).2.countAt key > L then
        { err := deny kind,
          store := ((s.IncrementRequestCount now key Second).2.Block now key B).2,
          calls := [.IsBlocked key, .IncrementRequestCount key Second, .Block key B] }
      else
        { err := none,
          store := (s.IncrementRequestCount now key Second).2,
          calls := [.IsBlocked key, .IncrementRequestCount key Second] } := by
  have h1 := MemoryStore.IncrementRequestCount_fst s now key Second
  rcases h : s.IncrementRequestCount now key Second with ⟨r, s1⟩
  rw [h] at h1
  simp only at h1
  simp only [allowKey, MemoryStore.methods, MemoryStore.IsBlocked, hb, h, h1]
  split <;> simp [MemoryStore.Block]

/-- A window whose expiry is not yet passed has not expired. -/
theorem MemoryStore.windowExpired_of_le (s : MemoryStore) (now e : Time) (key : String)
    (he : s.expiryTime key = some e) (h : now ≤ e) : s.windowExpired now key = false := by
  simp [MemoryStore.windowExpired, he, h]

/-- A key without a block record is not blocked. -/
theorem MemoryStore.blockedAt_of_none (s : MemoryStore) (now : Time) (key : String)
    (h : s.blocked key = none) : s.blockedAt now key = false := by
  simp [MemoryStore.blockedAt, h]

/-- One permitted or denied request inside a live window of an unblocked key:
the count goes from `c` to `c + 1` and is compared with the limit. -/
theorem Allow_memory_live (rl : RateLimiter MemoryStore)
    (hs : rl.store = MemoryStore.methods) (now e : Time) (req : LimiterRequest)
    (s : MemoryStore) (c : Int)
    (hb : s.blocked (effectiveKey req) = none)
    (hc : s.counts (effectiveKey req) = some c) (hc0 : c ≠ 0)
    (he : s.expiryTime (effectiveKey req) = some e) (hnow : now ≤ e) :
    rl.Allow now req s =
      if c + 1 > rl.config.limitOf (limitKind req) then
        { err := deny (limitKind req),
          store :=
            { counts := Function.update s.counts (effectiveKey req) none,
              blocked := Function.update s.blocked (effectiveKey req)
                (some (now + rl.config.blockTimeOf (limitKind req))),
              expiryTime := Function.update s.expiryTime (effectiveKey req) none },
          calls := [.IsBlocked (effectiveKey req),
                    .IncrementRequestCount (effectiveKey req) Second,
                    .Block (effectiveKey req) (rl.config.blockTimeOf (limitKind req))] }
      else
        { err := none,
          store :=
            { counts := Function.update s.counts (effectiveKey req) (some (c + 1)),
              blocked := s.blocked,
              expiryTime := s.expiryTime },
          calls := [.IsBlocked (effectiveKey req),
                    .IncrementRequestCount (effectiveKey req) Second] } := by
  have hca : s.countAt (effectiveKey req) = c := by simp [MemoryStore.countAt, hc]
  rw [Allow_eq_allowKey, hs,
    allowKey_memory_open _ _ _ _ _ _ (MemoryStore.blockedAt_of_none s now _ hb),
    MemoryStore.IncrementRequestCount_live s now _ Second (by rw [hca]; exact hc0)
      (MemoryStore.windowExpired_of_le s now e _ he hnow), hca]
  simp [MemoryStore.countAt, MemoryStore.Block]

/-- The first request on an unblocked key whose counter is zero: the count
becomes 1, the window closes one second later. -/
theorem Allow_memory_fresh (rl : RateLimiter MemoryStore)
    (hs : rl.store = MemoryStore.methods) (now : Time) (req : LimiterRequest)
    (s : MemoryStore)
    (hb : s.blockedAt now (effectiveKey req) = false)
    (hc : s.countAt (effectiveKey req) = 0 ∨ s.windowExpired now (effectiveKey req) = true) :
    rl.Allow now req s =
      if 1 > rl.config.limitOf (limitKind req) then
        { err := deny (limitKind req),
          store :=
            { counts := Function.update s.counts (effectiveKey req) none,
              blocked := Function.update s.blocked (effectiveKey req)
                (some (now + rl.config.blockTimeOf (limitKind req))),
              expiryTime := Function.update s.expiryTime (effectiveKey req) none },
          calls := [.IsBlocked (effectiveKey req),
                    .IncrementRequestCount (effectiveKey req) Second,
                    .Block (effectiveKey req) (rl.config.blockTimeOf (limitKind req))] }
      else
        { err := none,
          store :=
            { counts := Function.update s.counts (effectiveKey req) (some 1),
              blocked := s.blocked,
              expiryTime := Function.update s.expiryTime (effectiveKey req)
                (some (now + Second)) },
          calls := [.IsBlocked (effectiveKey req),
                    .IncrementRequestCount (effectiveKey req) Second] } := by
  rw [Allow_eq_allowKey, hs, allowKey_memory_open _ _ _ _ _ _ hb,
    MemoryStore.IncrementRequestCount_fresh s now _ Second hc]
  simp [MemoryStore.countAt, MemoryStore.Block]

/-- Unfolding a sequence of calls at its first call. -/
theorem AllowSeq_cons {σ : Type} (rl : RateLimiter σ) (now : Time) (req : LimiterRequest)
    (rest : List (Time × LimiterRequest)) (s : σ) :
    rl.AllowSeq ((now, req) :: rest) s =
      ((rl.Allow now req s).err :: (rl.AllowSeq rest (rl.Allow now req s).store).1,
        (rl.AllowSeq rest (rl.Allow now req s).store).2) := rfl

/-- Requests inside a live window of an unblocked key: with the count at `c`
and `c + m` equal to the limit, the next `m` requests are permitted and the one
after them is denied. -/
theorem AllowSeq_memory_live (rl : RateLimiter MemoryStore)
    (hs : rl.store = MemoryStore.methods) (req : LimiterRequest) (e : Time) :
    ∀ (m : Nat) (ts : List Time) (s : MemoryStore) (c : Int),
      ts.length = m + 1 → (∀ t ∈ ts, t ≤ e) →
      s.blocked (effectiveKey req) = none →
      s.counts (effectiveKey req) = some c → 0 < c →
      s.expiryTime (effectiveKey req) = some e →
      c + m = rl.config.limitOf (limitKind req) →
      (rl.AllowSeq (ts.map fun t => (t, req)) s).1 =
        List.replicate m none ++ [deny (limitKind req)] := by
  intro m
  induction m with
  | zero =>
    intro ts s c hlen hwin hb hc hc0 he hL
    match ts, hlen with
    | [t], _ =>
      have ht : t ≤ e := hwin t (by simp)
      simp only [List.map_cons, List.map_nil, AllowSeq_cons,
        Allow_memory_live rl hs t e req s c hb hc (ne_of_gt hc0) he ht]
      have : c + 1 > rl.config.limitOf (limitKind req) := by
        rw [← hL]; simp
      simp [this, RateLimiter.AllowSeq]
  | succ m ih =>
    intro ts s c hlen hwin hb hc hc0 he hL
    match ts, hlen with
    | t :: ts', hlen' =>
      have ht : t ≤ e := hwin t (by simp)
      have hle : ¬ (c + 1 > rl.config.limitOf (limitKind req)) := by
        rw [← hL]; push_cast; omega
      simp only [List.map_cons, AllowSeq_cons,
        Allow_memory_live rl hs t e req s c hb hc (ne_of_gt hc0) he ht, hle, if_false]
      rw [ih ts'
        { counts := Function.update s.counts (effectiveKey req) (some (c + 1)),
          blocked := s.blocked, expiryTime := s.expiryTime }
        (c + 1) (by simpa using hlen') (fun u hu => hwin u (by simp [hu]))
        hb (by simp) (by omega) he (by rw [← hL]; push_cast; omega)]
      simp [List.replicate_succ]

/-- Requests on a fresh key: with the counter at zero, no block record and
every later request at most one second after the first, the first
`limit` requests are permitted and the next one is denied. -/
theorem AllowSeq_memory_fresh (rl : RateLimiter MemoryStore)
    (hs : rl.store = MemoryStore.methods) (req : LimiterRequest) (t1 : Time)
    (rest : List Time) (s : MemoryStore)
    (hc : s.countAt (effectiveKey req) = 0)
    (hb : s.blocked (effectiveKey req) = none)
    (hlen : rest.length = (rl.config.limitOf (limitKind req)).toNat)
    (hwin : ∀ t ∈ rest, t ≤ t1 + Second) :
    (rl.AllowSeq ((t1 :: rest).map fun t => (t, req)) s).1 =
      List.replicate (rl.config.limitOf (limitKind req)).toNat none ++
        [deny (limitKind req)] := by
  have hfresh := Allow_memory_fresh rl hs t1 req s
    (MemoryStore.blockedAt_of_none s t1 _ hb) (Or.inl hc)
  by_cases hL : 1 > rl.config.limitOf (limitKind req)
  · have h0 : (rl.config.limitOf (limitKind req)).toNat = 0 := by omega
    rw [h0] at hlen ⊢
    have hr : rest = [] := List.length_eq_zero.mp hlen
    subst hr
    simp [AllowSeq_cons, hfresh, hL, RateLimiter.AllowSeq]
  · obtain ⟨m, hm⟩ : ∃ m : Nat, (rl.config.limitOf (limitKind req)).toNat = m + 1 :=
      ⟨(rl.config.limitOf (limitKind req)).toNat - 1, by omega⟩
    simp only [List.map_cons, AllowSeq_cons, hfresh, hL, if_false, hm]
    rw [AllowSeq_memory_live rl hs req (t1 + Second) m rest
      { counts := Function.update s.counts (effectiveKey req) (some 1),
        blocked := s.blocked,
        expiryTime := Function.update s.expiryTime (effectiveKey req) (some (t1 + Second)) }
      1 (by rw [hlen, hm]) hwin hb (by simp) (by norm_num) (by simp) (by omega)]
    simp [List.replicate_succ]

/-- A credential key and an address key never coincide. -/
theorem token_key_ne_ip_key (t a : String) : "token:" ++ t ≠ "ip:" ++ a := by
  intro h
  have h2 := congrArg String.data h
  rw [String.data_append, String.data_append] at h2
  have h3 : ("token:" : String).data = 't' :: ("oken:" : String).data := rfl
  have h4 : ("ip:" : String).data = 'i' :: ("p:" : String).data := rfl
  rw [h3, h4] at h2
  simp at h2

/-- Requests with the same effective key are of the same kind. -/
theorem limitKind_eq_of_key_eq (r1 r2 : LimiterRequest)
    (h : effectiveKey r1 = effectiveKey r2) : limitKind r1 = limitKind r2 := by
  unfold effectiveKey at h
  unfold limitKind
  by_cases h1 : r1.Token ≠ "" <;> by_cases h2 : r2.Token ≠ ""
  · simp [h1, h2]
  · rw [if_pos h1, if_neg h2] at h
    exact absurd h (token_key_ne_ip_key _ _)
  · rw [if_neg h1, if_pos h2] at h
    exact absurd h.symm (token_key_ne_ip_key _ _)
  · simp [h1, h2]

/-- The increment changes no record of another key. -/
theorem MemoryStore.IncrementRequestCount_frame (s : MemoryStore) (now : Time)
    (key : String) (d : Duration) (k : String) (hk : k ≠ key) :
    (s.IncrementRequestCount now key d).2.counts k = s.counts k ∧
    (s.IncrementRequestCount now key d).2.expiryTime k = s.expiryTime k ∧
    (s.IncrementRequestCount now key d).2.blocked k = s.blocked k := by
  unfold MemoryStore.IncrementRequestCount
  simp only
  split <;> split <;> simp [Function.update_noteq hk]

/-- Blocking a key changes no record of another key. -/
theorem MemoryStore.Block_frame (s : MemoryStore) (now : Time)
    (key : String) (B : Duration) (k : String) (hk : k ≠ key) :
    (s.Block now key B).2.counts k = s.counts k ∧
    (s.Block now key B).2.expiryTime k = s.expiryTime k ∧
    (s.Block now key B).2.blocked k = s.blocked k := by
  simp [MemoryStore.Block, Function.update_noteq hk]

/-- One `Allow` call on the in-memory store changes no record of a key other
than the effective key of the request. -/
theorem Allow_memory_frame (rl : RateLimiter MemoryStore)
    (hs : rl.store = MemoryStore.methods) (now : Time) (req : LimiterRequest)
    (s : MemoryStore) (k : String) (hk : k ≠ effectiveKey req) :
    (rl.Allow now req s).store.counts k = s.counts k ∧
    (rl.Allow now req s).store.expiryTime k = s.expiryTime k ∧
    (rl.Allow now req s).store.blocked k = s.blocked k := by
  rw [Allow_eq_allowKey, hs]
  cases hb : s.blockedAt now (effectiveKey req)
  · rw [allowKey_memory_open _ _ _ _ _ _ hb]
    have h1 := MemoryStore.IncrementRequestCount_frame s now (effectiveKey req) Second k hk
    have h2 := MemoryStore.Block_frame (s.IncrementRequestCount now (effectiveKey req) Second).2
      now (effectiveKey req) (rl.config.blockTimeOf (limitKind req)) k hk
    split
    · exact ⟨h2.1.trans h1.1, h2.2.1.trans h1.2.1, h2.2.2.trans h1.2.2⟩
    · exact h1
  · rw [allowKey_memory_blocked _ _ _ _ _ _ hb]
    exact ⟨rfl, rfl, rfl⟩

/-- A sequence of `Allow` calls on the in-memory store changes no record of a
key that is the effective key of none of its requests. -/
theorem AllowSeq_memory_frame (rl : RateLimiter MemoryStore)
    (hs : rl.store = MemoryStore.methods) (k : String) :
    ∀ (calls : List (Time × LimiterRequest)) (s : MemoryStore),
      (∀ c ∈ calls, k ≠ effectiveKey c.2) →
      (rl.AllowSeq calls s).2.counts k = s.counts k ∧
      (rl.AllowSeq calls s).2.expiryTime k = s.expiryTime k ∧
      (rl.AllowSeq calls s).2.blocked k = s.blocked k := by
  intro calls
  induction calls with
  | nil => intro s _; exact ⟨rfl, rfl, rfl⟩
  | cons c rest ih =>
    intro s hk
    obtain ⟨now, req⟩ := c
    have h1 := Allow_memory_frame rl hs now req s k (hk (now, req) (by simp))
    have h2 := ih (rl.Allow now req s).store (fun c hc => hk c (by simp [hc]))
    rw [AllowSeq_cons]
    exact ⟨h2.1.trans h1.1, h2.2.1.trans h1.2.1, h2.2.2.trans h1.2.2⟩

/-- The limiter `NewRateLimiter` builds over an in-memory store. -/
theorem NewRateLimiter_memory (cfg : Config) (s : MemoryStore) :
    NewRateLimiter cfg (MemoryStore.factory s) = .ok (memoryLimiter cfg, s) := rfl

/-- What `NewRateLimiter` returns over an in-memory store, read off an equation. -/
theorem NewRateLimiter_memory_inv (cfg : Config) (s s' : MemoryStore)
    (rl : RateLimiter MemoryStore)
    (h : NewRateLimiter cfg (MemoryStore.factory s) = .ok (rl, s')) :
    rl = memoryLimiter cfg ∧ s' = s := by
  rw [NewRateLimiter_memory] at h
  injection h with h
  injection h with h1 h2
  exact ⟨h1.symm, h2.symm⟩

/-- C1: with a limiter built by `NewRateLimiter` (`RateLimitIP = L`, `L ≥ 0`)
over a `MemoryStore` in which key `"ip:" ++ A` has no counter and no block,
`L + 1` successive `Allow` calls with `IP = A` and an empty token, at
non-decreasing times all at most one second after the first, return `nil` for
the first `L` calls and a `*LimitExceededError` of type `IPLimit` for the
`(L+1)`-th. -/
theorem C1_ip_limit_reached (L : Nat) (A : String) (cfg : Config) (s s' : MemoryStore)
    (rl : RateLimiter MemoryStore) (t1 : Time) (rest : List Time)
    (hcfg : cfg.RateLimitIP = (L : Int))
    (hnew : NewRateLimiter cfg (MemoryStore.factory s) = .ok (rl, s'))
    (hc : s.counts ("ip:" ++ A) = none)
    (hb : s.blocked ("ip:" ++ A) = none)
    (hlen : rest.length = L)
    (hmono : List.Chain (fun a b => a ≤ b) t1 rest)
    (hwin : ∀ t ∈ rest, t ≤ t1 + Second) :
    (rl.AllowSeq ((t1 :: rest).map fun t => (t, { IP := A, Token := "" })) s').1 =
      List.replicate L none ++
        [some (GoError.limitExceeded (NewLimitExceededError LimitType.IPLimit))] ∧
    (NewLimitExceededError LimitType.IPLimit).Typ = LimitType.IPLimit := by
  obtain ⟨hrl, hs'⟩ := NewRateLimiter_memory_inv cfg s s' rl hnew
  rw [hrl, hs']
  have _ := hmono
  have key : effectiveKey { IP := A, Token := "" } = "ip:" ++ A := by simp [effectiveKey]
  have kind : limitKind { IP := A, Token := "" } = LimitType.IPLimit := by simp [limitKind]
  have hlim : (memoryLimiter cfg).config.limitOf LimitType.IPLimit = (L : Int) := hcfg
  have h := AllowSeq_memory_fresh (memoryLimiter cfg) rfl { IP := A, Token := "" } t1 rest s
    (by rw [key]; simp [MemoryStore.countAt, hc]) (by rw [key]; exact hb)
    (by rw [kind, hlim]; simpa using hlen) hwin
  rw [kind, hlim] at h
  exact ⟨by simpa [deny] using h, rfl⟩

/-- C1 at the values of `TestRateLimiter_IP`: limit 3, a new store, four calls
from `192.168.1.1` at instants 0, 1, 2, 3. -/
theorem C1_ip_limit_reached_witness :
    ((memoryLimiter (testConfig 3 (5 * Minute) 5 (5 * Minute))).AllowSeq
        (([0, 1, 2, 3] : List Time).map fun t => (t, { IP := "192.168.1.1", Token := "" }))
        MemoryStore.NewMemoryStore).1 =
      List.replicate 3 none ++
        [some (GoError.limitExceeded (NewLimitExceededError LimitType.IPLimit))] ∧
    (NewLimitExceededError LimitType.IPLimit).Typ = LimitType.IPLimit :=
  C1_ip_limit_reached 3 "192.168.1.1" (testConfig 3 (5 * Minute) 5 (5 * Minute))
    MemoryStore.NewMemoryStore MemoryStore.NewMemoryStore
    (memoryLimiter (testConfig 3 (5 * Minute) 5 (5 * Minute))) 0 [1, 2, 3]
    rfl rfl rfl rfl rfl (by simp) (by decide)

/-- C2: a request with a non-empty credential is evaluated solely against the
credential limit.  For every address `A`, non-empty token `T` and `MemoryStore`
state in which key `"token:" ++ T` has no counter and no block, whatever the
records of key `"ip:" ++ A`, successive `Allow` calls with `{IP: A, Token: T}`
at non-decreasing times at most one second after the first return `nil` for
the first `RateLimitToken` calls and a `*LimitExceededError` of type
`TokenLimit` for the next one, and leave the records of `"ip:" ++ A` as they
were. -/
theorem C2_token_limit_only (A T : String) (cfg : Config) (s s' : MemoryStore)
    (rl : RateLimiter MemoryStore) (t1 : Time) (rest : List Time)
    (hT : T ≠ "")
    (hnew : NewRateLimiter cfg (MemoryStore.factory s) = .ok (rl, s'))
    (hc : s.counts ("token:" ++ T) = none)
    (hb : s.blocked ("token:" ++ T) = none)
    (hlen : rest.length = cfg.RateLimitToken.toNat)
    (hmono : List.Chain (fun a b => a ≤ b) t1 rest)
    (hwin : ∀ t ∈ rest, t ≤ t1 + Second) :
    (rl.AllowSeq ((t1 :: rest).map fun t => (t, { IP := A, Token := T })) s').1 =
      List.replicate cfg.RateLimitToken.toNat none ++
        [some (GoError.limitExceeded (NewLimitExceededError LimitType.TokenLimit))] ∧
    (NewLimitExceededError LimitType.TokenLimit).Typ = LimitType.TokenLimit ∧
    (rl.AllowSeq ((t1 :: rest).map fun t => (t, { IP := A, Token := T })) s').2.counts
        ("ip:" ++ A) = s.counts ("ip:" ++ A) ∧
    (rl.AllowSeq ((t1 :: rest).map fun t => (t, { IP := A, Token := T })) s').2.expiryTime
        ("ip:" ++ A) = s.expiryTime ("ip:" ++ A) ∧
    (rl.AllowSeq ((t1 :: rest).map fun t => (t, { IP := A, Token := T })) s').2.blocked
        ("ip:" ++ A) = s.blocked ("ip:" ++ A) := by
  obtain ⟨hrl, hs'⟩ := NewRateLimiter_memory_inv cfg s s' rl hnew
  rw [hrl, hs']
  have _ := hmono
  have key : effectiveKey { IP := A, Token := T } = "token:" ++ T := by simp [effectiveKey, hT]
  have kind : limitKind { IP := A, Token := T } = LimitType.TokenLimit := by
    simp [limitKind, hT]
  have hlim : (memoryLimiter cfg).config.limitOf LimitType.TokenLimit = cfg.RateLimitToken :=
    rfl
  have h := AllowSeq_memory_fresh (memoryLimiter cfg) rfl { IP := A, Token := T } t1 rest s
    (by rw [key]; simp [MemoryStore.countAt, hc]) (by rw [key]; exact hb)
    (by rw [kind, hlim]; exact hlen) hwin
  rw [kind, hlim] at h
  have hf := AllowSeq_memory_frame (memoryLimiter cfg) rfl ("ip:" ++ A)
    ((t1 :: rest).map fun t => (t, { IP := A, Token := T })) s
    (by
      intro c hc
      obtain ⟨t, _, rfl⟩ := List.mem_map.mp hc
      rw [key]
      exact (token_key_ne_ip_key T A).symm)
  exact ⟨by simpa [deny] using h, rfl, hf⟩

/-- C2 at the values of `TestRateLimiter_TokenOverridesIP`: IP limit 3, token
limit 10; after two address-only permits for `192.168.1.1`, ten requests from
that address with token `test-token` are permitted and the eleventh is denied
for the token. -/
theorem C2_token_limit_only_witness :
    ((memoryLimiter (testConfig 3 (5 * Minute) 10 (5 * Minute))).AllowSeq
        (([0, 1, 2, 3, 4, 5, 6, 7, 8, 9, 10] : List Time).map fun t =>
          (t, { IP := "192.168.1.1", Token := "test-token" }))
        ((memoryLimiter (testConfig 3 (5 * Minute) 10 (5 * Minute))).AllowSeq
          [(0, { IP := "192.168.1.1", Token := "" }), (0, { IP := "192.168.1.1", Token := "" })]
          MemoryStore.NewMemoryStore).2).1 =
      List.replicate 10 none ++
        [some (GoError.limitExceeded (NewLimitExceededError LimitType.TokenLimit))] ∧
    ((memoryLimiter (testConfig 3 (5 * Minute) 10 (5 * Minute))).AllowSeq
        [(0, { IP := "192.168.1.1", Token := "" }), (0, { IP := "192.168.1.1", Token := "" })]
        MemoryStore.NewMemoryStore).1 = [none, none] ∧
    ((memoryLimiter (testConfig 3 (5 * Minute) 10 (5 * Minute))).AllowSeq
        [(0, { IP := "192.168.1.1", Token := "" }), (0, { IP := "192.168.1.1", Token := "" })]
        MemoryStore.NewMemoryStore).2.counts "ip:192.168.1.1" = some 2 :=
  ⟨(C2_token_limit_only "192.168.1.1" "test-token" (testConfig 3 (5 * Minute) 10 (5 * Minute))
      ((memoryLimiter (testConfig 3 (5 * Minute) 10 (5 * Minute))).AllowSeq
        [(0, { IP := "192.168.1.1", Token := "" }), (0, { IP := "192.168.1.1", Token := "" })]
        MemoryStore.NewMemoryStore).2
      _ (memoryLimiter (testConfig 3 (5 * Minute) 10 (5 * Minute))) 0
      [1, 2, 3, 4, 5, 6, 7, 8, 9, 10]
      (by decide) rfl (by decide) (by decide) rfl (by simp) (by decide)).1,
    by decide, by decide⟩

/-- C3: for every store whose operations succeed and every request whose
effective key is not blocked, `Allow` calls `IsBlocked` and then
`IncrementRequestCount` exactly once, on the effective key with a window of
exactly one second; it returns `nil` if and only if the returned count is at
most the configured limit of the request's kind (a count equal to the limit is
permitted); when the count is greater it calls `Block` once on the same key
with that kind's block duration and returns a `*LimitExceededError`. -/
theorem C3_count_against_limit {σ : Type} (rl : RateLimiter σ) (now : Time)
    (req : LimiterRequest) (s s1 s2 : σ) (count : Int)
    (hIsBlocked : rl.store.IsBlocked now (effectiveKey req) s = (.ok false, s1))
    (hIncrement :
      rl.store.IncrementRequestCount now (effectiveKey req) Second s1 = (.ok count, s2))
    (hBlock :
      (rl.store.Block now (effectiveKey req) (rl.config.blockTimeOf (limitKind req)) s2).1
        = none) :
    (rl.Allow now req s).calls =
      [StoreCall.IsBlocked (effectiveKey req),
        StoreCall.IncrementRequestCount (effectiveKey req) Second] ++
      (if count > rl.config.limitOf (limitKind req) then
        [StoreCall.Block (effectiveKey req) (rl.config.blockTimeOf (limitKind req))]
       else []) ∧
    ((rl.Allow now req s).err = none ↔ count ≤ rl.config.limitOf (limitKind req)) ∧
    (count = rl.config.limitOf (limitKind req) → (rl.Allow now req s).err = none) ∧
    (count > rl.config.limitOf (limitKind req) →
      (rl.Allow now req s).err =
        some (GoError.limitExceeded (NewLimitExceededError (limitKind req))) ∧
      (rl.Allow now req s).store =
        (rl.store.Block now (effectiveKey req)
          (rl.config.blockTimeOf (limitKind req)) s2).2) ∧
    (count ≤ rl.config.limitOf (limitKind req) → (rl.Allow now req s).store = s2) := by
  rw [Allow_eq_allowKey]
  unfold allowKey
  simp only [hIsBlocked, hIncrement]
  rcases h3 : rl.store.Block now (effectiveKey req)
    (rl.config.blockTimeOf (limitKind req)) s2 with ⟨r3, s3⟩
  rw [h3] at hBlock
  simp only at hBlock
  subst hBlock
  by_cases hgt : count > rl.config.limitOf (limitKind req)
  · have hnle : ¬ count ≤ rl.config.limitOf (limitKind req) := not_le.mpr hgt
    have hne : count ≠ rl.config.limitOf (limitKind req) := ne_of_gt hgt
    simp [hgt, hnle, hne, deny]
  · have hle : count ≤ rl.config.limitOf (limitKind req) := not_lt.mp hgt
    simp [hgt, hle]

/-- C3 on a new in-memory store with IP limit 1: the first request from an
address counts 1, which equals the limit, and is permitted without a block. -/
theorem C3_count_against_limit_witness :
    ((memoryLimiter (testConfig 1 (5 * Minute) 5 (5 * Minute))).Allow 0
        { IP := "10.0.0.1", Token := "" } MemoryStore.NewMemoryStore).calls =
      [StoreCall.IsBlocked "ip:10.0.0.1",
        StoreCall.IncrementRequestCount "ip:10.0.0.1" Second] ∧
    ((memoryLimiter (testConfig 1 (5 * Minute) 5 (5 * Minute))).Allow 0
        { IP := "10.0.0.1", Token := "" } MemoryStore.NewMemoryStore).err = none :=
  have h := C3_count_against_limit (memoryLimiter (testConfig 1 (5 * Minute) 5 (5 * Minute))) 0
    { IP := "10.0.0.1", Token := "" } MemoryStore.NewMemoryStore MemoryStore.NewMemoryStore
    (MemoryStore.NewMemoryStore.IncrementRequestCount 0 "ip:10.0.0.1" Second).2 1
    rfl rfl rfl
  ⟨h.1, h.2.2.1 rfl⟩

/-- C4: for every store and request, if `IsBlocked` on the effective key
returns true, `Allow` returns a `*LimitExceededError` of the request's kind at
once: `IsBlocked` is the only store call it makes (neither
`IncrementRequestCount` nor `Block`), and the store is left as `IsBlocked` left
it.  Over a `MemoryStore` the whole store state (counts, expiry times, blocks)
is the same after the call as before it. -/
theorem C4_blocked_denied_at_once :
    (∀ (σ : Type) (rl : RateLimiter σ) (now : Time) (req : LimiterRequest) (s s1 : σ),
      rl.store.IsBlocked now (effectiveKey req) s = (.ok true, s1) →
      (rl.Allow now req s).err =
        some (GoError.limitExceeded (NewLimitExceededError (limitKind req))) ∧
      (rl.Allow now req s).calls = [StoreCall.IsBlocked (effectiveKey req)] ∧
      (rl.Allow now req s).store = s1) ∧
    (∀ (rl : RateLimiter MemoryStore) (now : Time) (req : LimiterRequest) (s : MemoryStore),
      rl.store = MemoryStore.methods →
      (rl.store.IsBlocked now (effectiveKey req) s).1 = .ok true →
      (rl.Allow now req s).err =
        some (GoError.limitExceeded (NewLimitExceededError (limitKind req))) ∧
      (rl.Allow now req s).calls = [StoreCall.IsBlocked (effectiveKey req)] ∧
      (rl.Allow now req s).store = s) := by
  have generic : ∀ (σ : Type) (rl : RateLimiter σ) (now : Time) (req : LimiterRequest)
      (s s1 : σ), rl.store.IsBlocked now (effectiveKey req) s = (.ok true, s1) →
      (rl.Allow now req s).err =
        some (GoError.limitExceeded (NewLimitExceededError (limitKind req))) ∧
      (rl.Allow now req s).calls = [StoreCall.IsBlocked (effectiveKey req)] ∧
      (rl.Allow now req s).store = s1 := by
    intro σ rl now req s s1 h
    rw [Allow_eq_allowKey]
    unfold allowKey
    simp [h, deny]
  refine ⟨generic, ?_⟩
  intro rl now req s hs hb
  refine generic MemoryStore rl now req s s ?_
  rw [hs] at hb ⊢
  simp only [MemoryStore.methods, MemoryStore.IsBlocked] at hb ⊢
  rw [hb]

/-- C4 on an in-memory store where `ip:10.0.0.1` was blocked at instant 0 for a
minute: a request from that address at instant 5 is denied and the store is
unchanged. -/
theorem C4_blocked_denied_at_once_witness :
    ((memoryLimiter (testConfig 3 (5 * Minute) 5 (5 * Minute))).Allow 5
        { IP := "10.0.0.1", Token := "" }
        (MemoryStore.NewMemoryStore.Block 0 "ip:10.0.0.1" Minute).2).err =
      some (GoError.limitExceeded (NewLimitExceededError LimitType.IPLimit)) ∧
    ((memoryLimiter (testConfig 3 (5 * Minute) 5 (5 * Minute))).Allow 5
        { IP := "10.0.0.1", Token := "" }
        (MemoryStore.NewMemoryStore.Block 0 "ip:10.0.0.1" Minute).2).calls =
      [StoreCall.IsBlocked "ip:10.0.0.1"] ∧
    ((memoryLimiter (testConfig 3 (5 * Minute) 5 (5 * Minute))).Allow 5
        { IP := "10.0.0.1", Token := "" }
        (MemoryStore.NewMemoryStore.Block 0 "ip:10.0.0.1" Minute).2).store =
      (MemoryStore.NewMemoryStore.Block 0 "ip:10.0.0.1" Minute).2 :=
  C4_blocked_denied_at_once.2 (memoryLimiter (testConfig 3 (5 * Minute) 5 (5 * Minute))) 5
    { IP := "10.0.0.1", Token := "" } (MemoryStore.NewMemoryStore.Block 0 "ip:10.0.0.1" Minute).2
    rfl (by decide)

/-! ### Blocks -/

/-- A key without a counter record reads as count 0 at every instant. -/
theorem MemoryStore.GetRequestCount_of_none (s : MemoryStore) (now : Time) (key : String)
    (h : s.counts key = none) : (s.GetRequestCount now key).1 = .ok 0 := by
  unfold MemoryStore.GetRequestCount
  split <;> simp [MemoryStore.countAt, h]

/-- When `Allow` on the in-memory store has called `Block`, it did so on the
effective key with the configured duration, it returned the deny verdict, and
the store holds the block record and no counter for the key. -/
theorem Allow_memory_of_block (rl : RateLimiter MemoryStore)
    (hs : rl.store = MemoryStore.methods) (now : Time) (req : LimiterRequest)
    (s : MemoryStore) (k : String) (B : Duration)
    (h : StoreCall.Block k B ∈ (rl.Allow now req s).calls) :
    k = effectiveKey req ∧ B = rl.config.blockTimeOf (limitKind req) ∧
    (rl.Allow now req s).err = deny (limitKind req) ∧
    (rl.Allow now req s).store.blocked k = some (now + B) ∧
    (rl.Allow now req s).store.counts k = none ∧
    (rl.Allow now req s).store.expiryTime k = none := by
  rw [Allow_eq_allowKey, hs] at h ⊢
  cases hb : s.blockedAt now (effectiveKey req)
  · rw [allowKey_memory_open _ _ _ _ _ _ hb] at h ⊢
    split at h
    · rename_i hgt
      simp only [List.mem_cons, List.mem_singleton, reduceCtorEq, false_or,
        StoreCall.Block.injEq, List.mem_nil_iff, or_false] at h
      obtain ⟨hk, hB⟩ := h
      subst hk hB
      simp [hgt, MemoryStore.Block]
    · simp at h
  · rw [allowKey_memory_blocked _ _ _ _ _ _ hb] at h
    simp at h

/-- While a key is blocked and has no counter, a request for it is denied and
changes nothing, and a request for another key leaves its records alone. -/
theorem Allow_memory_quiet (rl : RateLimiter MemoryStore)
    (hs : rl.store = MemoryStore.methods) (now : Time) (req : LimiterRequest)
    (s : MemoryStore) (k : String) (e : Time)
    (hbl : s.blocked k = some e) (hc : s.counts k = none)
    (hnow : effectiveKey req = k → now < e) :
    (effectiveKey req = k → (rl.Allow now req s).err = deny (limitKind req)) ∧
    (rl.Allow now req s).store.blocked k = some e ∧
    (rl.Allow now req s).store.counts k = none := by
  by_cases hk : effectiveKey req = k
  · have hb : s.blockedAt now (effectiveKey req) = true := by
      rw [hk]; simp [MemoryStore.blockedAt, hbl, hnow hk]
    rw [Allow_eq_allowKey, hs, allowKey_memory_blocked _ _ _ _ _ _ hb]
    exact ⟨fun _ => rfl, hbl, hc⟩
  · have hf := Allow_memory_frame rl hs now req s k (fun h => hk h.symm)
    exact ⟨fun h => absurd h hk, hf.2.2.trans hbl, hf.1.trans hc⟩

/-- A sequence of requests during a block: every request for the blocked key
is denied, and the key stays blocked and without a counter. -/
theorem AllowSeq_memory_quiet (rl : RateLimiter MemoryStore)
    (hs : rl.store = MemoryStore.methods) (k : String) (e : Time) :
    ∀ (later : List (Time × LimiterRequest)) (s : MemoryStore),
      s.blocked k = some e → s.counts k = none →
      (∀ c ∈ later, effectiveKey c.2 = k → c.1 < e) →
      (∀ p ∈ List.zip later (rl.AllowSeq later s).1,
        effectiveKey p.1.2 = k → p.2 = deny (limitKind p.1.2)) ∧
      (rl.AllowSeq later s).2.blocked k = some e ∧
      (rl.AllowSeq later s).2.counts k = none := by
  intro later
  induction later with
  | nil => intro s hbl hc _; exact ⟨by simp [RateLimiter.AllowSeq], hbl, hc⟩
  | cons c rest ih =>
    intro s hbl hc hin
    obtain ⟨now, req⟩ := c
    have h1 := Allow_memory_quiet rl hs now req s k e hbl hc (hin (now, req) (by simp))
    have h2 := ih (rl.Allow now req s).store h1.2.1 h1.2.2
      (fun c hc => hin c (by simp [hc]))
    rw [AllowSeq_cons]
    refine ⟨?_, h2.2⟩
    intro p hp hk
    simp only [List.zip_cons_cons, List.mem_cons] at hp
    rcases hp with hp | hp
    · subst hp
      exact h1.1 hk
    · exact h2.1 p hp hk

/-- C5: over a `MemoryStore` with a non-decreasing clock, once an `Allow`
call at time `t0` exceeds the limit and blocks its effective key with block
duration `B > 0`, that call returns a `*LimitExceededError`, every later
`Allow` call for that key at a time before `t0 + B` returns a
`*LimitExceededError` of the same kind (whatever requests for other keys come
in between), and after every one of these calls the key has no counter:
`GetRequestCount` is 0 at every instant. -/
theorem C5_denied_while_blocked (rl : RateLimiter MemoryStore)
    (hs : rl.store = MemoryStore.methods) (t0 : Time) (req0 : LimiterRequest)
    (s0 : MemoryStore) (B : Duration) (later : List (Time × LimiterRequest))
    (hblock : StoreCall.Block (effectiveKey req0) B ∈ (rl.Allow t0 req0 s0).calls)
    (hB : 0 < B)
    (hmono : List.Chain (fun a b => a ≤ b) t0 (later.map Prod.fst))
    (hin : ∀ c ∈ later, effectiveKey c.2 = effectiveKey req0 → c.1 < t0 + B) :
    (rl.Allow t0 req0 s0).err =
      some (GoError.limitExceeded (NewLimitExceededError (limitKind req0))) ∧
    (∀ p ∈ List.zip later (rl.AllowSeq later (rl.Allow t0 req0 s0).store).1,
      effectiveKey p.1.2 = effectiveKey req0 →
      p.2 = some (GoError.limitExceeded (NewLimitExceededError (limitKind req0)))) ∧
    (∀ (n : Nat) (t : Time),
      (rl.AllowSeq (later.take n) (rl.Allow t0 req0 s0).store).2.counts (effectiveKey req0)
        = none ∧
      ((rl.AllowSeq (later.take n) (rl.Allow t0 req0 s0).store).2.GetRequestCount t
        (effectiveKey req0)).1 = .ok 0) := by
  have _ := hB
  have _ := hmono
  obtain ⟨_, _, herr, hbl, hc, _⟩ :=
    Allow_memory_of_block rl hs t0 req0 s0 (effectiveKey req0) B hblock
  refine ⟨herr, ?_, ?_⟩
  · intro p hp hk
    have h := (AllowSeq_memory_quiet rl hs (effectiveKey req0) (t0 + B) later
      (rl.Allow t0 req0 s0).store hbl hc hin).1 p hp hk
    rw [h, limitKind_eq_of_key_eq _ _ hk]
    rfl
  · intro n t
    have h := (AllowSeq_memory_quiet rl hs (effectiveKey req0) (t0 + B) (later.take n)
      (rl.Allow t0 req0 s0).store hbl hc
      (fun c hc => hin c (List.mem_of_mem_take hc))).2.2
    exact ⟨h, MemoryStore.GetRequestCount_of_none _ t _ h⟩

/-- C5 with IP limit 1 and a five-minute block: after one permit at instant 0
the request at instant 1 blocks `ip:10.0.0.1`; the requests of that address at
instants 2 and 4 are denied, a request of another address coming in between,
and the count of the address reads 0 afterwards. -/
theorem C5_denied_while_blocked_witness :
    ((memoryLimiter (testConfig 1 (5 * Minute) 5 (5 * Minute))).Allow 1
        { IP := "10.0.0.1", Token := "" }
        ((memoryLimiter (testConfig 1 (5 * Minute) 5 (5 * Minute))).Allow 0
          { IP := "10.0.0.1", Token := "" } MemoryStore.NewMemoryStore).store).err =
      some (GoError.limitExceeded
        (NewLimitExceededError (limitKind { IP := "10.0.0.1", Token := "" }))) ∧
    (∀ p ∈ List.zip
        ([(2, { IP := "10.0.0.1", Token := "" }), (3, { IP := "10.0.0.2", Token := "" }),
         (4, { IP := "10.0.0.1", Token := "" })] : List (Time × LimiterRequest))
        ((memoryLimiter (testConfig 1 (5 * Minute) 5 (5 * Minute))).AllowSeq
          [(2, { IP := "10.0.0.1", Token := "" }), (3, { IP := "10.0.0.2", Token := "" }),
           (4, { IP := "10.0.0.1", Token := "" })]
          ((memoryLimiter (testConfig 1 (5 * Minute) 5 (5 * Minute))).Allow 1
            { IP := "10.0.0.1", Token := "" }
            ((memoryLimiter (testConfig 1 (5 * Minute) 5 (5 * Minute))).Allow 0
              { IP := "10.0.0.1", Token := "" } MemoryStore.NewMemoryStore).store).store).1,
      effectiveKey p.1.2 = effectiveKey { IP := "10.0.0.1", Token := "" } →
      p.2 = some (GoError.limitExceeded
        (NewLimitExceededError (limitKind { IP := "10.0.0.1", Token := "" })))) ∧
    (((memoryLimiter (testConfig 1 (5 * Minute) 5 (5 * Minute))).AllowSeq
        (List.take 3
          [(2, { IP := "10.0.0.1", Token := "" }), (3, { IP := "10.0.0.2", Token := "" }),
           (4, { IP := "10.0.0.1", Token := "" })])
        ((memoryLimiter (testConfig 1 (5 * Minute) 5 (5 * Minute))).Allow 1
          { IP := "10.0.0.1", Token := "" }
          ((memoryLimiter (testConfig 1 (5 * Minute) 5 (5 * Minute))).Allow 0
            { IP := "10.0.0.1", Token := "" } MemoryStore.NewMemoryStore).store).store).2.GetRequestCount
      4 "ip:10.0.0.1").1 = .ok 0 :=
  have h := C5_denied_while_blocked (memoryLimiter (testConfig 1 (5 * Minute) 5 (5 * Minute)))
    rfl 1 { IP := "10.0.0.1", Token := "" }
    ((memoryLimiter (testConfig 1 (5 * Minute) 5 (5 * Minute))).Allow 0
      { IP := "10.0.0.1", Token := "" } MemoryStore.NewMemoryStore).store
    (5 * Minute)
    [(2, { IP := "10.0.0.1", Token := "" }), (3, { IP := "10.0.0.2", Token := "" }),
     (4, { IP := "10.0.0.1", Token := "" })]
    (by decide) (by decide) (by simp) (by decide)
  ⟨h.1, h.2.1, (h.2.2 3 4).2⟩

/-- C6: over a `MemoryStore` with limit `L ≥ 1`, after an `Allow` call at time
`t0` has blocked a key with block duration `B`, the first `Allow` call for that
key at a time `t ≥ t0 + B` (the earlier calls for the key all fall before
`t0 + B`, calls for other keys are arbitrary) returns `nil`, and
`GetRequestCount` for the key then returns 1: counting restarts from 1. -/
theorem C6_restart_after_block (rl : RateLimiter MemoryStore)
    (hs : rl.store = MemoryStore.methods) (t0 : Time) (req0 : LimiterRequest)
    (s0 : MemoryStore) (B : Duration) (mid : List (Time × LimiterRequest))
    (t : Time) (req : LimiterRequest)
    (hblock : StoreCall.Block (effectiveKey req0) B ∈ (rl.Allow t0 req0 s0).calls)
    (hL : 1 ≤ rl.config.limitOf (limitKind req0))
    (hmid : ∀ c ∈ mid, effectiveKey c.2 = effectiveKey req0 → c.1 < t0 + B)
    (hkey : effectiveKey req = effectiveKey req0)
    (ht : t0 + B ≤ t) :
    (rl.Allow t req (rl.AllowSeq mid (rl.Allow t0 req0 s0).store).2).err = none ∧
    ((rl.Allow t req (rl.AllowSeq mid (rl.Allow t0 req0 s0).store).2).store.GetRequestCount t
      (effectiveKey req0)).1 = .ok 1 ∧
    (rl.Allow t req (rl.AllowSeq mid (rl.Allow t0 req0 s0).store).2).store.counts
      (effectiveKey req0) = some 1 := by
  obtain ⟨_, _, _, hbl, hc, _⟩ :=
    Allow_memory_of_block rl hs t0 req0 s0 (effectiveKey req0) B hblock
  obtain ⟨_, hbl', hc'⟩ := AllowSeq_memory_quiet rl hs (effectiveKey req0) (t0 + B) mid
    (rl.Allow t0 req0 s0).store hbl hc hmid
  have hkind := limitKind_eq_of_key_eq _ _ hkey
  have hnb : (rl.AllowSeq mid (rl.Allow t0 req0 s0).store).2.blockedAt t (effectiveKey req)
      = false := by
    rw [hkey]
    simp [MemoryStore.blockedAt, hbl', not_lt.mpr ht]
  have hfresh := Allow_memory_fresh rl hs t req _ hnb
    (Or.inl (by rw [hkey]; simp [MemoryStore.countAt, hc']))
  have hnot : ¬ (1 > rl.config.limitOf (limitKind req)) := by
    rw [hkind]; exact not_lt.mpr hL
  rw [hfresh, if_neg hnot, ← hkey]
  refine ⟨rfl, ?_, by simp⟩
  simp [MemoryStore.GetRequestCount, MemoryStore.windowExpired, MemoryStore.countAt, Second]

/-- C6 on the end-to-end scenario: IP limit 3 and a five-minute block; three
requests from `10.0.0.1` at instants 0, 1, 2 are permitted and the fourth, at
instant 3, blocks the address; the first request after the block has run out
is permitted and the count of the address is 1. -/
theorem C6_restart_after_block_witness :
    ((memoryLimiter (testConfig 3 (5 * Minute) 5 (5 * Minute))).AllowSeq
        [(0, { IP := "10.0.0.1", Token := "" }), (1, { IP := "10.0.0.1", Token := "" }),
         (2, { IP := "10.0.0.1", Token := "" }), (3, { IP := "10.0.0.1", Token := "" })]
        MemoryStore.NewMemoryStore).1 = [none, none, none, deny LimitType.IPLimit] ∧
    ((memoryLimiter (testConfig 3 (5 * Minute) 5 (5 * Minute))).Allow (3 + 5 * Minute)
        { IP := "10.0.0.1", Token := "" }
        ((memoryLimiter (testConfig 3 (5 * Minute) 5 (5 * Minute))).AllowSeq []
          ((memoryLimiter (testConfig 3 (5 * Minute) 5 (5 * Minute))).Allow 3
            { IP := "10.0.0.1", Token := "" }
            ((memoryLimiter (testConfig 3 (5 * Minute) 5 (5 * Minute))).AllowSeq
              [(0, { IP := "10.0.0.1", Token := "" }), (1, { IP := "10.0.0.1", Token := "" }),
               (2, { IP := "10.0.0.1", Token := "" })]
              MemoryStore.NewMemoryStore).2).store).2).err = none ∧
    ((memoryLimiter (testConfig 3 (5 * Minute) 5 (5 * Minute))).Allow (3 + 5 * Minute)
        { IP := "10.0.0.1", Token := "" }
        ((memoryLimiter (testConfig 3 (5 * Minute) 5 (5 * Minute))).AllowSeq []
          ((memoryLimiter (testConfig 3 (5 * Minute) 5 (5 * Minute))).Allow 3
            { IP := "10.0.0.1", Token := "" }
            ((memoryLimiter (testConfig 3 (5 * Minute) 5 (5 * Minute))).AllowSeq
              [(0, { IP := "10.0.0.1", Token := "" }), (1, { IP := "10.0.0.1", Token := "" }),
               (2, { IP := "10.0.0.1", Token := "" })]
              MemoryStore.NewMemoryStore).2).store).2).store.counts "ip:10.0.0.1" = some 1 :=
  have h := C6_restart_after_block (memoryLimiter (testConfig 3 (5 * Minute) 5 (5 * Minute)))
    rfl 3 { IP := "10.0.0.1", Token := "" }
    ((memoryLimiter (testConfig 3 (5 * Minute) 5 (5 * Minute))).AllowSeq
      [(0, { IP := "10.0.0.1", Token := "" }), (1, { IP := "10.0.0.1", Token := "" }),
       (2, { IP := "10.0.0.1", Token := "" })]
      MemoryStore.NewMemoryStore).2
    (5 * Minute) [] (3 + 5 * Minute) { IP := "10.0.0.1", Token := "" }
    (by decide) (by decide) (by simp) rfl (by decide)
  ⟨by decide, h.1, h.2.2⟩

/-! ### The effective key -/

/-- Every store call of the one-key algorithm is one of its three calls on
that key. -/
theorem allowKey_calls {σ : Type} (store : RateLimiterStore σ) (now : Time) (key : String)
    (L : Int) (B : Duration) (kind : LimitType) (s : σ) :
    ∀ c ∈ (allowKey store now key L B kind s).calls,
      c = StoreCall.IsBlocked key ∨ c = StoreCall.IncrementRequestCount key Second ∨
      c = StoreCall.Block key B := by
  intro c hc
  unfold allowKey at hc
  rcases h1 : store.IsBlocked now key s with ⟨r1, s1⟩
  rw [h1] at hc
  rcases r1 with e1 | b1
  · simp only [List.mem_singleton] at hc
    exact Or.inl hc
  · cases b1
    · simp only at hc
      rcases h2 : store.IncrementRequestCount now key Second s1 with ⟨r2, s2⟩
      rw [h2] at hc
      rcases r2 with e2 | count
      · simp only [List.mem_cons, List.mem_singleton, List.mem_nil_iff, or_false] at hc
        rcases hc with hc | hc
        · exact Or.inl hc
        · exact Or.inr (Or.inl hc)
      · simp only at hc
        split at hc
        · rcases h3 : store.Block now key B s2 with ⟨r3, s3⟩
          rw [h3] at hc
          cases r3 <;>
            simp only [List.mem_cons, List.mem_singleton, List.mem_nil_iff, or_false] at hc <;>
            exact hc
        · simp only [List.mem_cons, List.mem_singleton, List.mem_nil_iff, or_false] at hc
          rcases hc with hc | hc
          · exact Or.inl hc
          · exact Or.inr (Or.inl hc)
    · simp only [List.mem_singleton] at hc
      exact Or.inl hc

/-- A limit error returned by the one-key algorithm has the kind it was run with. -/
theorem allowKey_limitExceeded {σ : Type} (store : RateLimiterStore σ) (now : Time)
    (key : String) (L : Int) (B : Duration) (kind : LimitType) (s : σ)
    (e : LimitExceededError)
    (h : (allowKey store now key L B kind s).err = some (GoError.limitExceeded e)) :
    e = NewLimitExceededError kind := by
  unfold allowKey at h
  rcases h1 : store.IsBlocked now key s with ⟨r1, s1⟩
  rw [h1] at h
  rcases r1 with e1 | b1
  · simp [fmtErrorf] at h
  · cases b1
    · simp only at h
      rcases h2 : store.IncrementRequestCount now key Second s1 with ⟨r2, s2⟩
      rw [h2] at h
      rcases r2 with e2 | count
      · simp [fmtErrorf] at h
      · simp only at h
        split at h
        · rcases h3 : store.Block now key B s2 with ⟨r3, s3⟩
          rw [h3] at h
          cases r3
          · simp only [deny, Option.some.injEq, GoError.limitExceeded.injEq] at h
            exact h.symm
          · simp [fmtErrorf] at h
        · simp at h
    · simp only [deny, Option.some.injEq, GoError.limitExceeded.injEq] at h
      exact h.symm

/-- C7: for every request `Allow` derives exactly one effective key.  If
`Token` is non-empty the key is `"token:" ++ Token`, the limit `TokenLimit` and
the block duration `TokenBlockTime`; if `Token` is the empty string the key is
`"ip:" ++ IP`, the limit `IPLimit` and the block duration `IPBlockTime`.
`Allow` is the one-key algorithm run with these; every store call it makes is
`IsBlocked`, `IncrementRequestCount` with one second, or `Block` with that
block duration, all on that key; and any `*LimitExceededError` it returns has
the type of that kind. -/
theorem C7_one_effective_key {σ : Type} (rl : RateLimiter σ) (now : Time)
    (req : LimiterRequest) (s : σ) :
    (req.Token ≠ "" →
      rl.Allow now req s =
        allowKey rl.store now ("token:" ++ req.Token) rl.config.TokenLimit
          rl.config.TokenBlockTime LimitType.TokenLimit s ∧
      (∀ c ∈ (rl.Allow now req s).calls,
        c = StoreCall.IsBlocked ("token:" ++ req.Token) ∨
        c = StoreCall.IncrementRequestCount ("token:" ++ req.Token) Second ∨
        c = StoreCall.Block ("token:" ++ req.Token) rl.config.TokenBlockTime) ∧
      (∀ e, (rl.Allow now req s).err = some (GoError.limitExceeded e) →
        e.Typ = LimitType.TokenLimit)) ∧
    (req.Token = "" →
      rl.Allow now req s =
        allowKey rl.store now ("ip:" ++ req.IP) rl.config.IPLimit
          rl.config.IPBlockTime LimitType.IPLimit s ∧
      (∀ c ∈ (rl.Allow now req s).calls,
        c = StoreCall.IsBlocked ("ip:" ++ req.IP) ∨
        c = StoreCall.IncrementRequestCount ("ip:" ++ req.IP) Second ∨
        c = StoreCall.Block ("ip:" ++ req.IP) rl.config.IPBlockTime) ∧
      (∀ e, (rl.Allow now req s).err = some (GoError.limitExceeded e) →
        e.Typ = LimitType.IPLimit)) ∧
    (∀ c ∈ (rl.Allow now req s).calls, c.key = effectiveKey req) := by
  have hall : ∀ c ∈ (rl.Allow now req s).calls, c.key = effectiveKey req := by
    intro c hc
    rw [Allow_eq_allowKey] at hc
    rcases allowKey_calls _ _ _ _ _ _ _ c hc with h | h | h <;> rw [h] <;> rfl
  refine ⟨?_, ?_, hall⟩
  · intro hT
    have hk : effectiveKey req = "token:" ++ req.Token := by simp [effectiveKey, hT]
    have hkind : limitKind req = LimitType.TokenLimit := by simp [limitKind, hT]
    have heq := Allow_eq_allowKey rl now req s
    rw [hk, hkind] at heq
    refine ⟨heq, ?_, ?_⟩
    · intro c hc
      rw [heq] at hc
      exact allowKey_calls _ _ _ _ _ _ _ c hc
    · intro e he
      rw [heq] at he
      rw [allowKey_limitExceeded _ _ _ _ _ _ _ e he]
      rfl
  · intro hT
    have hk : effectiveKey req = "ip:" ++ req.IP := by simp [effectiveKey, hT]
    have hkind : limitKind req = LimitType.IPLimit := by simp [limitKind, hT]
    have heq := Allow_eq_allowKey rl now req s
    rw [hk, hkind] at heq
    refine ⟨heq, ?_, ?_⟩
    · intro c hc
      rw [heq] at hc
      exact allowKey_calls _ _ _ _ _ _ _ c hc
    · intro e he
      rw [heq] at he
      rw [allowKey_limitExceeded _ _ _ _ _ _ _ e he]
      rfl

/-- C8: each admission decision touches exactly one effective key.  For every
`MemoryStore` state and request, `Allow` leaves the count, window expiry and
block record of every key other than the request's effective key unchanged.
Since `"token:" ++ t` never equals `"ip:" ++ a`, a request with a credential
never changes the records of any address and a request without one never
changes those of any credential. -/
theorem C8_other_keys_untouched (rl : RateLimiter MemoryStore)
    (hs : rl.store = MemoryStore.methods) (now : Time) (req : LimiterRequest)
    (s : MemoryStore) :
    (∀ k, k ≠ effectiveKey req →
      (rl.Allow now req s).store.counts k = s.counts k ∧
      (rl.Allow now req s).store.expiryTime k = s.expiryTime k ∧
      (rl.Allow now req s).store.blocked k = s.blocked k ∧
      ∀ t, ((rl.Allow now req s).store.GetRequestCount t k).1 =
        (s.GetRequestCount t k).1) ∧
    (∀ t a : String, "token:" ++ t ≠ "ip:" ++ a) ∧
    (req.Token ≠ "" → ∀ a : String,
      (rl.Allow now req s).store.counts ("ip:" ++ a) = s.counts ("ip:" ++ a) ∧
      (rl.Allow now req s).store.expiryTime ("ip:" ++ a) = s.expiryTime ("ip:" ++ a) ∧
      (rl.Allow now req s).store.blocked ("ip:" ++ a) = s.blocked ("ip:" ++ a)) ∧
    (req.Token = "" → ∀ t : String,
      (rl.Allow now req s).store.counts ("token:" ++ t) = s.counts ("token:" ++ t) ∧
      (rl.Allow now req s).store.expiryTime ("token:" ++ t) = s.expiryTime ("token:" ++ t) ∧
      (rl.Allow now req s).store.blocked ("token:" ++ t) = s.blocked ("token:" ++ t)) := by
  refine ⟨?_, token_key_ne_ip_key, ?_, ?_⟩
  · intro k hk
    obtain ⟨h1, h2, h3⟩ := Allow_memory_frame rl hs now req s k hk
    refine ⟨h1, h2, h3, ?_⟩
    intro t
    simp only [MemoryStore.GetRequestCount, MemoryStore.windowExpired, MemoryStore.countAt,
      h1, h2]
    split <;> rfl
  · intro hT a
    refine Allow_memory_frame rl hs now req s ("ip:" ++ a) ?_
    simp only [effectiveKey, hT, ne_eq, not_false_eq_true, if_true]
    exact (token_key_ne_ip_key _ _).symm
  · intro hT t
    refine Allow_memory_frame rl hs now req s ("token:" ++ t) ?_
    simp only [effectiveKey, hT, ne_eq, not_true_eq_false, if_false]
    exact token_key_ne_ip_key _ _

/-- C8 where the address `192.168.1.1` is one request short of its limit of 3
and the token limit is 0: the request with token `test-token` is denied and the
token blocked, and the count of the address stays 2. -/
theorem C8_other_keys_untouched_witness :
    ((memoryLimiter (testConfig 3 (5 * Minute) 0 (5 * Minute))).Allow 0
        { IP := "192.168.1.1", Token := "test-token" }
        ((memoryLimiter (testConfig 3 (5 * Minute) 0 (5 * Minute))).AllowSeq
          [(0, { IP := "192.168.1.1", Token := "" }), (0, { IP := "192.168.1.1", Token := "" })]
          MemoryStore.NewMemoryStore).2).store.counts ("ip:" ++ "192.168.1.1") = some 2 ∧
    ((memoryLimiter (testConfig 3 (5 * Minute) 0 (5 * Minute))).Allow 0
        { IP := "192.168.1.1", Token := "test-token" }
        ((memoryLimiter (testConfig 3 (5 * Minute) 0 (5 * Minute))).AllowSeq
          [(0, { IP := "192.168.1.1", Token := "" }), (0, { IP := "192.168.1.1", Token := "" })]
          MemoryStore.NewMemoryStore).2).err = deny LimitType.TokenLimit :=
  ⟨((C8_other_keys_untouched (memoryLimiter (testConfig 3 (5 * Minute) 0 (5 * Minute))) rfl 0
      { IP := "192.168.1.1", Token := "test-token" }
      ((memoryLimiter (testConfig 3 (5 * Minute) 0 (5 * Minute))).AllowSeq
        [(0, { IP := "192.168.1.1", Token := "" }), (0, { IP := "192.168.1.1", Token := "" })]
        MemoryStore.NewMemoryStore).2).2.2.1 (by decide) "192.168.1.1").1.trans (by decide),
    by decide⟩

/-! ### Store failures -/

/-- C9: a store failure is never silently treated as permit or deny.  For
every store and request, if the `IsBlocked`, `IncrementRequestCount` or `Block`
call that `Allow` makes returns an error `e`, then `Allow` returns a non-nil
error that wraps `e` and is not a `*LimitExceededError` (even when `e` itself
is one), and the failing call is the last store call `Allow` makes. -/
theorem C9_store_failure_surfaced {σ : Type} (rl : RateLimiter σ) (now : Time)
    (req : LimiterRequest) (s : σ) :
    (∀ (e : GoError) (s1 : σ),
      rl.store.IsBlocked now (effectiveKey req) s = (.error e, s1) →
      (∃ msg, (rl.Allow now req s).err = some (GoError.wrapError msg e)) ∧
      (rl.Allow now req s).calls = [StoreCall.IsBlocked (effectiveKey req)] ∧
      (rl.Allow now req s).store = s1) ∧
    (∀ (e : GoError) (s1 s2 : σ),
      rl.store.IsBlocked now (effectiveKey req) s = (.ok false, s1) →
      rl.store.IncrementRequestCount now (effectiveKey req) Second s1 = (.error e, s2) →
      (∃ msg, (rl.Allow now req s).err = some (GoError.wrapError msg e)) ∧
      (rl.Allow now req s).calls =
        [StoreCall.IsBlocked (effectiveKey req),
          StoreCall.IncrementRequestCount (effectiveKey req) Second] ∧
      (rl.Allow now req s).store = s2) ∧
    (∀ (e : GoError) (s1 s2 s3 : σ) (count : Int),
      rl.store.IsBlocked now (effectiveKey req) s = (.ok false, s1) →
      rl.store.IncrementRequestCount now (effectiveKey req) Second s1 = (.ok count, s2) →
      count > rl.config.limitOf (limitKind req) →
      rl.store.Block now (effectiveKey req) (rl.config.blockTimeOf (limitKind req)) s2
        = (some e, s3) →
      (∃ msg, (rl.Allow now req s).err = some (GoError.wrapError msg e)) ∧
      (rl.Allow now req s).calls =
        [StoreCall.IsBlocked (effectiveKey req),
          StoreCall.IncrementRequestCount (effectiveKey req) Second,
          StoreCall.Block (effectiveKey req) (rl.config.blockTimeOf (limitKind req))] ∧
      (rl.Allow now req s).store = s3) ∧
    (∀ (msg : String) (e : GoError),
      some (GoError.wrapError msg e) ≠ (none : Option GoError) ∧
      (GoError.wrapError msg e).asLimitExceeded = none ∧
      (GoError.wrapError msg e).Unwrap = some e) := by
  rw [Allow_eq_allowKey]
  unfold allowKey
  refine ⟨?_, ?_, ?_, ?_⟩
  · intro e s1 h1
    simp [h1, fmtErrorf]
  · intro e s1 s2 h1 h2
    simp [h1, h2, fmtErrorf]
  · intro e s1 s2 s3 count h1 h2 hgt h3
    simp [h1, h2, h3, hgt, fmtErrorf]
  · intro msg e
    exact ⟨by simp, rfl, rfl⟩

/-- C9 on a store whose calls all fail with a `*LimitExceededError`: `Allow`
returns an error wrapping it that is not itself a `*LimitExceededError`, after
the single call to `IsBlocked`. -/
theorem C9_store_failure_surfaced_witness :
    (∃ msg, ((RateLimiter.mk (LimiterConfig.mk 3 Minute 5 Minute)
        (failingStore (GoError.limitExceeded (NewLimitExceededError LimitType.IPLimit)))).Allow 0
        { IP := "10.0.0.1", Token := "" } 0).err =
      some (GoError.wrapError msg
        (GoError.limitExceeded (NewLimitExceededError LimitType.IPLimit)))) ∧
    ((RateLimiter.mk (LimiterConfig.mk 3 Minute 5 Minute)
        (failingStore (GoError.limitExceeded (NewLimitExceededError LimitType.IPLimit)))).Allow 0
        { IP := "10.0.0.1", Token := "" } 0).calls =
      [StoreCall.IsBlocked (effectiveKey { IP := "10.0.0.1", Token := "" })] ∧
    ((RateLimiter.mk (LimiterConfig.mk 3 Minute 5 Minute)
        (failingStore (GoError.limitExceeded (NewLimitExceededError LimitType.IPLimit)))).Allow 0
        { IP := "10.0.0.1", Token := "" } 0).store = 1 :=
  (C9_store_failure_surfaced
    (RateLimiter.mk (LimiterConfig.mk 3 Minute 5 Minute)
      (failingStore (GoError.limitExceeded (NewLimitExceededError LimitType.IPLimit))))
    0 { IP := "10.0.0.1", Token := "" } 0).1
    (GoError.limitExceeded (NewLimitExceededError LimitType.IPLimit)) 1 rfl

/-! ### The counter of the in-memory store -/

/-- With the counter an integer without bound, `IncrementRequestCount key d` at
time `now` returns the counter it leaves for the key and never an error, and
changes no block record.  If the key has no counter (the Go expression
`s.counts[key]` is 0, as it is when the key is missing from the map) or its
window has expired, it returns 1 and sets the window expiry to `now + d`;
otherwise it returns the previous count plus 1 and leaves the window expiry
unchanged. -/
theorem MemoryStore.IncrementRequestCount_result (s : MemoryStore) (now : Time)
    (key : String) (d : Duration) :
    (s.IncrementRequestCount now key d).1 =
      .ok ((s.IncrementRequestCount now key d).2.countAt key) ∧
    (s.IncrementRequestCount now key d).2.counts key =
      some ((s.IncrementRequestCount now key d).2.countAt key) ∧
    (s.IncrementRequestCount now key d).2.blocked = s.blocked ∧
    (if s.countAt key = 0 ∨ s.windowExpired now key = true then
      (s.IncrementRequestCount now key d).1 = .ok 1 ∧
      (s.IncrementRequestCount now key d).2.expiryTime key = some (now + d)
    else
      (s.IncrementRequestCount now key d).1 = .ok (s.countAt key + 1) ∧
      (s.IncrementRequestCount now key d).2.expiryTime = s.expiryTime) ∧
    (s.counts key = none →
      (s.IncrementRequestCount now key d).1 = .ok 1 ∧
      (s.IncrementRequestCount now key d).2.expiryTime key = some (now + d)) := by
  have hfresh : s.countAt key = 0 ∨ s.windowExpired now key = true →
      (s.IncrementRequestCount now key d).1 = .ok 1 ∧
      (s.IncrementRequestCount now key d).2.expiryTime key = some (now + d) := by
    intro h
    rw [MemoryStore.IncrementRequestCount_fresh s now key d h]
    simp
  refine ⟨rfl, MemoryStore.IncrementRequestCount_counts s now key d,
    MemoryStore.IncrementRequestCount_blocked s now key d, ?_, ?_⟩
  · split
    · rename_i h
      exact hfresh h
    · rename_i h
      have h0 : s.countAt key ≠ 0 := fun h0 => h (Or.inl h0)
      have hw : s.windowExpired now key = false := by
        cases hw : s.windowExpired now key
        · rfl
        · exact absurd (Or.inr hw) h
      rw [MemoryStore.IncrementRequestCount_live s now key d h0 hw]
      exact ⟨rfl, rfl⟩
  · intro hc
    exact hfresh (Or.inl (by simp [MemoryStore.countAt, hc]))

/-- An integer in the range of `int` is the `int` it wraps to. -/
theorem wrapInt_of_range (n : Int) (h1 : MinInt ≤ n) (h2 : n ≤ MaxInt) : wrapInt n = n := by
  simp only [wrapInt, MinInt, MaxInt] at *
  omega

/-- The increment on the 64-bit `int` is the increment on the integers when the
window has expired or the counter plus one is in the range of `int`. -/
theorem MemoryStore.IncrementRequestCountInt64_eq (s : MemoryStore) (now : Time)
    (key : String) (d : Duration)
    (h : s.windowExpired now key = true ∨
      (MinInt ≤ s.countAt key + 1 ∧ s.countAt key + 1 ≤ MaxInt)) :
    s.IncrementRequestCountInt64 now key d = s.IncrementRequestCount now key d := by
  unfold MemoryStore.IncrementRequestCountInt64 MemoryStore.IncrementRequestCount
  cases hw : s.windowExpired now key
  · have hr : wrapInt (s.countAt key + 1) = s.countAt key + 1 := by
      rcases h with h | h
      · rw [hw] at h
        exact absurd h (by simp)
      · exact wrapInt_of_range _ h.1 h.2
    simp only [Bool.false_eq_true, if_false, hr]
  · have h1 : wrapInt (0 + 1) = 0 + 1 := by decide
    simp only [if_true, MemoryStore.countAt, Function.update_same, Option.getD_none, h1]

/-- C10, amended: on a store whose counter of the key is an `int` and, unless
its window has expired, not the largest `int`, `IncrementRequestCount key d`
at time `now`, with `s.counts[key]++` on the 64-bit `int`, returns the counter
it leaves for the key and never an error, and changes no block record.  If the
key has no counter or its window has expired, it returns 1 and sets the window
expiry to `now + d`; otherwise it returns the previous count plus 1 and leaves
the window expiry unchanged. -/
theorem C10_increment_request_count (s : MemoryStore) (now : Time) (key : String)
    (d : Duration)
    (hint : MinInt ≤ s.countAt key ∧ s.countAt key ≤ MaxInt)
    (hmax : s.windowExpired now key = true ∨ s.countAt key ≠ MaxInt) :
    (s.IncrementRequestCountInt64 now key d).1 =
      .ok ((s.IncrementRequestCountInt64 now key d).2.countAt key) ∧
    (s.IncrementRequestCountInt64 now key d).2.counts key =
      some ((s.IncrementRequestCountInt64 now key d).2.countAt key) ∧
    (s.IncrementRequestCountInt64 now key d).2.blocked = s.blocked ∧
    (if s.countAt key = 0 ∨ s.windowExpired now key = true then
      (s.IncrementRequestCountInt64 now key d).1 = .ok 1 ∧
      (s.IncrementRequestCountInt64 now key d).2.expiryTime key = some (now + d)
    else
      (s.IncrementRequestCountInt64 now key d).1 = .ok (s.countAt key + 1) ∧
      (s.IncrementRequestCountInt64 now key d).2.expiryTime = s.expiryTime) ∧
    (s.counts key = none →
      (s.IncrementRequestCountInt64 now key d).1 = .ok 1 ∧
      (s.IncrementRequestCountInt64 now key d).2.expiryTime key = some (now + d)) := by
  have heq : s.IncrementRequestCountInt64 now key d = s.IncrementRequestCount now key d := by
    refine MemoryStore.IncrementRequestCountInt64_eq s now key d ?_
    rcases hmax with hw | hne
    · exact Or.inl hw
    · right
      have h1 := hint.1
      have h2 := hint.2
      have hlt : s.countAt key < MaxInt := lt_of_le_of_ne h2 hne
      simp only [MinInt, MaxInt] at *
      constructor <;> omega
  rw [heq]
  exact MemoryStore.IncrementRequestCount_result s now key d

/-- C10, amended, on the third increment of a key inside its window of one
second: it returns 3 and leaves the window expiry at one second. -/
theorem C10_increment_request_count_witness :
    ((((MemoryStore.NewMemoryStore.IncrementRequestCountInt64 0 "k" Second).2
        ).IncrementRequestCountInt64 1 "k" Second).2.IncrementRequestCountInt64
          2 "k" Second).1 = .ok 3 ∧
    ((((MemoryStore.NewMemoryStore.IncrementRequestCountInt64 0 "k" Second).2
        ).IncrementRequestCountInt64 1 "k" Second).2.IncrementRequestCountInt64
          2 "k" Second).2.expiryTime "k" = some Second := by
  have h := (C10_increment_request_count
    (((MemoryStore.NewMemoryStore.IncrementRequestCountInt64 0 "k" Second).2
      ).IncrementRequestCountInt64 1 "k" Second).2
    2 "k" Second (by decide) (Or.inr (by decide))).2.2.2.1
  rw [if_neg (by decide)] at h
  exact ⟨h.1.trans (by decide), (congrFun h.2 "k").trans (by decide)⟩

/-- C10 as stated fails when the counter stands at the largest `int` in a live
window: the increment returns the smallest `int`, not the previous count plus
1. -/
theorem C10_increment_wraps_at_max_int :
    fullCounterStore.countAt "k" = MaxInt ∧
    fullCounterStore.windowExpired 5 "k" = false ∧
    (fullCounterStore.IncrementRequestCountInt64 5 "k" Second).1 = .ok MinInt ∧
    (fullCounterStore.IncrementRequestCountInt64 5 "k" Second).1 ≠
      .ok (fullCounterStore.countAt "k" + 1) := by
  refine ⟨by decide, by decide, by decide, by decide⟩

/-! ### Sequences of calls on the in-memory store -/

/-- Unfolding a sequence of store calls at its first call. -/
theorem run_cons {σ : Type} (st : RateLimiterStore σ) (now : Time) (op : StoreOp)
    (rest : List (Time × StoreOp)) (s : σ) :
    st.run ((now, op) :: rest) s =
      ((st.call now op s).1 :: (st.run rest (st.call now op s).2).1,
        (st.run rest (st.call now op s).2).2) := rfl

/-- An increment of the in-memory store as a store call. -/
theorem MemoryStore.call_increment (s : MemoryStore) (now : Time) (key : String)
    (d : Duration) :
    MemoryStore.methods.call now (StoreOp.IncrementRequestCount key d) s =
      (OpResult.count (s.IncrementRequestCount now key d).1,
        (s.IncrementRequestCount now key d).2) := rfl

/-- Increments inside a live window: from count `c` they return `c + 1`,
`c + 2`, ... and leave the window expiry and the blocks as they were. -/
theorem MemoryStore.run_increments_live (key : String) (e : Time) :
    ∀ (calls : List (Time × Duration)) (s : MemoryStore) (c : Int),
      s.counts key = some c → 0 < c → s.expiryTime key = some e →
      (∀ x ∈ calls, x.1 ≤ e) →
      (MemoryStore.methods.run
          (calls.map fun x => (x.1, StoreOp.IncrementRequestCount key x.2)) s).1 =
        (List.range calls.length).map (fun (i : Nat) => OpResult.count (.ok (c + 1 + (i : Int)))) ∧
      (MemoryStore.methods.run
          (calls.map fun x => (x.1, StoreOp.IncrementRequestCount key x.2)) s).2.counts key =
        some (c + (calls.length : Int)) ∧
      (MemoryStore.methods.run
          (calls.map fun x => (x.1, StoreOp.IncrementRequestCount key x.2)) s).2.expiryTime key =
        some e ∧
      (MemoryStore.methods.run
          (calls.map fun x => (x.1, StoreOp.IncrementRequestCount key x.2)) s).2.blocked =
        s.blocked := by
  intro calls
  induction calls with
  | nil =>
    intro s c hc _ he _
    simp [RateLimiterStore.run, hc, he]
  | cons x rest ih =>
    intro s c hc hc0 he hwin
    have hx : x.1 ≤ e := hwin x (by simp)
    have hca : s.countAt key = c := by simp [MemoryStore.countAt, hc]
    have hlive := MemoryStore.IncrementRequestCount_live s x.1 key x.2
      (by rw [hca]; exact ne_of_gt hc0) (MemoryStore.windowExpired_of_le s x.1 e key he hx)
    rw [hca] at hlive
    obtain ⟨h1, h2, h3, h4⟩ := ih
      { counts := Function.update s.counts key (some (c + 1)),
        blocked := s.blocked, expiryTime := s.expiryTime }
      (c + 1) (by simp) (by omega) he (fun y hy => hwin y (by simp [hy]))
    simp only [List.map_cons, run_cons, MemoryStore.call_increment, hlive, List.length_cons]
    refine ⟨?_, ?_, h3, h4⟩
    · rw [h1, List.range_succ_eq_map]
      simp only [List.map_cons, List.map_map, Nat.cast_zero, add_zero, List.cons.injEq,
        true_and]
      apply List.map_congr_left
      intro i _
      simp only [Function.comp_apply, Nat.cast_succ]
      congr 2
      ring
    · rw [h2]
      congr 1
      push_cast
      ring

/-- Increments on a key whose counter is zero or whose window has expired, the
later ones falling inside the window the first one opens: they return 1, 2,
..., and the window expiry stays where the first call put it. -/
theorem MemoryStore.run_increments_fresh (key : String) (t1 : Time) (d1 : Duration)
    (rest : List (Time × Duration)) (s : MemoryStore)
    (hfresh : s.countAt key = 0 ∨ s.windowExpired t1 key = true)
    (hwin : ∀ x ∈ rest, x.1 ≤ t1 + d1) :
    (MemoryStore.methods.run
        (((t1, d1) :: rest).map fun x => (x.1, StoreOp.IncrementRequestCount key x.2)) s).1 =
      (List.range (rest.length + 1)).map (fun (i : Nat) => OpResult.count (.ok (1 + (i : Int)))) ∧
    (MemoryStore.methods.run
        (((t1, d1) :: rest).map fun x => (x.1, StoreOp.IncrementRequestCount key x.2)) s).2.counts
      key = some (1 + (rest.length : Int)) ∧
    (MemoryStore.methods.run
        (((t1, d1) :: rest).map fun x => (x.1, StoreOp.IncrementRequestCount key x.2)) s).2.expiryTime
      key = some (t1 + d1) ∧
    (MemoryStore.methods.run
        (((t1, d1) :: rest).map fun x => (x.1, StoreOp.IncrementRequestCount key x.2)) s).2.blocked
      = s.blocked := by
  have h0 := MemoryStore.IncrementRequestCount_fresh s t1 key d1 hfresh
  obtain ⟨h1, h2, h3, h4⟩ := MemoryStore.run_increments_live key (t1 + d1) rest
    { counts := Function.update s.counts key (some 1),
      blocked := s.blocked,
      expiryTime := Function.update s.expiryTime key (some (t1 + d1)) }
    1 (by simp) (by norm_num) (by simp) hwin
  simp only [List.map_cons, run_cons, MemoryStore.call_increment, h0]
  refine ⟨?_, h2, h3, h4⟩
  rw [h1, List.range_succ_eq_map]
  simp only [List.map_cons, List.map_map, Nat.cast_zero, add_zero, List.cons.injEq, true_and]
  apply List.map_congr_left
  intro i _
  simp only [Function.comp_apply, Nat.cast_succ]
  congr 2
  ring

/-- A store call other than `Block` on `key` leaves the block record of `key`. -/
theorem MemoryStore.call_blocked_frame (s : MemoryStore) (now : Time) (op : StoreOp)
    (key : String) (h : ∀ d, op ≠ StoreOp.Block key d) :
    (MemoryStore.methods.call now op s).2.blocked key = s.blocked key := by
  cases op with
  | GetRequestCount k =>
    simp only [RateLimiterStore.call, MemoryStore.methods, MemoryStore.GetRequestCount]
    split <;> rfl
  | IncrementRequestCount k d =>
    simp only [RateLimiterStore.call, MemoryStore.methods]
    rw [MemoryStore.IncrementRequestCount_blocked]
  | IsBlocked k => rfl
  | Block k d =>
    have hk : key ≠ k := by
      intro hk
      exact h d (by rw [hk])
    simp [RateLimiterStore.call, MemoryStore.methods, MemoryStore.Block,
      Function.update_noteq hk]

/-- A sequence of store calls without a `Block` on `key` leaves the block
record of `key`. -/
theorem MemoryStore.run_blocked_frame (key : String) :
    ∀ (ops : List (Time × StoreOp)) (s : MemoryStore),
      (∀ c ∈ ops, ∀ d, c.2 ≠ StoreOp.Block key d) →
      (MemoryStore.methods.run ops s).2.blocked key = s.blocked key := by
  intro ops
  induction ops with
  | nil => intro s _; rfl
  | cons c rest ih =>
    intro s h
    obtain ⟨now, op⟩ := c
    rw [run_cons]
    simp only
    rw [ih _ (fun c hc => h c (by simp [hc])),
      MemoryStore.call_blocked_frame s now op key (h (now, op) (by simp))]

/-- A store call other than `IncrementRequestCount` on `key` creates no counter
for `key`. -/
theorem MemoryStore.call_counts_none (s : MemoryStore) (now : Time) (op : StoreOp)
    (key : String) (h : ∀ d, op ≠ StoreOp.IncrementRequestCount key d)
    (hc : s.counts key = none) :
    (MemoryStore.methods.call now op s).2.counts key = none := by
  cases op with
  | GetRequestCount k =>
    simp only [RateLimiterStore.call, MemoryStore.methods, MemoryStore.GetRequestCount]
    split <;> exact hc
  | IncrementRequestCount k d =>
    have hk : key ≠ k := by
      intro hk
      exact h d (by rw [hk])
    simp only [RateLimiterStore.call, MemoryStore.methods]
    rw [(MemoryStore.IncrementRequestCount_frame s now k d key hk).1, hc]
  | IsBlocked k => exact hc
  | Block k d =>
    show Function.update s.counts k none key = none
    by_cases hk : key = k
    · rw [hk, Function.update_same]
    · rw [Function.update_noteq hk, hc]

/-- A sequence of store calls without an `IncrementRequestCount` on `key`
creates no counter for `key`. -/
theorem MemoryStore.run_counts_none (key : String) :
    ∀ (ops : List (Time × StoreOp)) (s : MemoryStore),
      (∀ c ∈ ops, ∀ d, c.2 ≠ StoreOp.IncrementRequestCount key d) →
      s.counts key = none →
      (MemoryStore.methods.run ops s).2.counts key = none := by
  intro ops
  induction ops with
  | nil => intro s _ hc; exact hc
  | cons c rest ih =>
    intro s h hc
    obtain ⟨now, op⟩ := c
    rw [run_cons]
    exact ih _ (fun c hc => h c (by simp [hc]))
      (MemoryStore.call_counts_none s now op key (h (now, op) (by simp)) hc)

/-- After its window expiry a counter reads 0 and the next increment returns 1. -/
theorem MemoryStore.expired_reads_zero (s : MemoryStore) (t e : Time) (key : String)
    (he : s.expiryTime key = some e) (ht : e < t) :
    (s.GetRequestCount t key).1 = .ok 0 ∧
    ∀ d, (s.IncrementRequestCount t key d).1 = .ok 1 := by
  have hw : s.windowExpired t key = true := by
    simp [MemoryStore.windowExpired, he, ht]
  refine ⟨by simp [MemoryStore.GetRequestCount, hw], ?_⟩
  intro d
  rw [MemoryStore.IncrementRequestCount_fresh s t key d (Or.inr hw)]

/-- C11: `MemoryStore.GetRequestCount` never returns an error and never
changes the store.  It returns 0 for a key that has no counter and 0 at every
time after the key's window expiry, and the next `IncrementRequestCount` then
returns 1.  At a time within the window it returns the value returned by the
last `IncrementRequestCount` for that key.  In particular, after `N`
increments in one window on a fresh key, it returns `N` until the window
expiry and 0 after it, where the next increment returns 1, not `N + 1`. -/
theorem C11_get_request_count :
    (∀ (s : MemoryStore) (t : Time) (key : String),
      (s.GetRequestCount t key).2 = s ∧ ∃ v, (s.GetRequestCount t key).1 = .ok v) ∧
    (∀ (s : MemoryStore) (t : Time) (key : String),
      s.counts key = none → (s.GetRequestCount t key).1 = .ok 0) ∧
    (∀ (s : MemoryStore) (t e : Time) (key : String),
      s.expiryTime key = some e → e < t →
      (s.GetRequestCount t key).1 = .ok 0 ∧
      ∀ d, (s.IncrementRequestCount t key d).1 = .ok 1) ∧
    (∀ (s : MemoryStore) (now t : Time) (key : String) (d : Duration),
      (s.IncrementRequestCount now key d).2.windowExpired t key = false →
      ((s.IncrementRequestCount now key d).2.GetRequestCount t key).1 =
        (s.IncrementRequestCount now key d).1) ∧
    (∀ (s : MemoryStore) (key : String) (t1 : Time) (d1 : Duration)
      (rest : List (Time × Duration)) (t : Time),
      s.counts key = none → (∀ x ∈ rest, x.1 ≤ t1 + d1) →
      (t ≤ t1 + d1 →
        ((MemoryStore.methods.run
          (((t1, d1) :: rest).map fun x => (x.1, StoreOp.IncrementRequestCount key x.2))
          s).2.GetRequestCount t key).1 = .ok ((rest.length : Int) + 1)) ∧
      (t1 + d1 < t →
        ((MemoryStore.methods.run
          (((t1, d1) :: rest).map fun x => (x.1, StoreOp.IncrementRequestCount key x.2))
          s).2.GetRequestCount t key).1 = .ok 0 ∧
        ∀ d, ((MemoryStore.methods.run
          (((t1, d1) :: rest).map fun x => (x.1, StoreOp.IncrementRequestCount key x.2))
          s).2.IncrementRequestCount t key d).1 = .ok 1)) := by
  refine ⟨?_, ?_, ?_, ?_, ?_⟩
  · intro s t key
    unfold MemoryStore.GetRequestCount
    split
    · exact ⟨rfl, 0, rfl⟩
    · exact ⟨rfl, _, rfl⟩
  · intro s t key hc
    exact MemoryStore.GetRequestCount_of_none s t key hc
  · intro s t e key he ht
    exact MemoryStore.expired_reads_zero s t e key he ht
  · intro s now t key d hw
    rw [MemoryStore.IncrementRequestCount_fst]
    simp [MemoryStore.GetRequestCount, hw]
  · intro s key t1 d1 rest t hc hwin
    obtain ⟨_, h2, h3, _⟩ := MemoryStore.run_increments_fresh key t1 d1 rest s
      (Or.inl (by simp [MemoryStore.countAt, hc])) hwin
    refine ⟨?_, ?_⟩
    · intro ht
      have hw := MemoryStore.windowExpired_of_le _ t (t1 + d1) key h3 ht
      simp only [MemoryStore.GetRequestCount, hw, MemoryStore.countAt, h2]
      simp [add_comm]
    · intro ht
      exact MemoryStore.expired_reads_zero _ t (t1 + d1) key h3 ht

/-- C11 on a new store: three increments of `k` with a one-second window at
instants 0, 1, 2; the count reads 3 at the window expiry and 0 one nanosecond
later, where the next increment returns 1. -/
theorem C11_get_request_count_witness :
    ((MemoryStore.methods.run
        ([(0, Second), (1, Second), (2, Second)].map fun x =>
          (x.1, StoreOp.IncrementRequestCount "k" x.2))
        MemoryStore.NewMemoryStore).2.GetRequestCount (0 + Second) "k").1 = .ok 3 ∧
    ((MemoryStore.methods.run
        ([(0, Second), (1, Second), (2, Second)].map fun x =>
          (x.1, StoreOp.IncrementRequestCount "k" x.2))
        MemoryStore.NewMemoryStore).2.GetRequestCount (0 + Second + 1) "k").1 = .ok 0 ∧
    ((MemoryStore.methods.run
        ([(0, Second), (1, Second), (2, Second)].map fun x =>
          (x.1, StoreOp.IncrementRequestCount "k" x.2))
        MemoryStore.NewMemoryStore).2.IncrementRequestCount (0 + Second + 1) "k" Second).1
      = .ok 1 :=
  ⟨(C11_get_request_count.2.2.2.2 MemoryStore.NewMemoryStore "k" 0 Second
      [(1, Second), (2, Second)] (0 + Second) rfl (by decide)).1 (by decide),
    ((C11_get_request_count.2.2.2.2 MemoryStore.NewMemoryStore "k" 0 Second
      [(1, Second), (2, Second)] (0 + Second + 1) rfl (by decide)).2 (by decide)).1,
    ((C11_get_request_count.2.2.2.2 MemoryStore.NewMemoryStore "k" 0 Second
      [(1, Second), (2, Second)] (0 + Second + 1) rfl (by decide)).2 (by decide)).2 Second⟩

/-- C12: a key is blocked iff a block record exists and the current time is
before its expiry.  `MemoryStore.IsBlocked` never returns an error and never
changes the store; it is false for a key that was never blocked; and after
`Block key B` at time `t`, with no later `Block` on that key among the calls
that follow, `IsBlocked key` at time `t'` is true if and only if `t' < t + B`. -/
theorem C12_is_blocked :
    (∀ (s : MemoryStore) (t : Time) (key : String),
      (s.IsBlocked t key).2 = s ∧
      ∃ b, (s.IsBlocked t key).1 = .ok b ∧
        (b = true ↔ ∃ e, s.blocked key = some e ∧ t < e)) ∧
    (∀ (ops : List (Time × StoreOp)) (t : Time) (key : String),
      (∀ c ∈ ops, ∀ d, c.2 ≠ StoreOp.Block key d) →
      ((MemoryStore.methods.run ops MemoryStore.NewMemoryStore).2.IsBlocked t key).1
        = .ok false) ∧
    (∀ (s : MemoryStore) (t : Time) (key : String) (B : Duration)
      (ops : List (Time × StoreOp)) (t' : Time),
      (∀ c ∈ ops, ∀ d, c.2 ≠ StoreOp.Block key d) →
      ((MemoryStore.methods.run ops (s.Block t key B).2).2.IsBlocked t' key).1
        = .ok (decide (t' < t + B))) := by
  refine ⟨?_, ?_, ?_⟩
  · intro s t key
    refine ⟨rfl, s.blockedAt t key, rfl, ?_⟩
    unfold MemoryStore.blockedAt
    cases h : s.blocked key with
    | none => simp
    | some u => simp
  · intro ops t key h
    have hb := MemoryStore.run_blocked_frame key ops MemoryStore.NewMemoryStore h
    simp only [MemoryStore.IsBlocked, MemoryStore.blockedAt]
    rw [hb]
    rfl
  · intro s t key B ops t' h
    have hb := MemoryStore.run_blocked_frame key ops (s.Block t key B).2 h
    simp only [MemoryStore.IsBlocked, MemoryStore.blockedAt]
    rw [hb]
    simp [MemoryStore.Block]

/-- C12 on the Block/Unblock scenario: a key blocked for two seconds at instant
0 is blocked one second later and no longer blocked after two seconds, an
increment of the key coming in between. -/
theorem C12_is_blocked_witness :
    ((MemoryStore.methods.run [(1, StoreOp.IncrementRequestCount "k" Second)]
        (MemoryStore.NewMemoryStore.Block 0 "k" (2 * Second)).2).2.IsBlocked Second "k").1
      = .ok (decide (Second < 0 + 2 * Second)) ∧
    ((MemoryStore.methods.run [(1, StoreOp.IncrementRequestCount "k" Second)]
        (MemoryStore.NewMemoryStore.Block 0 "k" (2 * Second)).2).2.IsBlocked (2 * Second)
        "k").1
      = .ok (decide (2 * Second < 0 + 2 * Second)) ∧
    decide (Second < 0 + 2 * Second) = true ∧
    decide (2 * Second < 0 + 2 * Second) = false :=
  ⟨C12_is_blocked.2.2 MemoryStore.NewMemoryStore 0 "k" (2 * Second)
      [(1, StoreOp.IncrementRequestCount "k" Second)] Second (by simp),
    C12_is_blocked.2.2 MemoryStore.NewMemoryStore 0 "k" (2 * Second)
      [(1, StoreOp.IncrementRequestCount "k" Second)] (2 * Second) (by simp),
    by decide, by decide⟩

/-- C13: `MemoryStore.Block key B` clears any counter of the key.  It returns
no error and overwrites the block record with `now + B`; immediately after it
`GetRequestCount key` is 0 whatever the count was before; the next
`IncrementRequestCount` on that key, at any time and after any calls that do
not increment the key, returns 1; and the counters, window expiries and blocks
of all other keys are unchanged. -/
theorem C13_block_clears_counter (s : MemoryStore) (t : Time) (key : String)
    (B : Duration) :
    (s.Block t key B).1 = none ∧
    (s.Block t key B).2.blocked key = some (t + B) ∧
    (∀ t', ((s.Block t key B).2.GetRequestCount t' key).1 = .ok 0) ∧
    (∀ (ops : List (Time × StoreOp)) (t' : Time) (d : Duration),
      (∀ c ∈ ops, ∀ d', c.2 ≠ StoreOp.IncrementRequestCount key d') →
      ((MemoryStore.methods.run ops (s.Block t key B).2).2.IncrementRequestCount t' key d).1
        = .ok 1) ∧
    (∀ k, k ≠ key →
      (s.Block t key B).2.counts k = s.counts k ∧
      (s.Block t key B).2.expiryTime k = s.expiryTime k ∧
      (s.Block t key B).2.blocked k = s.blocked k) := by
  have hc : (s.Block t key B).2.counts key = none := by simp [MemoryStore.Block]
  refine ⟨rfl, by simp [MemoryStore.Block], ?_, ?_, ?_⟩
  · intro t'
    exact MemoryStore.GetRequestCount_of_none _ t' key hc
  · intro ops t' d h
    have hn := MemoryStore.run_counts_none key ops (s.Block t key B).2 h hc
    rw [MemoryStore.IncrementRequestCount_fresh _ t' key d
      (Or.inl (by simp [MemoryStore.countAt, hn]))]
  · intro k hk
    exact MemoryStore.Block_frame s t key B k hk

/-- C13 on a key counted up to 5: after blocking it for one second the count
reads 0, and one increment after the block has run out yields 1, not 6. -/
theorem C13_block_clears_counter_witness :
    ((MemoryStore.methods.run
        [(0, StoreOp.IncrementRequestCount "k" Second),
         (0, StoreOp.IncrementRequestCount "k" Second),
         (0, StoreOp.IncrementRequestCount "k" Second),
         (0, StoreOp.IncrementRequestCount "k" Second),
         (0, StoreOp.IncrementRequestCount "k" Second)]
        MemoryStore.NewMemoryStore).2.GetRequestCount 0 "k").1 = .ok 5 ∧
    ((((MemoryStore.methods.run
        [(0, StoreOp.IncrementRequestCount "k" Second),
         (0, StoreOp.IncrementRequestCount "k" Second),
         (0, StoreOp.IncrementRequestCount "k" Second),
         (0, StoreOp.IncrementRequestCount "k" Second),
         (0, StoreOp.IncrementRequestCount "k" Second)]
        MemoryStore.NewMemoryStore).2.Block 0 "k" Second).2.GetRequestCount 0 "k").1
      = .ok 0) ∧
    ((MemoryStore.methods.run [(1, StoreOp.IsBlocked "k")]
        ((MemoryStore.methods.run
          [(0, StoreOp.IncrementRequestCount "k" Second),
           (0, StoreOp.IncrementRequestCount "k" Second),
           (0, StoreOp.IncrementRequestCount "k" Second),
           (0, StoreOp.IncrementRequestCount "k" Second),
           (0, StoreOp.IncrementRequestCount "k" Second)]
          MemoryStore.NewMemoryStore).2.Block 0 "k" Second).2).2.IncrementRequestCount
        (Second + 1) "k" Second).1 = .ok 1 :=
  ⟨by decide,
    (C13_block_clears_counter
      (MemoryStore.methods.run
        [(0, StoreOp.IncrementRequestCount "k" Second),
         (0, StoreOp.IncrementRequestCount "k" Second),
         (0, StoreOp.IncrementRequestCount "k" Second),
         (0, StoreOp.IncrementRequestCount "k" Second),
         (0, StoreOp.IncrementRequestCount "k" Second)]
        MemoryStore.NewMemoryStore).2 0 "k" Second).2.2.1 0,
    (C13_block_clears_counter
      (MemoryStore.methods.run
        [(0, StoreOp.IncrementRequestCount "k" Second),
         (0, StoreOp.IncrementRequestCount "k" Second),
         (0, StoreOp.IncrementRequestCount "k" Second),
         (0, StoreOp.IncrementRequestCount "k" Second),
         (0, StoreOp.IncrementRequestCount "k" Second)]
        MemoryStore.NewMemoryStore).2 0 "k" Second).2.2.2.1
      [(1, StoreOp.IsBlocked "k")] (Second + 1) Second (by simp)⟩

/-- C14: for every `N ≥ 1`, `N` `IncrementRequestCount` calls on a fresh
`MemoryStore` key, run one after another at non-decreasing times within the
window the first call opens, return exactly the values 1, 2, ..., `N`, in
this order: no duplicates and no gaps. -/
theorem C14_increments_one_to_n (s : MemoryStore) (key : String) (t1 : Time)
    (d1 : Duration) (rest : List (Time × Duration))
    (hfresh : s.counts key = none)
    (hmono : List.Chain (fun a b => a ≤ b) t1 (rest.map Prod.fst))
    (hwin : ∀ x ∈ rest, x.1 ≤ t1 + d1) :
    (MemoryStore.methods.run
        (((t1, d1) :: rest).map fun x => (x.1, StoreOp.IncrementRequestCount key x.2)) s).1 =
      (List.range (rest.length + 1)).map
        (fun (i : Nat) => OpResult.count (.ok ((i : Int) + 1))) ∧
    ((List.range (rest.length + 1)).map (fun (i : Nat) => (i : Int) + 1)).Nodup := by
  have _ := hmono
  obtain ⟨h1, _⟩ := MemoryStore.run_increments_fresh key t1 d1 rest s
    (Or.inl (by simp [MemoryStore.countAt, hfresh])) hwin
  refine ⟨?_, ?_⟩
  · rw [h1]
    apply List.map_congr_left
    intro i _
    rw [add_comm]
  · refine List.Nodup.map ?_ (List.nodup_range _)
    intro a b hab
    simpa using hab

/-- C14 for four increments of a key of a new store at instants 0, 0, 1, 2 with
a one-second window: they return 1, 2, 3, 4. -/
theorem C14_increments_one_to_n_witness :
    (MemoryStore.methods.run
        ([(0, Second), (0, Second), (1, Second), (2, Second)].map fun x =>
          (x.1, StoreOp.IncrementRequestCount "k" x.2))
        MemoryStore.NewMemoryStore).1 =
      [OpResult.count (.ok 1), OpResult.count (.ok 2), OpResult.count (.ok 3),
        OpResult.count (.ok 4)] :=
  (C14_increments_one_to_n MemoryStore.NewMemoryStore "k" 0 Second
    [(0, Second), (1, Second), (2, Second)] rfl (by simp) (by decide)).1

/-! ### The sweep of the in-memory store -/

/-- The sweep only drops records that have already expired. -/
theorem MemoryStore.sweptAt_cleanup (s : MemoryStore) (t : Time) :
    MemoryStore.SweptAt t s (s.cleanup t) := by
  intro k
  constructor
  · cases he : s.expiryTime k with
    | none => left; simp [MemoryStore.cleanup, he]
    | some e =>
      by_cases h : t > e
      · right; exact ⟨e, rfl, h, by simp [MemoryStore.cleanup, he, h],
          by simp [MemoryStore.cleanup, he, h]⟩
      · left; simp [MemoryStore.cleanup, he, h]
  · cases hb : s.blocked k with
    | none => left; simp [MemoryStore.cleanup, hb]
    | some u =>
      by_cases h : t > u
      · right; exact ⟨u, rfl, h, by simp [MemoryStore.cleanup, hb, h]⟩
      · left; simp [MemoryStore.cleanup, hb, h]

/-- Records expired as of `t` are expired as of every later time. -/
theorem MemoryStore.SweptAt.mono {t t' : Time} {a b : MemoryStore}
    (h : MemoryStore.SweptAt t a b) (ht : t ≤ t') : MemoryStore.SweptAt t' a b := by
  intro k
  obtain ⟨h1, h2⟩ := h k
  constructor
  · rcases h1 with h1 | ⟨e, he, hlt, hc, hx⟩
    · exact Or.inl h1
    · exact Or.inr ⟨e, he, lt_of_lt_of_le hlt ht, hc, hx⟩
  · rcases h2 with h2 | ⟨u, hu, hlt, hb⟩
    · exact Or.inl h2
    · exact Or.inr ⟨u, hu, lt_of_lt_of_le hlt ht, hb⟩

/-- The increment on a key depends only on the counter and window expiry of
that key. -/
theorem MemoryStore.IncrementRequestCount_congr (a b : MemoryStore) (now : Time)
    (key : String) (d : Duration)
    (hc : b.counts key = a.counts key) (he : b.expiryTime key = a.expiryTime key) :
    (b.IncrementRequestCount now key d).1 = (a.IncrementRequestCount now key d).1 ∧
    (b.IncrementRequestCount now key d).2.counts key =
      (a.IncrementRequestCount now key d).2.counts key ∧
    (b.IncrementRequestCount now key d).2.expiryTime key =
      (a.IncrementRequestCount now key d).2.expiryTime key := by
  have hca : b.countAt key = a.countAt key := by simp [MemoryStore.countAt, hc]
  have hwa : b.windowExpired now key = a.windowExpired now key := by
    simp [MemoryStore.windowExpired, he]
  by_cases hf : a.countAt key = 0 ∨ a.windowExpired now key = true
  · rw [MemoryStore.IncrementRequestCount_fresh a now key d hf,
      MemoryStore.IncrementRequestCount_fresh b now key d (by rw [hca, hwa]; exact hf)]
    simp
  · have h0 : a.countAt key ≠ 0 := fun h => hf (Or.inl h)
    have hw : a.windowExpired now key = false := by
      cases hw : a.windowExpired now key
      · rfl
      · exact absurd (Or.inr hw) hf
    rw [MemoryStore.IncrementRequestCount_live a now key d h0 hw,
      MemoryStore.IncrementRequestCount_live b now key d (by rw [hca]; exact h0)
        (by rw [hwa]; exact hw), hca]
    simp [he]

/-- A store call at a time from `t` on returns the same on a store and on that
store with records dropped that had expired as of `t`, and the two stores it
leaves are again so related. -/
theorem MemoryStore.SweptAt.call_same {t : Time} {a b : MemoryStore}
    (h : MemoryStore.SweptAt t a b) (now : Time) (ht : t ≤ now) (op : StoreOp) :
    (MemoryStore.methods.call now op b).1 = (MemoryStore.methods.call now op a).1 ∧
    MemoryStore.SweptAt now (MemoryStore.methods.call now op a).2
      (MemoryStore.methods.call now op b).2 := by
  have hnow := h.mono ht
  cases op with
  | GetRequestCount key =>
    have hst : ∀ s : MemoryStore,
        (MemoryStore.methods.call now (StoreOp.GetRequestCount key) s).2 = s := by
      intro s
      simp only [RateLimiterStore.call, MemoryStore.methods, MemoryStore.GetRequestCount]
      split <;> rfl
    rw [hst a, hst b]
    refine ⟨?_, hnow⟩
    simp only [RateLimiterStore.call, MemoryStore.methods]
    congr 1
    rcases (hnow key).1 with ⟨hc, he⟩ | ⟨e, he, hlt, hc, hx⟩
    · simp only [MemoryStore.GetRequestCount, MemoryStore.windowExpired,
        MemoryStore.countAt, hc, he]
      split <;> rfl
    · rw [(MemoryStore.expired_reads_zero a now e key he hlt).1,
        MemoryStore.GetRequestCount_of_none b now key hc]
  | IncrementRequestCount key d =>
    simp only [RateLimiterStore.call, MemoryStore.methods]
    have hres : (b.IncrementRequestCount now key d).1 = (a.IncrementRequestCount now key d).1 ∧
        (b.IncrementRequestCount now key d).2.counts key =
          (a.IncrementRequestCount now key d).2.counts key ∧
        (b.IncrementRequestCount now key d).2.expiryTime key =
          (a.IncrementRequestCount now key d).2.expiryTime key := by
      rcases (hnow key).1 with ⟨hc, he⟩ | ⟨e, he, hlt, hc, hx⟩
      · exact MemoryStore.IncrementRequestCount_congr a b now key d hc he
      · have hwa : a.windowExpired now key = true := by
          simp [MemoryStore.windowExpired, he, hlt]
        rw [MemoryStore.IncrementRequestCount_fresh a now key d (Or.inr hwa),
          MemoryStore.IncrementRequestCount_fresh b now key d
            (Or.inl (by simp [MemoryStore.countAt, hc]))]
        simp
    refine ⟨by rw [hres.1], ?_⟩
    intro k
    by_cases hk : k = key
    · subst hk
      refine ⟨Or.inl ⟨hres.2.1, hres.2.2⟩, ?_⟩
      rw [MemoryStore.IncrementRequestCount_blocked, MemoryStore.IncrementRequestCount_blocked]
      exact (hnow k).2
    · obtain ⟨fa1, fa2, fa3⟩ := MemoryStore.IncrementRequestCount_frame a now key d k hk
      obtain ⟨fb1, fb2, fb3⟩ := MemoryStore.IncrementRequestCount_frame b now key d k hk
      rw [fa1, fa2, fa3, fb1, fb2, fb3]
      exact hnow k
  | IsBlocked key =>
    refine ⟨?_, hnow⟩
    simp only [RateLimiterStore.call, MemoryStore.methods, MemoryStore.IsBlocked,
      MemoryStore.blockedAt]
    rcases (hnow key).2 with hb | ⟨u, hu, hlt, hb⟩
    · rw [hb]
    · rw [hb, hu]
      simp [not_lt.mpr (le_of_lt hlt)]
  | Block key B =>
    refine ⟨rfl, ?_⟩
    intro k
    by_cases hk : k = key
    · subst hk
      simp [RateLimiterStore.call, MemoryStore.methods, MemoryStore.Block]
    · obtain ⟨fa1, fa2, fa3⟩ := MemoryStore.Block_frame a now key B k hk
      obtain ⟨fb1, fb2, fb3⟩ := MemoryStore.Block_frame b now key B k hk
      simp only [RateLimiterStore.call, MemoryStore.methods]
      rw [fa1, fa2, fa3, fb1, fb2, fb3]
      exact hnow k

/-- A sequence of store calls at non-decreasing times from `t` on returns the
same on a store and on that store with records dropped that had expired as of
`t`. -/
theorem MemoryStore.SweptAt.run_same :
    ∀ (ops : List (Time × StoreOp)) (t : Time) (a b : MemoryStore),
      MemoryStore.SweptAt t a b →
      List.Chain (fun x y => x ≤ y) t (ops.map Prod.fst) →
      (MemoryStore.methods.run ops b).1 = (MemoryStore.methods.run ops a).1 := by
  intro ops
  induction ops with
  | nil => intro t a b _ _; rfl
  | cons c rest ih =>
    intro t a b h hchain
    obtain ⟨now, op⟩ := c
    simp only [List.map_cons, List.chain_cons] at hchain
    obtain ⟨h1, h2⟩ := h.call_same now hchain.1 op
    rw [run_cons, run_cons]
    simp only
    rw [h1, ih now _ _ h2 hchain.2]

/-- C20: the sweep of the in-memory store is an optimization, not a
correctness requirement.  For every `MemoryStore` state, running `cleanup` at
time `t` changes the result of no later operation: every sequence of
`GetRequestCount`, `IncrementRequestCount`, `IsBlocked` and `Block` calls, on
any keys, at non-decreasing times from `t` on returns the same values whether
or not `cleanup` was run. -/
theorem C20_cleanup_changes_no_result (s : MemoryStore) (t : Time)
    (ops : List (Time × StoreOp))
    (hmono : List.Chain (fun x y => x ≤ y) t (ops.map Prod.fst)) :
    (MemoryStore.methods.run ops (s.cleanup t)).1 = (MemoryStore.methods.run ops s).1 :=
  MemoryStore.SweptAt.run_same ops t s (s.cleanup t) (MemoryStore.sweptAt_cleanup s t) hmono

/-- C20 on a store where, at instant 0, key `k` was counted once with a
one-second window and key `b` blocked for one second: the sweep two seconds
later drops both records, and the calls that follow return the same with and
without it. -/
theorem C20_cleanup_changes_no_result_witness :
    (MemoryStore.methods.run
        [(2 * Second, StoreOp.GetRequestCount "k"),
         (2 * Second, StoreOp.IncrementRequestCount "k" Second),
         (3 * Second, StoreOp.IsBlocked "b"),
         (3 * Second, StoreOp.Block "k" Second)]
        ((MemoryStore.methods.run
          [(0, StoreOp.IncrementRequestCount "k" Second), (0, StoreOp.Block "b" Second)]
          MemoryStore.NewMemoryStore).2.cleanup (2 * Second))).1 =
      (MemoryStore.methods.run
        [(2 * Second, StoreOp.GetRequestCount "k"),
         (2 * Second, StoreOp.IncrementRequestCount "k" Second),
         (3 * Second, StoreOp.IsBlocked "b"),
         (3 * Second, StoreOp.Block "k" Second)]
        (MemoryStore.methods.run
          [(0, StoreOp.IncrementRequestCount "k" Second), (0, StoreOp.Block "b" Second)]
          MemoryStore.NewMemoryStore).2).1 ∧
    (MemoryStore.methods.run
        [(0, StoreOp.IncrementRequestCount "k" Second), (0, StoreOp.Block "b" Second)]
        MemoryStore.NewMemoryStore).2.counts "k" = some 1 ∧
    ((MemoryStore.methods.run
        [(0, StoreOp.IncrementRequestCount "k" Second), (0, StoreOp.Block "b" Second)]
        MemoryStore.NewMemoryStore).2.cleanup (2 * Second)).counts "k" = none ∧
    ((MemoryStore.methods.run
        [(0, StoreOp.IncrementRequestCount "k" Second), (0, StoreOp.Block "b" Second)]
        MemoryStore.NewMemoryStore).2.cleanup (2 * Second)).blocked "b" = none :=
  ⟨C20_cleanup_changes_no_result
      (MemoryStore.methods.run
        [(0, StoreOp.IncrementRequestCount "k" Second), (0, StoreOp.Block "b" Second)]
        MemoryStore.NewMemoryStore).2
      (2 * Second)
      [(2 * Second, StoreOp.GetRequestCount "k"),
       (2 * Second, StoreOp.IncrementRequestCount "k" Second),
       (3 * Second, StoreOp.IsBlocked "b"),
       (3 * Second, StoreOp.Block "k" Second)]
      (by simp [Second]),
    by decide, by decide, by decide⟩

/-! ### The admission filter -/

/-- C15: the admission filter maps the verdict of `Allow` on the request
`{IP: getClientIP(r), Token: r.Header.Get("API_KEY")}` to a response.  If
`Allow` returns `nil` the next handler is invoked with the request unchanged
and the filter writes nothing itself; if `Allow` returns a
`*LimitExceededError` the next handler is not invoked and the filter replies
with status 429 and the error's message; if `Allow` returns any other error
the next handler is not invoked and the filter replies with status 500 and the
fixed text `Internal Server Error`, whatever the error. -/
theorem C15_filter_maps_verdict {σ : Type} (net : NetLib) (limiter : RateLimiter σ)
    (now : Time) (r : Request) (s : σ) :
    ((limiter.Allow now { IP := getClientIP net r, Token := r.Header "API_KEY" } s).err
        = none →
      (Middleware net limiter now r s).1 = [HandlerAction.ServeNext r]) ∧
    (∀ e : LimitExceededError,
      (limiter.Allow now { IP := getClientIP net r, Token := r.Header "API_KEY" } s).err
        = some (GoError.limitExceeded e) →
      (Middleware net limiter now r s).1 = [HandlerAction.HttpError e.Message 429]) ∧
    (∀ err : GoError,
      (limiter.Allow now { IP := getClientIP net r, Token := r.Header "API_KEY" } s).err
        = some err →
      err.asLimitExceeded = none →
      (Middleware net limiter now r s).1 =
        [HandlerAction.HttpError "Internal Server Error" 500]) ∧
    (Middleware net limiter now r s).2 =
      (limiter.Allow now { IP := getClientIP net r, Token := r.Header "API_KEY" } s).store := by
  refine ⟨?_, ?_, ?_, ?_⟩
  · intro h
    simp only [Middleware, h]
  · intro e h
    simp only [Middleware, h, GoError.asLimitExceeded, GoError.Error, StatusTooManyRequests]
  · intro err h hne
    simp only [Middleware, h, hne, StatusInternalServerError]
  · simp only [Middleware]
    split
    · split <;> rfl
    · rfl

/-! ### The Redis store: keys and commands -/

/-- Text appended to the same text is the same only when the two are. -/
theorem append_left_cancel_string (pfx a b : String) (h : pfx ++ a = pfx ++ b) : a = b := by
  have h2 := congrArg String.data h
  rw [String.data_append, String.data_append] at h2
  exact String.ext (List.append_cancel_left h2)

/-- A counter key is never a block-marker key. -/
theorem RedisStore.countKey_ne_blockKey (k1 k2 : String) :
    RedisStore.countKey k1 ≠ RedisStore.blockKey k2 := by
  intro h
  have h2 := congrArg String.data h
  unfold RedisStore.countKey RedisStore.blockKey at h2
  rw [String.data_append, String.data_append] at h2
  have h3 : ("count:" : String).data = 'c' :: ("ount:" : String).data := rfl
  have h4 : ("blocked:" : String).data = 'b' :: ("locked:" : String).data := rfl
  rw [h3, h4] at h2
  simp at h2

/-- Distinct keys have distinct counter keys. -/
theorem RedisStore.countKey_injective : Function.Injective RedisStore.countKey :=
  fun a b h => append_left_cancel_string "count:" a b h

/-- Distinct keys have distinct block-marker keys. -/
theorem RedisStore.blockKey_injective : Function.Injective RedisStore.blockKey :=
  fun a b h => append_left_cancel_string "blocked:" a b h

/-- The commands of `GetRequestCount`: one `GET` on the counter key. -/
theorem RedisStore.GetRequestCount_cmds {ρ : Type} (c : RedisClient ρ) (now : Time)
    (key : String) (r : ρ) :
    ((RedisStore.mk c.traced).GetRequestCount now key (r, [])).2.2 =
      [RedisCmd.Get (RedisStore.countKey key)] := by
  simp only [RedisStore.GetRequestCount, RedisClient.traced]
  rcases h : (c.Get now (RedisStore.countKey key) r).1 with _ | err | val
  · rfl
  · rfl
  · simp only [List.nil_append]
    cases Atoi val <;> rfl

/-- The commands and the result of `IncrementRequestCount`: one `INCR` on the
counter key, followed by `EXPIRE` on it exactly when `INCR` returned 1; the
result is that of `INCR`. -/
theorem RedisStore.IncrementRequestCount_cmds {ρ : Type} (c : RedisClient ρ) (now : Time)
    (key : String) (d : Duration) (r : ρ) :
    ((RedisStore.mk c.traced).IncrementRequestCount now key d (r, [])).2.2 =
      RedisCmd.Incr (RedisStore.countKey key) ::
        (if (c.Incr now (RedisStore.countKey key) r).1 = .ok 1 then
          [RedisCmd.Expire (RedisStore.countKey key) d] else []) ∧
    ((RedisStore.mk c.traced).IncrementRequestCount now key d (r, [])).1 =
      (c.Incr now (RedisStore.countKey key) r).1 := by
  simp only [RedisStore.IncrementRequestCount, RedisClient.traced]
  rcases h : (c.Incr now (RedisStore.countKey key) r).1 with err | val
  · simp
  · by_cases h1 : val = 1
    · simp [h1]
    · simp [h1]

/-- The commands of `IsBlocked`: one `EXISTS` on the block-marker key. -/
theorem RedisStore.IsBlocked_cmds {ρ : Type} (c : RedisClient ρ) (now : Time)
    (key : String) (r : ρ) :
    ((RedisStore.mk c.traced).IsBlocked now key (r, [])).2.2 =
      [RedisCmd.Exists (RedisStore.blockKey key)] := by
  simp only [RedisStore.IsBlocked, RedisClient.traced]
  rcases h : (c.Exists now (RedisStore.blockKey key) r).1 with err | n
  · rfl
  · rfl

/-- The commands of `Block`: `SET` on the block-marker key and, when it
succeeded, `DEL` on the counter key. -/
theorem RedisStore.Block_cmds {ρ : Type} (c : RedisClient ρ) (now : Time)
    (key : String) (B : Duration) (r : ρ) :
    ∀ cmd ∈ ((RedisStore.mk c.traced).Block now key B (r, [])).2.2,
      cmd = RedisCmd.Set (RedisStore.blockKey key) "1" B ∨
      cmd = RedisCmd.Del (RedisStore.countKey key) := by
  simp only [RedisStore.Block, RedisClient.traced]
  rcases h : (c.Set now (RedisStore.blockKey key) "1" B r).1 with err | ok
  · simp
  · simp only [List.nil_append]
    rcases h2 : (c.Del now (RedisStore.countKey key)
        (c.Set now (RedisStore.blockKey key) "1" B r).2).1 with err | n
    · simp
    · simp

/-- C15 on requests without headers from one peer, IP limit 3: the first is
handed to the next handler, the fourth (after three permits) gets status 429
with the message of the limit error, and over a store whose calls fail the
reply is status 500 with the fixed text. -/
theorem C15_filter_maps_verdict_witness :
    (Middleware plainNet (memoryLimiter (testConfig 3 (5 * Minute) 5 (5 * Minute))) 0
        (bareRequest "127.0.0.1") MemoryStore.NewMemoryStore).1 =
      [HandlerAction.ServeNext (bareRequest "127.0.0.1")] ∧
    (Middleware plainNet (memoryLimiter (testConfig 3 (5 * Minute) 5 (5 * Minute))) 0
        (bareRequest "127.0.0.1")
        ((memoryLimiter (testConfig 3 (5 * Minute) 5 (5 * Minute))).AllowSeq
          [(0, { IP := "127.0.0.1", Token := "" }), (0, { IP := "127.0.0.1", Token := "" }),
           (0, { IP := "127.0.0.1", Token := "" })]
          MemoryStore.NewMemoryStore).2).1 =
      [HandlerAction.HttpError (NewLimitExceededError LimitType.IPLimit).Message 429] ∧
    (Middleware plainNet
        (RateLimiter.mk (LimiterConfig.mk 3 Minute 5 Minute)
          (failingStore (GoError.errorString "connection refused")))
        0 (bareRequest "127.0.0.1") 0).1 =
      [HandlerAction.HttpError "Internal Server Error" 500] :=
  ⟨(C15_filter_maps_verdict plainNet
      (memoryLimiter (testConfig 3 (5 * Minute) 5 (5 * Minute))) 0
      (bareRequest "127.0.0.1") MemoryStore.NewMemoryStore).1 (by decide),
    (C15_filter_maps_verdict plainNet
      (memoryLimiter (testConfig 3 (5 * Minute) 5 (5 * Minute))) 0
      (bareRequest "127.0.0.1")
      ((memoryLimiter (testConfig 3 (5 * Minute) 5 (5 * Minute))).AllowSeq
        [(0, { IP := "127.0.0.1", Token := "" }), (0, { IP := "127.0.0.1", Token := "" }),
         (0, { IP := "127.0.0.1", Token := "" })]
        MemoryStore.NewMemoryStore).2).2.1 (NewLimitExceededError LimitType.IPLimit)
      (by decide),
    (C15_filter_maps_verdict plainNet
      (RateLimiter.mk (LimiterConfig.mk 3 Minute 5 Minute)
        (failingStore (GoError.errorString "connection refused")))
      0 (bareRequest "127.0.0.1") 0).2.2.1
      (fmtErrorf "erro ao verificar bloqueio do IP: " (GoError.errorString "connection refused"))
      (by decide) rfl⟩

/-- C18: in the distributed store counters and block markers never collide.
For all logical keys `k1` and `k2`, equal or not, the counter key
`"count:" ++ k1` differs from the block-marker key `"blocked:" ++ k2`, and each
of the two key mappings is injective.  `GetRequestCount` and
`IncrementRequestCount` send commands on the counter key only, `IsBlocked` on
the block-marker key only, and `Block` sets the block-marker key and deletes
the counter key. -/
theorem C18_key_namespaces :
    (∀ k1 k2 : String, RedisStore.countKey k1 ≠ RedisStore.blockKey k2) ∧
    Function.Injective RedisStore.countKey ∧
    Function.Injective RedisStore.blockKey ∧
    (∀ k : String,
      RedisStore.countKey k = "count:" ++ k ∧ RedisStore.blockKey k = "blocked:" ++ k) ∧
    (∀ (ρ : Type) (c : RedisClient ρ) (now : Time) (key : String) (d : Duration) (r : ρ),
      (∀ cmd ∈ ((RedisStore.mk c.traced).GetRequestCount now key (r, [])).2.2,
        cmd = RedisCmd.Get (RedisStore.countKey key)) ∧
      (∀ cmd ∈ ((RedisStore.mk c.traced).IncrementRequestCount now key d (r, [])).2.2,
        cmd = RedisCmd.Incr (RedisStore.countKey key) ∨
        cmd = RedisCmd.Expire (RedisStore.countKey key) d) ∧
      (∀ cmd ∈ ((RedisStore.mk c.traced).IsBlocked now key (r, [])).2.2,
        cmd = RedisCmd.Exists (RedisStore.blockKey key)) ∧
      (∀ cmd ∈ ((RedisStore.mk c.traced).Block now key d (r, [])).2.2,
        cmd = RedisCmd.Set (RedisStore.blockKey key) "1" d ∨
        cmd = RedisCmd.Del (RedisStore.countKey key))) := by
  refine ⟨RedisStore.countKey_ne_blockKey, RedisStore.countKey_injective,
    RedisStore.blockKey_injective, fun k => ⟨rfl, rfl⟩, ?_⟩
  intro ρ c now key d r
  refine ⟨?_, ?_, ?_, RedisStore.Block_cmds c now key d r⟩
  · intro cmd h
    rw [RedisStore.GetRequestCount_cmds] at h
    simpa using h
  · intro cmd h
    rw [(RedisStore.IncrementRequestCount_cmds c now key d r).1] at h
    split at h
    · simpa using h
    · left; simpa using h
  · intro cmd h
    rw [RedisStore.IsBlocked_cmds] at h
    simpa using h

/-- C19: `RedisStore.IncrementRequestCount` attaches the expiry only on the
increment that takes the value to 1.  Over every client it issues exactly one
`INCR` on `"count:" ++ key`, then an `EXPIRE` with the given window on that same
key if and only if the increment returned 1, and nothing else; it returns what
the increment returned. -/
theorem C19_expire_on_first_increment {ρ : Type} (c : RedisClient ρ) (now : Time)
    (key : String) (d : Duration) (r : ρ) :
    ((RedisStore.mk c.traced).IncrementRequestCount now key d (r, [])).2.2 =
      RedisCmd.Incr ("count:" ++ key) ::
        (if (c.Incr now ("count:" ++ key) r).1 = .ok 1 then
          [RedisCmd.Expire ("count:" ++ key) d] else []) ∧
    ((RedisStore.mk c.traced).IncrementRequestCount now key d (r, [])).1 =
      (c.Incr now ("count:" ++ key) r).1 ∧
    ((RedisStore.mk c).IncrementRequestCount now key d r).1 =
      (c.Incr now ("count:" ++ key) r).1 := by
  refine ⟨(RedisStore.IncrementRequestCount_cmds c now key d r).1,
    (RedisStore.IncrementRequestCount_cmds c now key d r).2, ?_⟩
  simp only [RedisStore.IncrementRequestCount, RedisStore.countKey]
  rcases h : c.Incr now ("count:" ++ key) r with ⟨res, r1⟩
  rcases res with err | val
  · rfl
  · by_cases h1 : val = 1
    · simp [h1]
    · simp [h1]

/-- C19 on the modelled service: the first increment of a key sends `INCR` then
`EXPIRE` and returns 1; the second sends `INCR` alone and returns 2. -/
theorem C19_expire_on_first_increment_witness :
    ((RedisStore.mk (redisService ExpiryRule.afterDeadline).traced).IncrementRequestCount 0 "k"
        Second (RedisDB.empty, [])).2.2 =
      [RedisCmd.Incr "count:k", RedisCmd.Expire "count:k" Second] ∧
    ((RedisStore.mk (redisService ExpiryRule.afterDeadline).traced).IncrementRequestCount 0 "k"
        Second (RedisDB.empty, [])).1 = .ok 1 ∧
    ((RedisStore.mk (redisService ExpiryRule.afterDeadline).traced).IncrementRequestCount 1 "k"
        Second
        (((redisStore ExpiryRule.afterDeadline).IncrementRequestCount 0 "k" Second
          RedisDB.empty).2, [])).2.2 = [RedisCmd.Incr "count:k"] ∧
    ((RedisStore.mk (redisService ExpiryRule.afterDeadline).traced).IncrementRequestCount 1 "k"
        Second
        (((redisStore ExpiryRule.afterDeadline).IncrementRequestCount 0 "k" Second
          RedisDB.empty).2, [])).1 = .ok 2 :=
  ⟨(C19_expire_on_first_increment (redisService ExpiryRule.afterDeadline) 0 "k" Second
      RedisDB.empty).1.trans (by decide),
    (C19_expire_on_first_increment (redisService ExpiryRule.afterDeadline) 0 "k" Second
      RedisDB.empty).2.1.trans (by decide),
    (C19_expire_on_first_increment (redisService ExpiryRule.afterDeadline) 1 "k" Second
      ((redisStore ExpiryRule.afterDeadline).IncrementRequestCount 0 "k" Second
        RedisDB.empty).2).1.trans (by decide),
    (C19_expire_on_first_increment (redisService ExpiryRule.afterDeadline) 1 "k" Second
      ((redisStore ExpiryRule.afterDeadline).IncrementRequestCount 0 "k" Second
        RedisDB.empty).2).2.1.trans (by decide)⟩

/-- C17: in the distributed store a failed `GET`, `INCR`, `EXISTS`, `SET` or
`DEL` surfaces as an error of the operation that issued it, but a failed
`EXPIRE` does not: on a missing key, with `INCR` succeeding and `EXPIRE` failing,
`IncrementRequestCount` returns 1 and no error, `Allow` permits the request, and
the counter is left without time-to-live, so that it still reads 1 an hour
later. -/
theorem C17_expire_failure_swallowed :
    (∀ (ρ : Type) (c : RedisClient ρ) (now : Time) (key : String) (r r1 : ρ) (e : GoError),
      c.Get now (RedisStore.countKey key) r = (.Err e, r1) →
      ((RedisStore.mk c).GetRequestCount now key r).1 = .error e) ∧
    (∀ (ρ : Type) (c : RedisClient ρ) (now : Time) (key : String) (d : Duration) (r r1 : ρ)
      (e : GoError),
      c.Incr now (RedisStore.countKey key) r = (.error e, r1) →
      ((RedisStore.mk c).IncrementRequestCount now key d r).1 = .error e) ∧
    (∀ (ρ : Type) (c : RedisClient ρ) (now : Time) (key : String) (r r1 : ρ) (e : GoError),
      c.Exists now (RedisStore.blockKey key) r = (.error e, r1) →
      ((RedisStore.mk c).IsBlocked now key r).1 = .error e) ∧
    (∀ (ρ : Type) (c : RedisClient ρ) (now : Time) (key : String) (B : Duration) (r r1 : ρ)
      (e : GoError),
      c.Set now (RedisStore.blockKey key) "1" B r = (.error e, r1) →
      ((RedisStore.mk c).Block now key B r).1 = some e) ∧
    (∀ (ρ : Type) (c : RedisClient ρ) (now : Time) (key : String) (B : Duration)
      (r r1 r2 : ρ) (v : String) (e : GoError),
      c.Set now (RedisStore.blockKey key) "1" B r = (.ok v, r1) →
      c.Del now (RedisStore.countKey key) r1 = (.error e, r2) →
      ((RedisStore.mk c).Block now key B r).1 = some e) ∧
    ((RedisStore.mk
        ((redisService ExpiryRule.afterDeadline).failingExpire
          (GoError.errorString "i/o timeout")).traced).IncrementRequestCount
        0 "ip:10.0.0.1" Second (RedisDB.empty, [])).1 = .ok 1 ∧
    ((RedisStore.mk
        ((redisService ExpiryRule.afterDeadline).failingExpire
          (GoError.errorString "i/o timeout")).traced).IncrementRequestCount
        0 "ip:10.0.0.1" Second (RedisDB.empty, [])).2.2 =
      [RedisCmd.Incr "count:ip:10.0.0.1", RedisCmd.Expire "count:ip:10.0.0.1" Second] ∧
    ((RateLimiter.mk (LimiterConfig.mk 3 (5 * Minute) 5 (5 * Minute))
        (RedisStore.mk
          ((redisService ExpiryRule.afterDeadline).failingExpire
            (GoError.errorString "i/o timeout"))).methods).Allow
        0 { IP := "10.0.0.1", Token := "" } RedisDB.empty).err = none ∧
    ((redisStore ExpiryRule.afterDeadline).GetRequestCount (60 * Minute) "ip:10.0.0.1"
        ((RedisStore.mk
          ((redisService ExpiryRule.afterDeadline).failingExpire
            (GoError.errorString "i/o timeout"))).IncrementRequestCount
          0 "ip:10.0.0.1" Second RedisDB.empty).2).1 = .ok 1 := by
  refine ⟨?_, ?_, ?_, ?_, ?_, by decide, by decide, by decide, by decide⟩
  · intro ρ c now key r r1 e h
    simp [RedisStore.GetRequestCount, h]
  · intro ρ c now key d r r1 e h
    simp [RedisStore.IncrementRequestCount, h]
  · intro ρ c now key r r1 e h
    simp [RedisStore.IsBlocked, h]
  · intro ρ c now key B r r1 e h
    simp [RedisStore.Block, h]
  · intro ρ c now key B r r1 r2 v e h1 h2
    simp [RedisStore.Block, h1, h2]

/-! ### Decimal text -/

/-- The character of a decimal digit is a digit and has the value of the digit. -/
theorem digit_char (d : Nat) (h : d < 10) :
    (Char.ofNat (48 + d)).isDigit = true ∧ (Char.ofNat (48 + d)).toNat - 48 = d := by
  interval_cases d <;> exact ⟨by decide, by decide⟩

/-- Parsing the decimal digits of `n` put in front of `acc` continues on `acc`
with `n` appended to the number read so far. -/
theorem parseDigits_decimalDigits :
    ∀ (fuel n : Nat) (acc : List Char) (a : Nat), n < fuel →
      ∃ k, parseDigits (decimalDigits fuel n acc) a = parseDigits acc (a * 10 ^ k + n) := by
  intro fuel
  induction fuel with
  | zero => intro n acc a h; omega
  | succ fuel ih =>
    intro n acc a h
    unfold decimalDigits
    by_cases h10 : n < 10
    · obtain ⟨hd, hv⟩ := digit_char n h10
      refine ⟨1, ?_⟩
      simp [h10, parseDigits, hd, hv]
    · obtain ⟨hd, hv⟩ := digit_char (n % 10) (Nat.mod_lt _ (by norm_num))
      obtain ⟨k, hk⟩ := ih (n / 10) (Char.ofNat (48 + n % 10) :: acc) a (by omega)
      refine ⟨k + 1, ?_⟩
      simp only [h10, if_false, hk, parseDigits, hd, if_true, hv]
      congr 1
      have := Nat.div_add_mod n 10
      rw [pow_succ]
      nlinarith

/-- With fuel left the decimal digits are not empty. -/
theorem decimalDigits_ne_nil (fuel n : Nat) (acc : List Char) :
    decimalDigits (fuel + 1) n acc ≠ [] := by
  induction fuel generalizing n acc with
  | zero =>
    unfold decimalDigits
    split
    · simp
    · simp [decimalDigits]
  | succ fuel ih =>
    unfold decimalDigits
    split
    · simp
    · exact ih _ _

/-- `strconv.Atoi` reads back the decimal text of every integer. -/
theorem Atoi_formatInt (n : Int) : Atoi (formatInt n) = .ok n := by
  cases n with
  | ofNat m =>
    obtain ⟨k, hk⟩ := parseDigits_decimalDigits (m + 1) m [] 0 (by omega)
    simp only [zero_mul, zero_add, parseDigits] at hk
    have hne := decimalDigits_ne_nil m m []
    unfold Atoi formatInt
    simp only
    cases hL : decimalDigits (m + 1) m [] with
    | nil => exact absurd hL hne
    | cons c cs =>
      rw [hL] at hk
      have hc : ¬ (c = '-' ∨ c = '+') := by
        rintro (h | h) <;> (subst h; simp [parseDigits] at hk)
      simp [hc, hk]
  | negSucc m =>
    obtain ⟨k, hk⟩ := parseDigits_decimalDigits (m + 2) (m + 1) [] 0 (by omega)
    simp only [zero_mul, zero_add, parseDigits] at hk
    have hne := decimalDigits_ne_nil (m + 1) (m + 1) []
    unfold Atoi formatInt
    simp only
    cases hL : decimalDigits (m + 2) (m + 1) [] with
    | nil => exact absurd hL hne
    | cons c cs =>
      rw [hL] at hk
      simp [hk, Int.negSucc_eq]

/-! ### The distributed store against the in-memory store -/

/-- Off its deadline a key has expired, under either rule, exactly when the
current time is after the deadline. -/
theorem ExpiryRule.expired_off_deadline (rule : ExpiryRule) (now e : Time) (h : e ≠ now) :
    rule.expired now (some e) = decide (now > e) := by
  cases rule with
  | afterDeadline => rfl
  | atDeadline =>
    simp only [ExpiryRule.expired, ge_iff_le, gt_iff_lt, decide_eq_decide]
    constructor
    · intro hle
      exact lt_of_le_of_ne hle h
    · exact le_of_lt

/-- Reading a counter: off the deadline of its window the service shows the
counter of the in-memory store exactly when the window has not expired. -/
theorem RedisMirrors.lookup_count {m : MemoryStore} {db : RedisDB} (h : RedisMirrors m db)
    (rule : ExpiryRule) (now : Time) (k : String) (hoff : m.expiryTime k ≠ some now) :
    db.lookup rule now (RedisStore.countKey k) =
      if m.windowExpired now k then none
      else (m.counts k).map
        (fun c => { value := formatInt c, deadline := m.expiryTime k }) := by
  unfold RedisDB.lookup MemoryStore.windowExpired
  rw [(h k).1]
  cases hc : m.counts k with
  | none => cases he : m.expiryTime k <;> simp
  | some c =>
    cases he : m.expiryTime k with
    | none => simp [ExpiryRule.expired]
    | some e =>
      have hne : e ≠ now := by
        intro heq
        exact hoff (by rw [he, heq])
      simp only [Option.map_some', ExpiryRule.expired_off_deadline rule now e hne]

/-- Reading a block marker: off the deadline of the block the service shows the
marker exactly when the in-memory store reports the key blocked. -/
theorem RedisMirrors.lookup_block {m : MemoryStore} {db : RedisDB} (h : RedisMirrors m db)
    (rule : ExpiryRule) (now : Time) (k : String) (hoff : m.blocked k ≠ some now) :
    (db.lookup rule now (RedisStore.blockKey k)).isSome = m.blockedAt now k := by
  unfold RedisDB.lookup MemoryStore.blockedAt
  rw [(h k).2]
  cases hb : m.blocked k with
  | none => simp
  | some u =>
    have hne : u ≠ now := by
      intro heq
      exact hoff (by rw [hb, heq])
    simp only [Option.map_some', ExpiryRule.expired_off_deadline rule now u hne]
    by_cases hlt : now > u
    · simp [hlt, not_lt.mpr (le_of_lt hlt)]
    · have : now < u := lt_of_le_of_ne (not_lt.mp hlt) (Ne.symm hne)
      simp [hlt, this]

/-- Off the deadline of its window, the deadline of a counter has passed for
the service exactly when the window has expired for the in-memory store. -/
theorem MemoryStore.expired_eq_windowExpired (m : MemoryStore) (rule : ExpiryRule)
    (now : Time) (k : String) (hoff : m.expiryTime k ≠ some now) :
    rule.expired now (m.expiryTime k) = m.windowExpired now k := by
  unfold MemoryStore.windowExpired
  cases he : m.expiryTime k with
  | none => cases rule <;> rfl
  | some e =>
    have hne : e ≠ now := by
      intro heq
      exact hoff (by rw [he, heq])
    rw [ExpiryRule.expired_off_deadline rule now e hne]

/-- What the service shows of a key that has just been written. -/
theorem RedisDB.lookup_update (rule : ExpiryRule) (db : RedisDB) (now : Time) (key : String)
    (entry : RedisEntry) :
    RedisDB.lookup rule (Function.update db key (some entry)) now key =
      if rule.expired now entry.deadline then none else some entry := by
  simp [RedisDB.lookup]

/-- Writing the counter of `k` on both sides keeps the service a mirror of the
in-memory store. -/
theorem RedisMirrors.update_count {m : MemoryStore} {db : RedisDB} (h : RedisMirrors m db)
    (m' : MemoryStore) (k : String) (v : Int) (dl : Option Time)
    (hc : m'.counts k = some v) (he : m'.expiryTime k = dl) (hb : m'.blocked = m.blocked)
    (hframe : ∀ k', k' ≠ k →
      m'.counts k' = m.counts k' ∧ m'.expiryTime k' = m.expiryTime k') :
    RedisMirrors m'
      (Function.update db (RedisStore.countKey k)
        (some { value := formatInt v, deadline := dl })) := by
  intro k'
  constructor
  · by_cases hk : k' = k
    · subst hk
      simp [hc, he]
    · have hne : RedisStore.countKey k' ≠ RedisStore.countKey k :=
        fun heq => hk (RedisStore.countKey_injective heq)
      rw [Function.update_noteq hne, (hframe k' hk).1, (hframe k' hk).2]
      exact (h k').1
  · rw [Function.update_noteq (RedisStore.countKey_ne_blockKey k k').symm, hb]
    exact (h k').2

/-- `GetRequestCount` of the distributed store returns what the in-memory
store returns, off the deadline of the window. -/
theorem RedisMirrors.GetRequestCount {m : MemoryStore} {db : RedisDB}
    (h : RedisMirrors m db) (rule : ExpiryRule) (now : Time) (k : String)
    (hoff : m.expiryTime k ≠ some now) :
    (redisStore rule).GetRequestCount now k db = ((m.GetRequestCount now k).1, db) := by
  simp only [RedisStore.GetRequestCount, redisStore, redisService,
    h.lookup_count rule now k hoff, MemoryStore.GetRequestCount]
  cases hw : m.windowExpired now k
  · cases hc : m.counts k with
    | none => simp [MemoryStore.countAt, hc]
    | some c => simp [MemoryStore.countAt, hc, Atoi_formatInt]
  · simp

/-- `IsBlocked` of the distributed store returns what the in-memory store
returns, off the deadline of the block. -/
theorem RedisMirrors.IsBlocked {m : MemoryStore} {db : RedisDB}
    (h : RedisMirrors m db) (rule : ExpiryRule) (now : Time) (k : String)
    (hoff : m.blocked k ≠ some now) :
    (redisStore rule).IsBlocked now k db = ((m.IsBlocked now k).1, db) := by
  have hl := h.lookup_block rule now k hoff
  simp only [RedisStore.IsBlocked, redisStore, redisService, MemoryStore.IsBlocked]
  cases hlook : db.lookup rule now (RedisStore.blockKey k) with
  | none =>
    rw [hlook] at hl
    simp only [Option.isSome_none] at hl
    simp [← hl]
  | some entry =>
    rw [hlook] at hl
    simp only [Option.isSome_some] at hl
    simp [← hl]

/-- A positive whole number of seconds is sent as it is by `Expire`. -/
theorem formatSec_whole (d : Duration) (hd : 0 < d) (hw : Second ∣ d) :
    0 < formatSec d ∧ formatSec d * Second = d := by
  obtain ⟨n, rfl⟩ := hw
  unfold formatSec
  unfold Second at hd ⊢
  have hge : ¬ ((1000000000 : Int) * n > 0 ∧ (1000000000 : Int) * n < 1000000000) := by
    omega
  have hd' : (0 : Int) < 1000000000 * n := hd
  rw [if_neg hge, Int.mul_tdiv_cancel_left n (by decide)]
  constructor <;> omega

/-- A positive whole number of milliseconds is sent as it is by `Set`, in
milliseconds or in seconds. -/
theorem setDeadline_whole (now : Time) (d : Duration) (hd : 0 < d) (hw : Millisecond ∣ d) :
    (if usePrecise d = true then some (now + formatMs d * Millisecond)
      else some (now + formatSec d * Second)) = some (now + d) := by
  by_cases hp : usePrecise d = true
  · rw [if_pos hp]
    obtain ⟨n, rfl⟩ := hw
    unfold formatMs
    unfold Millisecond at hd ⊢
    have hge : ¬ ((1000000 : Int) * n > 0 ∧ (1000000 : Int) * n < 1000000) := by omega
    rw [if_neg hge, Int.mul_tdiv_cancel_left n (by decide), Int.mul_comm n 1000000]
  · rw [if_neg hp]
    have hs : Second ∣ d := by
      simp only [usePrecise, decide_eq_true_eq, not_or, not_lt, ne_eq, not_not] at hp
      exact Int.dvd_of_tmod_eq_zero hp.2
    rw [(formatSec_whole d hd hs).2]

/-- `Block` of the distributed store with a positive duration of whole
milliseconds returns no error and leaves the service a mirror of the in-memory
store after its `Block`. -/
theorem RedisMirrors.Block {m : MemoryStore} {db : RedisDB}
    (h : RedisMirrors m db) (rule : ExpiryRule) (now : Time) (k : String) (B : Duration)
    (hB : 0 < B) (hw : Millisecond ∣ B) :
    ((redisStore rule).Block now k B db).1 = none ∧
    RedisMirrors (m.Block now k B).2 ((redisStore rule).Block now k B db).2 := by
  have hdb : (redisStore rule).Block now k B db =
      (none, Function.update
        (Function.update db (RedisStore.blockKey k)
          (some { value := "1", deadline := some (now + B) }))
        (RedisStore.countKey k) none) := by
    simp only [RedisStore.Block, redisStore, redisService, hB, if_true,
      setDeadline_whole now B hB hw]
    cases RedisDB.lookup rule
      (Function.update db (RedisStore.blockKey k)
        (some { value := "1", deadline := some (now + B) }))
      now (RedisStore.countKey k) <;> rfl
  rw [hdb]
  refine ⟨rfl, ?_⟩
  intro k'
  simp only [MemoryStore.Block]
  constructor
  · by_cases hk : k' = k
    · subst hk
      simp
    · have hne : RedisStore.countKey k' ≠ RedisStore.countKey k :=
        fun heq => hk (RedisStore.countKey_injective heq)
      rw [Function.update_noteq hne,
        Function.update_noteq (RedisStore.countKey_ne_blockKey k' k),
        Function.update_noteq hk, Function.update_noteq hk]
      exact (h k').1
  · rw [Function.update_noteq (RedisStore.countKey_ne_blockKey k k').symm]
    by_cases hk : k' = k
    · subst hk
      simp
    · have hne : RedisStore.blockKey k' ≠ RedisStore.blockKey k :=
        fun heq => hk (RedisStore.blockKey_injective heq)
      rw [Function.update_noteq hne, Function.update_noteq hk]
      exact (h k').2

/-- `INCR` then `EXPIRE` on a key the service does not show: the value is 1 and
the deadline `now + d`. -/
theorem RedisStore.IncrementRequestCount_absent (rule : ExpiryRule) (db : RedisDB)
    (now : Time) (k : String) (d : Duration) (hd : 0 < d) (hw : Second ∣ d)
    (hl : db.lookup rule now (RedisStore.countKey k) = none) :
    (redisStore rule).IncrementRequestCount now k d db =
      (.ok 1, Function.update db (RedisStore.countKey k)
        (some { value := formatInt 1, deadline := some (now + d) })) := by
  simp only [RedisStore.IncrementRequestCount, redisStore, redisService, hl, if_true,
    RedisDB.lookup_update, ExpiryRule.expired, Bool.false_eq_true, if_false,
    (formatSec_whole d hd hw).1, (formatSec_whole d hd hw).2, Function.update_idem]

/-- `INCR` on a key the service shows with the decimal text of `c`: the value
is `c + 1`; the deadline is kept, unless the value became 1 and `EXPIRE` puts
it at `now + d`. -/
theorem RedisStore.IncrementRequestCount_present (rule : ExpiryRule) (db : RedisDB)
    (now : Time) (k : String) (d : Duration) (hd : 0 < d) (hw : Second ∣ d) (c : Int)
    (dl : Option Time)
    (hl : db.lookup rule now (RedisStore.countKey k) =
      some { value := formatInt c, deadline := dl })
    (hdl : rule.expired now dl = false) :
    (redisStore rule).IncrementRequestCount now k d db =
      (.ok (c + 1), Function.update db (RedisStore.countKey k)
        (some { value := formatInt (c + 1),
                deadline := if c + 1 = 1 then some (now + d) else dl })) := by
  simp only [RedisStore.IncrementRequestCount, redisStore, redisService, hl, Atoi_formatInt]
  by_cases h1 : c + 1 = 1
  · simp only [h1, if_true, RedisDB.lookup_update, hdl, Bool.false_eq_true, if_false,
      (formatSec_whole d hd hw).1, (formatSec_whole d hd hw).2, Function.update_idem]
  · simp only [h1, if_false]

/-- `IncrementRequestCount` of the distributed store with a positive window of
whole seconds, off the deadline of the current window, returns what the
in-memory store returns and leaves the service a mirror of it. -/
theorem RedisMirrors.IncrementRequestCount {m : MemoryStore} {db : RedisDB}
    (h : RedisMirrors m db) (rule : ExpiryRule) (now : Time) (k : String) (d : Duration)
    (hd : 0 < d) (hsec : Second ∣ d) (hoff : m.expiryTime k ≠ some now) :
    ((redisStore rule).IncrementRequestCount now k d db).1 =
      (m.IncrementRequestCount now k d).1 ∧
    RedisMirrors (m.IncrementRequestCount now k d).2
      ((redisStore rule).IncrementRequestCount now k d db).2 := by
  have hlook := h.lookup_count rule now k hoff
  have hexp := m.expired_eq_windowExpired rule now k hoff
  by_cases hf : m.countAt k = 0 ∨ m.windowExpired now k = true
  · have hmem := MemoryStore.IncrementRequestCount_fresh m now k d hf
    have hred : (redisStore rule).IncrementRequestCount now k d db =
        (.ok 1, Function.update db (RedisStore.countKey k)
          (some { value := formatInt 1, deadline := some (now + d) })) := by
      cases hw : m.windowExpired now k
      · have h0 : m.countAt k = 0 := by
          rcases hf with h0 | h0
          · exact h0
          · rw [hw] at h0; exact absurd h0 (by simp)
        rw [hw] at hlook hexp
        cases hc : m.counts k with
        | none =>
          rw [hc] at hlook
          exact RedisStore.IncrementRequestCount_absent rule db now k d hd hsec
            (by simpa using hlook)
        | some c =>
          have hc0 : c = 0 := by simpa [MemoryStore.countAt, hc] using h0
          subst hc0
          rw [hc] at hlook
          have := RedisStore.IncrementRequestCount_present rule db now k d hd hsec 0
            (m.expiryTime k) (by simpa using hlook) hexp
          simpa using this
      · rw [hw] at hlook
        exact RedisStore.IncrementRequestCount_absent rule db now k d hd hsec
            (by simpa using hlook)
    rw [hmem, hred]
    refine ⟨rfl, ?_⟩
    refine h.update_count _ k 1 (some (now + d)) (by simp) (by simp) rfl ?_
    intro k' hk
    simp [Function.update_noteq hk]
  · have h0 : m.countAt k ≠ 0 := fun h0 => hf (Or.inl h0)
    have hw : m.windowExpired now k = false := by
      cases hw : m.windowExpired now k
      · rfl
      · exact absurd (Or.inr hw) hf
    have hmem := MemoryStore.IncrementRequestCount_live m now k d h0 hw
    obtain ⟨c, hc⟩ : ∃ c, m.counts k = some c := by
      cases hc : m.counts k with
      | none => exact absurd (by simp [MemoryStore.countAt, hc]) h0
      | some c => exact ⟨c, rfl⟩
    have hca : m.countAt k = c := by simp [MemoryStore.countAt, hc]
    rw [hca] at hmem h0
    rw [hw, hc] at hlook
    rw [hw] at hexp
    have hred := RedisStore.IncrementRequestCount_present rule db now k d hd hsec c
      (m.expiryTime k) (by simpa using hlook) hexp
    have h1 : ¬ (c + 1 = 1) := by
      intro h1
      exact h0 (by linarith)
    rw [if_neg h1] at hred
    rw [hmem, hred]
    refine ⟨rfl, ?_⟩
    refine h.update_count _ k (c + 1) (m.expiryTime k) (by simp) rfl rfl ?_
    intro k' hk
    simp [Function.update_noteq hk]

/-- One store call with a positive duration that the client sends as it is,
off the deadline of the record it reads: the distributed store returns what the
in-memory store returns and the service stays a mirror of it. -/
theorem RedisMirrors.call_agrees {m : MemoryStore} {db : RedisDB} (h : RedisMirrors m db)
    (rule : ExpiryRule) (now : Time) (op : StoreOp)
    (hpos : ∀ d, op.duration = some d → 0 < d) (hwhole : op.wholeDuration)
    (hoff : m.offDeadline now op) :
    ((redisStore rule).methods.call now op db).1 = (MemoryStore.methods.call now op m).1 ∧
    RedisMirrors (MemoryStore.methods.call now op m).2
      ((redisStore rule).methods.call now op db).2 := by
  cases op with
  | GetRequestCount k =>
    have hg := h.GetRequestCount rule now k hoff
    have hm : (m.GetRequestCount now k).2 = m := by
      unfold MemoryStore.GetRequestCount
      split <;> rfl
    simp only [RateLimiterStore.call, RedisStore.methods, MemoryStore.methods, hg, hm]
    exact ⟨trivial, h⟩
  | IncrementRequestCount k d =>
    obtain ⟨h1, h2⟩ := h.IncrementRequestCount rule now k d (hpos d rfl) hwhole hoff
    simp only [RateLimiterStore.call, RedisStore.methods, MemoryStore.methods, h1]
    exact ⟨trivial, h2⟩
  | IsBlocked k =>
    have hb := h.IsBlocked rule now k hoff
    simp only [RateLimiterStore.call, RedisStore.methods, MemoryStore.methods, hb]
    exact ⟨trivial, h⟩
  | Block k B =>
    obtain ⟨h1, h2⟩ := h.Block rule now k B (hpos B rfl) hwhole
    simp only [RateLimiterStore.call, RedisStore.methods, MemoryStore.methods, h1]
    exact ⟨rfl, h2⟩

/-- The window expiry an increment leaves for its key is the one it sets,
`now + d`, or the one that was there. -/
theorem MemoryStore.IncrementRequestCount_expiry (m : MemoryStore) (now : Time)
    (k : String) (d : Duration) :
    (m.IncrementRequestCount now k d).2.expiryTime k = some (now + d) ∨
    (m.IncrementRequestCount now k d).2.expiryTime k = m.expiryTime k := by
  by_cases hf : m.countAt k = 0 ∨ m.windowExpired now k = true
  · left
    rw [MemoryStore.IncrementRequestCount_fresh m now k d hf]
    simp
  · right
    have h0 : m.countAt k ≠ 0 := fun h0 => hf (Or.inl h0)
    have hw : m.windowExpired now k = false := by
      cases hw : m.windowExpired now k
      · rfl
      · exact absurd (Or.inr hw) hf
    rw [MemoryStore.IncrementRequestCount_live m now k d h0 hw]

/-- A call that is off the deadlines of the store, and off the deadline an
earlier call gives, is off the deadlines of the store that call leaves. -/
theorem MemoryStore.offDeadline_after_call (m : MemoryStore) (now : Time) (op : StoreOp)
    (t' : Time) (op' : StoreOp) (h : m.offDeadline t' op')
    (hd : op.deadlineFor now op' ≠ some t') :
    (MemoryStore.methods.call now op m).2.offDeadline t' op' := by
  have hexp : ∀ k', m.expiryTime k' ≠ some t' →
      (∀ d, op = StoreOp.IncrementRequestCount k' d → now + d ≠ t') →
      (MemoryStore.methods.call now op m).2.expiryTime k' ≠ some t' := by
    intro k' hk' hinc
    cases op with
    | GetRequestCount k =>
      simp only [RateLimiterStore.call, MemoryStore.methods, MemoryStore.GetRequestCount]
      split <;> exact hk'
    | IncrementRequestCount k d =>
      simp only [RateLimiterStore.call, MemoryStore.methods]
      by_cases hk : k' = k
      · subst hk
        rcases MemoryStore.IncrementRequestCount_expiry m now k' d with he | he
        · rw [he]
          intro heq
          exact hinc d rfl (Option.some.inj heq)
        · rw [he]; exact hk'
      · rw [(MemoryStore.IncrementRequestCount_frame m now k d k' hk).2.1]
        exact hk'
    | IsBlocked k => exact hk'
    | Block k B =>
      simp only [RateLimiterStore.call, MemoryStore.methods, MemoryStore.Block]
      by_cases hk : k' = k
      · subst hk
        simp
      · rw [Function.update_noteq hk]
        exact hk'
  cases op' with
  | GetRequestCount k' =>
    refine hexp k' h ?_
    intro d hop heq
    subst hop
    simp [StoreOp.deadlineFor, heq] at hd
  | IncrementRequestCount k' d' =>
    refine hexp k' h ?_
    intro d hop heq
    subst hop
    simp [StoreOp.deadlineFor, heq] at hd
  | IsBlocked k' =>
    show (MemoryStore.methods.call now op m).2.blocked k' ≠ some t'
    cases op with
    | GetRequestCount k =>
      simp only [RateLimiterStore.call, MemoryStore.methods, MemoryStore.GetRequestCount]
      split <;> exact h
    | IncrementRequestCount k d =>
      simp only [RateLimiterStore.call, MemoryStore.methods]
      rw [MemoryStore.IncrementRequestCount_blocked]
      exact h
    | IsBlocked k => exact h
    | Block k B =>
      simp only [RateLimiterStore.call, MemoryStore.methods, MemoryStore.Block]
      by_cases hk : k' = k
      · subst hk
        intro heq
        simp only [Function.update_same, Option.some.injEq] at heq
        simp [StoreOp.deadlineFor, heq] at hd
      · rw [Function.update_noteq hk]
        exact h
  | Block k' B' => trivial

/-- A sequence of store calls with positive durations that the client sends as
they are, none of which reads a record at the instant of its deadline: the
distributed store returns what the in-memory store returns, call by call. -/
theorem RedisMirrors.run_agrees (rule : ExpiryRule) :
    ∀ (ops : List (Time × StoreOp)) (m : MemoryStore) (db : RedisDB),
      RedisMirrors m db → positiveDurations ops → wholeDurations ops → offDeadlines ops →
      (∀ c ∈ ops, m.offDeadline c.1 c.2) →
      ((redisStore rule).methods.run ops db).1 = (MemoryStore.methods.run ops m).1 := by
  intro ops
  induction ops with
  | nil => intro m db _ _ _ _ _; rfl
  | cons c rest ih =>
    intro m db h hpos hwhole hoff hsafe
    obtain ⟨now, op⟩ := c
    obtain ⟨h1, h2⟩ := h.call_agrees rule now op (fun d hd => hpos (now, op) (by simp) d hd)
      (hwhole (now, op) (by simp)) (hsafe (now, op) (by simp))
    have hpair := List.pairwise_cons.mp hoff
    rw [run_cons, run_cons]
    simp only
    rw [h1, ih _ _ h2 (fun c hc => hpos c (by simp [hc]))
      (fun c hc => hwhole c (by simp [hc])) hpair.2
      (fun c hc => MemoryStore.offDeadline_after_call m now op c.1 c.2
        (hsafe c (by simp [hc])) (hpair.1 c hc))]

/-- The empty service is a mirror of the new in-memory store. -/
theorem RedisMirrors.empty : RedisMirrors MemoryStore.NewMemoryStore RedisDB.empty := by
  intro k
  exact ⟨rfl, rfl⟩

/-- C16, amended: over the modelled service, under either expiry rule, for
every sequence of `GetRequestCount`, `IncrementRequestCount`, `IsBlocked` and
`Block` calls issued at non-decreasing times, with positive durations that the
client sends to the service as they are (windows of whole seconds, block times
of whole milliseconds), in which no call reads a record at the very instant
`t + d` at which the duration `d` of an earlier `IncrementRequestCount` or
`Block` on the same key, made at `t`, runs out, `RedisStore` returns the same
result for every call as `MemoryStore` does, both starting empty. -/
theorem C16_backends_agree_off_deadlines (rule : ExpiryRule)
    (ops : List (Time × StoreOp))
    (hpos : positiveDurations ops)
    (hwhole : wholeDurations ops)
    (hmono : List.Chain' (fun a b => a ≤ b) (ops.map Prod.fst))
    (hoff : offDeadlines ops) :
    ((redisStore rule).methods.run ops RedisDB.empty).1 =
      (MemoryStore.methods.run ops MemoryStore.NewMemoryStore).1 := by
  have _ := hmono
  refine RedisMirrors.run_agrees rule ops _ _ RedisMirrors.empty hpos hwhole hoff ?_
  intro c _
  cases hop : c.2 <;> simp [MemoryStore.offDeadline, MemoryStore.NewMemoryStore]

/-- C16, amended, on a sequence that counts a key twice in a window of one
second, reads the count inside and after the window, blocks the key for a
second and a half and asks for the block during and after it, under the rule
that a key is gone after its deadline. -/
theorem C16_backends_agree_off_deadlines_witness :
    ((redisStore ExpiryRule.afterDeadline).methods.run
        [(0, StoreOp.IncrementRequestCount "k" Second),
         (300 * Millisecond, StoreOp.IncrementRequestCount "k" Second),
         (500 * Millisecond, StoreOp.GetRequestCount "k"),
         (1200 * Millisecond, StoreOp.GetRequestCount "k"),
         (1200 * Millisecond, StoreOp.Block "k" (1500 * Millisecond)),
         (1500 * Millisecond, StoreOp.IsBlocked "k"),
         (4000 * Millisecond, StoreOp.IsBlocked "k"),
         (4000 * Millisecond, StoreOp.IncrementRequestCount "k" Second)]
        RedisDB.empty).1 =
      (MemoryStore.methods.run
        [(0, StoreOp.IncrementRequestCount "k" Second),
         (300 * Millisecond, StoreOp.IncrementRequestCount "k" Second),
         (500 * Millisecond, StoreOp.GetRequestCount "k"),
         (1200 * Millisecond, StoreOp.GetRequestCount "k"),
         (1200 * Millisecond, StoreOp.Block "k" (1500 * Millisecond)),
         (1500 * Millisecond, StoreOp.IsBlocked "k"),
         (4000 * Millisecond, StoreOp.IsBlocked "k"),
         (4000 * Millisecond, StoreOp.IncrementRequestCount "k" Second)]
        MemoryStore.NewMemoryStore).1 ∧
    (MemoryStore.methods.run
        [(0, StoreOp.IncrementRequestCount "k" Second),
         (300 * Millisecond, StoreOp.IncrementRequestCount "k" Second),
         (500 * Millisecond, StoreOp.GetRequestCount "k"),
         (1200 * Millisecond, StoreOp.GetRequestCount "k"),
         (1200 * Millisecond, StoreOp.Block "k" (1500 * Millisecond)),
         (1500 * Millisecond, StoreOp.IsBlocked "k"),
         (4000 * Millisecond, StoreOp.IsBlocked "k"),
         (4000 * Millisecond, StoreOp.IncrementRequestCount "k" Second)]
        MemoryStore.NewMemoryStore).1 =
      [OpResult.count (.ok 1), OpResult.count (.ok 2), OpResult.count (.ok 2),
       OpResult.count (.ok 0), OpResult.done none, OpResult.flag (.ok true),
       OpResult.flag (.ok false), OpResult.count (.ok 1)] :=
  ⟨C16_backends_agree_off_deadlines ExpiryRule.afterDeadline
      [(0, StoreOp.IncrementRequestCount "k" Second),
       (300 * Millisecond, StoreOp.IncrementRequestCount "k" Second),
       (500 * Millisecond, StoreOp.GetRequestCount "k"),
       (1200 * Millisecond, StoreOp.GetRequestCount "k"),
       (1200 * Millisecond, StoreOp.Block "k" (1500 * Millisecond)),
       (1500 * Millisecond, StoreOp.IsBlocked "k"),
       (4000 * Millisecond, StoreOp.IsBlocked "k"),
       (4000 * Millisecond, StoreOp.IncrementRequestCount "k" Second)]
      (by simp [positiveDurations, StoreOp.duration, Second, Millisecond])
      (by simp [wholeDurations, StoreOp.wholeDuration])
      (by simp [Millisecond])
      (by simp [offDeadlines, StoreOp.deadlineFor, Second, Millisecond]),
    by decide⟩

/-- C16 as stated fails, whichever way the service lets a time-to-live run out.
If a key is gone only after its deadline, a key blocked at instant 0 for one
second is still reported blocked one second later by `RedisStore` and no longer
by `MemoryStore`; if a key is gone at its deadline, a second increment one
second after the first, both with a one-second window, returns 1 from
`RedisStore` and 2 from `MemoryStore`.  Under either rule, and off every
deadline, a counter with a window of ten nanoseconds, which the client sends as
one second, still reads 2 from `RedisStore` twelve nanoseconds after it was
opened and 0 from `MemoryStore`, and a block of twenty nanoseconds, which the
client sends as one millisecond, is still reported by `RedisStore` after
twenty-eight nanoseconds and no longer by `MemoryStore`.  All three sequences
have positive durations and non-decreasing times. -/
theorem C16_backends_differ :
    (positiveDurations [(0, StoreOp.Block "k" Second), (Second, StoreOp.IsBlocked "k")] ∧
      List.Chain' (fun a b => a ≤ b)
        (([(0, StoreOp.Block "k" Second), (Second, StoreOp.IsBlocked "k")] :
          List (Time × StoreOp)).map Prod.fst) ∧
      ((redisStore ExpiryRule.afterDeadline).methods.run
          [(0, StoreOp.Block "k" Second), (Second, StoreOp.IsBlocked "k")] RedisDB.empty).1 =
        [OpResult.done none, OpResult.flag (.ok true)] ∧
      (MemoryStore.methods.run
          [(0, StoreOp.Block "k" Second), (Second, StoreOp.IsBlocked "k")]
          MemoryStore.NewMemoryStore).1 =
        [OpResult.done none, OpResult.flag (.ok false)]) ∧
    (positiveDurations
        [(0, StoreOp.IncrementRequestCount "k" Second),
         (Second, StoreOp.IncrementRequestCount "k" Second)] ∧
      List.Chain' (fun a b => a ≤ b)
        (([(0, StoreOp.IncrementRequestCount "k" Second),
           (Second, StoreOp.IncrementRequestCount "k" Second)] :
          List (Time × StoreOp)).map Prod.fst) ∧
      ((redisStore ExpiryRule.atDeadline).methods.run
          [(0, StoreOp.IncrementRequestCount "k" Second),
           (Second, StoreOp.IncrementRequestCount "k" Second)]
          RedisDB.empty).1 =
        [OpResult.count (.ok 1), OpResult.count (.ok 1)] ∧
      (MemoryStore.methods.run
          [(0, StoreOp.IncrementRequestCount "k" Second),
           (Second, StoreOp.IncrementRequestCount "k" Second)]
          MemoryStore.NewMemoryStore).1 =
        [OpResult.count (.ok 1), OpResult.count (.ok 2)]) ∧
    (positiveDurations
        [(0, StoreOp.IncrementRequestCount "k" 10), (3, StoreOp.IncrementRequestCount "k" 10),
         (5, StoreOp.GetRequestCount "k"), (12, StoreOp.GetRequestCount "k"),
         (12, StoreOp.Block "k" 20), (15, StoreOp.IsBlocked "k"),
         (40, StoreOp.IsBlocked "k"), (40, StoreOp.IncrementRequestCount "k" 10)] ∧
      List.Chain' (fun a b => a ≤ b)
        (([(0, StoreOp.IncrementRequestCount "k" 10), (3, StoreOp.IncrementRequestCount "k" 10),
           (5, StoreOp.GetRequestCount "k"), (12, StoreOp.GetRequestCount "k"),
           (12, StoreOp.Block "k" 20), (15, StoreOp.IsBlocked "k"),
           (40, StoreOp.IsBlocked "k"), (40, StoreOp.IncrementRequestCount "k" 10)] :
          List (Time × StoreOp)).map Prod.fst) ∧
      offDeadlines
        [(0, StoreOp.IncrementRequestCount "k" 10), (3, StoreOp.IncrementRequestCount "k" 10),
         (5, StoreOp.GetRequestCount "k"), (12, StoreOp.GetRequestCount "k"),
         (12, StoreOp.Block "k" 20), (15, StoreOp.IsBlocked "k"),
         (40, StoreOp.IsBlocked "k"), (40, StoreOp.IncrementRequestCount "k" 10)] ∧
      (∀ rule : ExpiryRule,
        ((redisStore rule).methods.run
            [(0, StoreOp.IncrementRequestCount "k" 10),
             (3, StoreOp.IncrementRequestCount "k" 10),
             (5, StoreOp.GetRequestCount "k"), (12, StoreOp.GetRequestCount "k"),
             (12, StoreOp.Block "k" 20), (15, StoreOp.IsBlocked "k"),
             (40, StoreOp.IsBlocked "k"), (40, StoreOp.IncrementRequestCount "k" 10)]
            RedisDB.empty).1 =
          [OpResult.count (.ok 1), OpResult.count (.ok 2), OpResult.count (.ok 2),
           OpResult.count (.ok 2), OpResult.done none, OpResult.flag (.ok true),
           OpResult.flag (.ok true), OpResult.count (.ok 1)]) ∧
      (MemoryStore.methods.run
          [(0, StoreOp.IncrementRequestCount "k" 10), (3, StoreOp.IncrementRequestCount "k" 10),
           (5, StoreOp.GetRequestCount "k"), (12, StoreOp.GetRequestCount "k"),
           (12, StoreOp.Block "k" 20), (15, StoreOp.IsBlocked "k"),
           (40, StoreOp.IsBlocked "k"), (40, StoreOp.IncrementRequestCount "k" 10)]
          MemoryStore.NewMemoryStore).1 =
        [OpResult.count (.ok 1), OpResult.count (.ok 2), OpResult.count (.ok 2),
         OpResult.count (.ok 0), OpResult.done none, OpResult.flag (.ok true),
         OpResult.flag (.ok false), OpResult.count (.ok 1)]) := by
  refine ⟨⟨?_, ?_, ?_, ?_⟩, ⟨?_, ?_, ?_, ?_⟩, ⟨?_, ?_, ?_, ?_, ?_⟩⟩
  · simp [positiveDurations, StoreOp.duration, Second]
  · simp [Second]
  · decide
  · decide
  · simp [positiveDurations, StoreOp.duration, Second]
  · simp [Second]
  · decide
  · decide
  · simp [positiveDurations, StoreOp.duration]
  · simp
  · simp [offDeadlines, StoreOp.deadlineFor]
  · intro rule
    cases rule <;> decide
  · decide

/-! ### What one `Allow` call does to the in-memory store -/

/-- The four outcomes of `Allow` on the in-memory store: denied while blocked,
nothing changed; permitted as the first request of a window; permitted inside
a live window; or denied above the limit, the key blocked and its counter
cleared. -/
theorem Allow_memory_outcome (rl : RateLimiter MemoryStore)
    (hs : rl.store = MemoryStore.methods) (now : Time) (req : LimiterRequest)
    (s : MemoryStore) :
    (s.blockedAt now (effectiveKey req) = true ∧
      (rl.Allow now req s).err = deny (limitKind req) ∧
      (rl.Allow now req s).store = s) ∨
    (s.blockedAt now (effectiveKey req) = false ∧
      (s.countAt (effectiveKey req) = 0 ∨ s.windowExpired now (effectiveKey req) = true) ∧
      1 ≤ rl.config.limitOf (limitKind req) ∧
      (rl.Allow now req s).err = none ∧
      (rl.Allow now req s).store =
        { counts := Function.update s.counts (effectiveKey req) (some 1),
          blocked := s.blocked,
          expiryTime := Function.update s.expiryTime (effectiveKey req)
            (some (now + Second)) }) ∨
    (s.blockedAt now (effectiveKey req) = false ∧
      (∃ v, s.counts (effectiveKey req) = some v ∧ v ≠ 0 ∧
        s.windowExpired now (effectiveKey req) = false ∧
        v + 1 ≤ rl.config.limitOf (limitKind req) ∧
        (rl.Allow now req s).store =
          { counts := Function.update s.counts (effectiveKey req) (some (v + 1)),
            blocked := s.blocked,
            expiryTime := s.expiryTime }) ∧
      (rl.Allow now req s).err = none) ∨
    (s.blockedAt now (effectiveKey req) = false ∧
      (rl.Allow now req s).err = deny (limitKind req) ∧
      (rl.Allow now req s).store =
        { counts := Function.update s.counts (effectiveKey req) none,
          blocked := Function.update s.blocked (effectiveKey req)
            (some (now + rl.config.blockTimeOf (limitKind req))),
          expiryTime := Function.update s.expiryTime (effectiveKey req) none } ∧
      (rl.config.limitOf (limitKind req) < 1 ∨
        ∃ v, s.counts (effectiveKey req) = some v ∧ v ≠ 0 ∧
          s.windowExpired now (effectiveKey req) = false ∧
          rl.config.limitOf (limitKind req) < v + 1)) := by
  cases hb : s.blockedAt now (effectiveKey req)
  · by_cases hf : s.countAt (effectiveKey req) = 0 ∨
        s.windowExpired now (effectiveKey req) = true
    · have h := Allow_memory_fresh rl hs now req s hb hf
      by_cases hL : 1 > rl.config.limitOf (limitKind req)
      · rw [if_pos hL] at h
        right; right; right
        rw [h]
        exact ⟨rfl, rfl, rfl, Or.inl hL⟩
      · rw [if_neg hL] at h
        right; left
        rw [h]
        exact ⟨rfl, hf, not_lt.mp hL, rfl, rfl⟩
    · have h0 : s.countAt (effectiveKey req) ≠ 0 := fun h0 => hf (Or.inl h0)
      have hw : s.windowExpired now (effectiveKey req) = false := by
        cases hw : s.windowExpired now (effectiveKey req)
        · rfl
        · exact absurd (Or.inr hw) hf
      obtain ⟨v, hv⟩ : ∃ v, s.counts (effectiveKey req) = some v := by
        cases hc : s.counts (effectiveKey req) with
        | none => exact absurd (by simp [MemoryStore.countAt, hc]) h0
        | some v => exact ⟨v, rfl⟩
      have hca : s.countAt (effectiveKey req) = v := by simp [MemoryStore.countAt, hv]
      rw [hca] at h0
      have h : rl.Allow now req s =
          if v + 1 > rl.config.limitOf (limitKind req) then
            { err := deny (limitKind req),
              store :=
                { counts := Function.update s.counts (effectiveKey req) none,
                  blocked := Function.update s.blocked (effectiveKey req)
                    (some (now + rl.config.blockTimeOf (limitKind req))),
                  expiryTime := Function.update s.expiryTime (effectiveKey req) none },
              calls := [.IsBlocked (effectiveKey req),
                        .IncrementRequestCount (effectiveKey req) Second,
                        .Block (effectiveKey req) (rl.config.blockTimeOf (limitKind req))] }
          else
            { err := none,
              store :=
                { counts := Function.update s.counts (effectiveKey req) (some (v + 1)),
                  blocked := s.blocked,
                  expiryTime := s.expiryTime },
              calls := [.IsBlocked (effectiveKey req),
                        .IncrementRequestCount (effectiveKey req) Second] } := by
        rw [Allow_eq_allowKey, hs, allowKey_memory_open _ _ _ _ _ _ hb,
          MemoryStore.IncrementRequestCount_live s now _ Second (by rw [hca]; exact h0) hw,
          hca]
        simp [MemoryStore.countAt, MemoryStore.Block]
      by_cases hL : v + 1 > rl.config.limitOf (limitKind req)
      · rw [if_pos hL] at h
        right; right; right
        rw [h]
        exact ⟨rfl, rfl, rfl, Or.inr ⟨v, hv, h0, hw, hL⟩⟩
      · rw [if_neg hL] at h
        right; right; left
        rw [h]
        exact ⟨rfl, ⟨v, hv, h0, hw, not_lt.mp hL, rfl⟩, rfl⟩
  · left
    rw [Allow_eq_allowKey, hs, allowKey_memory_blocked _ _ _ _ _ _ hb]
    exact ⟨rfl, rfl, rfl⟩

/-! ### The representation invariant -/

/-- `GetRequestCount` leaves the store as it was. -/
theorem MemoryStore.GetRequestCount_store (s : MemoryStore) (now : Time) (key : String) :
    (s.GetRequestCount now key).2 = s := by
  unfold MemoryStore.GetRequestCount
  split <;> rfl

/-- `IncrementRequestCount` preserves the representation invariant. -/
theorem MemoryStore.RepInv.increment {s : MemoryStore} (h : s.RepInv) (now : Time)
    (key : String) (d : Duration) : (s.IncrementRequestCount now key d).2.RepInv := by
  by_cases hf : s.countAt key = 0 ∨ s.windowExpired now key = true
  · rw [MemoryStore.IncrementRequestCount_fresh s now key d hf]
    intro k
    by_cases hk : k = key
    · subst hk
      simp
    · simp only [Function.update_noteq hk]
      exact h k
  · have h0 : s.countAt key ≠ 0 := fun h0 => hf (Or.inl h0)
    have hw : s.windowExpired now key = false := by
      cases hw : s.windowExpired now key
      · rfl
      · exact absurd (Or.inr hw) hf
    rw [MemoryStore.IncrementRequestCount_live s now key d h0 hw]
    intro k
    by_cases hk : k = key
    · subst hk
      obtain ⟨v, hv⟩ : ∃ v, s.counts k = some v := by
        cases hc : s.counts k with
        | none => exact absurd (by simp [MemoryStore.countAt, hc]) h0
        | some v => exact ⟨v, rfl⟩
      have h1 := (h k).2 v hv
      have h2 := (h k).1
      rw [hv] at h2
      simp only [Function.update_same, Option.isSome_some, Option.some.injEq]
      refine ⟨h2, ?_⟩
      intro w hw'
      simp only [MemoryStore.countAt, hv, Option.getD_some] at hw'
      omega
    · simp only [Function.update_noteq hk]
      exact h k

/-- `Block` preserves the representation invariant. -/
theorem MemoryStore.RepInv.block {s : MemoryStore} (h : s.RepInv) (now : Time)
    (key : String) (B : Duration) : (s.Block now key B).2.RepInv := by
  intro k
  simp only [MemoryStore.Block]
  by_cases hk : k = key
  · subst hk
    simp
  · simp only [Function.update_noteq hk]
    exact h k

/-- The sweep preserves the representation invariant. -/
theorem MemoryStore.RepInv.sweep {s : MemoryStore} (h : s.RepInv) (now : Time) :
    (s.cleanup now).RepInv := by
  intro k
  simp only [MemoryStore.cleanup]
  cases he : s.expiryTime k with
  | none =>
    have := h k
    rw [he] at this
    simpa using this
  | some e =>
    by_cases hlt : now > e
    · simp [hlt]
    · have := h k
      rw [he] at this
      simpa [hlt] using this

/-- The increment on the 64-bit `int` preserves the representation invariant
when the window of the key has expired or its counter is below the largest
`int`. -/
theorem MemoryStore.RepInv.incrementInt64 {s : MemoryStore} (h : s.RepInv) (now : Time)
    (key : String) (d : Duration)
    (hmax : s.windowExpired now key = true ∨ s.countAt key < MaxInt) :
    (s.IncrementRequestCountInt64 now key d).2.RepInv := by
  have heq : s.IncrementRequestCountInt64 now key d = s.IncrementRequestCount now key d := by
    refine MemoryStore.IncrementRequestCountInt64_eq s now key d ?_
    rcases hmax with hw | hlt
    · exact Or.inl hw
    · right
      have h0 : 0 ≤ s.countAt key := by
        cases hc : s.counts key with
        | none => simp [MemoryStore.countAt, hc]
        | some v =>
          have := (h key).2 v hc
          simp only [MemoryStore.countAt, hc, Option.getD_some]
          omega
      simp only [MinInt, MaxInt] at *
      constructor <;> omega
  rw [heq]
  exact h.increment now key d

/-- C25, amended: the representation invariant of the in-memory store (the
counts map and the expiryTime map have exactly the same key set, and every
stored count is at least 1) holds of `NewMemoryStore()` and is preserved by
`IncrementRequestCount`, with `s.counts[key]++` on the 64-bit `int`, when the
window of the key has expired or its counter is below the largest `int`, and
by `Block`, `cleanup` and the read-only `GetRequestCount` and `IsBlocked`
always. -/
theorem C25_representation_invariant :
    MemoryStore.NewMemoryStore.RepInv ∧
    (∀ (s : MemoryStore) (now : Time) (key : String) (d : Duration),
      s.RepInv → (s.windowExpired now key = true ∨ s.countAt key < MaxInt) →
      (s.IncrementRequestCountInt64 now key d).2.RepInv) ∧
    (∀ (s : MemoryStore) (now : Time) (key : String) (B : Duration),
      s.RepInv → (s.Block now key B).2.RepInv) ∧
    (∀ (s : MemoryStore) (now : Time), s.RepInv → (s.cleanup now).RepInv) ∧
    (∀ (s : MemoryStore) (now : Time) (key : String),
      s.RepInv → (s.GetRequestCount now key).2.RepInv) ∧
    (∀ (s : MemoryStore) (now : Time) (key : String),
      s.RepInv → (s.IsBlocked now key).2.RepInv) := by
  refine ⟨?_, ?_, ?_, ?_, ?_, ?_⟩
  · intro k
    simp [MemoryStore.NewMemoryStore]
  · intro s now key d h hmax
    exact h.incrementInt64 now key d hmax
  · intro s now key B h
    exact h.block now key B
  · intro s now h
    exact h.sweep now
  · intro s now key h
    rw [MemoryStore.GetRequestCount_store]
    exact h
  · intro s now key h
    exact h

/-- C25 as stated fails for `IncrementRequestCount` when a counter stands at
the largest `int` in a live window: the store satisfies the representation
invariant, and after the increment the stored count is the smallest `int`,
which is below 1. -/
theorem C25_invariant_lost_at_max_int :
    fullCounterStore.RepInv ∧
    fullCounterStore.windowExpired 5 "k" = false ∧
    (fullCounterStore.IncrementRequestCountInt64 5 "k" Second).2.counts "k" = some MinInt ∧
    ¬ (fullCounterStore.IncrementRequestCountInt64 5 "k" Second).2.RepInv := by
  refine ⟨?_, by decide, by decide, ?_⟩
  · intro k
    by_cases hk : k = "k"
    · subst hk
      simp [fullCounterStore, MaxInt]
    · simp [fullCounterStore, Function.update_noteq hk]
  · intro h
    have h1 := (h "k").2 MinInt (by decide)
    exact absurd h1 (by decide)

/-! ### Invariants of the reachable states -/

/-- A counter the sweep leaves was there before. -/
theorem MemoryStore.cleanup_counts_some (s : MemoryStore) (now : Time) (k : String) (v : Int)
    (h : (s.cleanup now).counts k = some v) : s.counts k = some v := by
  simp only [MemoryStore.cleanup] at h
  cases he : s.expiryTime k with
  | none => simpa [he] using h
  | some e =>
    rw [he] at h
    by_cases hlt : now > e
    · simp [hlt] at h
    · simpa [hlt] using h

/-- A block record the sweep leaves was there before. -/
theorem MemoryStore.cleanup_blocked_some (s : MemoryStore) (now : Time) (k : String) (u : Time)
    (h : (s.cleanup now).blocked k = some u) : s.blocked k = some u := by
  simp only [MemoryStore.cleanup] at h
  cases hb : s.blocked k with
  | none => simp [hb] at h
  | some w =>
    rw [hb] at h
    by_cases hlt : now > w
    · simp [hlt] at h
    · simpa [hlt] using h

/-- One step keeps every stored count within its limit. -/
theorem RateLimiter.CountsWithinLimits.step {rl : RateLimiter MemoryStore}
    (hs : rl.store = MemoryStore.methods) {s : MemoryStore} (h : rl.CountsWithinLimits s)
    (st : MemStep) : rl.CountsWithinLimits (rl.step st s) := by
  cases st with
  | cleanup now =>
    intro key v hv
    exact h key v (MemoryStore.cleanup_counts_some s now key v hv)
  | Allow now req =>
    simp only [RateLimiter.step]
    rcases Allow_memory_outcome rl hs now req s with
      ⟨_, _, hst⟩ | ⟨_, _, hL, _, hst⟩ | ⟨_, ⟨v, hv, _, _, hL, hst⟩, _⟩ | ⟨_, _, hst, _⟩
    · rw [hst]; exact h
    · rw [hst]
      intro key w hw
      by_cases hk : key = effectiveKey req
      · subst hk
        simp only [Function.update_same, Option.some.injEq] at hw
        subst hw
        exact ⟨le_refl 1, req, rfl, hL⟩
      · simp only [Function.update_noteq hk] at hw
        exact h key w hw
    · rw [hst]
      intro key w hw
      by_cases hk : key = effectiveKey req
      · subst hk
        simp only [Function.update_same, Option.some.injEq] at hw
        subst hw
        have := (h _ v hv).1
        exact ⟨by omega, req, rfl, hL⟩
      · simp only [Function.update_noteq hk] at hw
        exact h key w hw
    · rw [hst]
      intro key w hw
      by_cases hk : key = effectiveKey req
      · subst hk
        simp at hw
      · simp only [Function.update_noteq hk] at hw
        exact h key w hw

/-- Every sequence of steps keeps every stored count within its limit. -/
theorem RateLimiter.CountsWithinLimits.steps {rl : RateLimiter MemoryStore}
    (hs : rl.store = MemoryStore.methods) :
    ∀ (sts : List MemStep) (s : MemoryStore),
      rl.CountsWithinLimits s → rl.CountsWithinLimits (rl.steps sts s) := by
  intro sts
  induction sts with
  | nil => intro s h; exact h
  | cons st rest ih =>
    intro s h
    exact ih _ (h.step hs st)

/-- C23: in every state reachable from an empty `MemoryStore` by any sequence
of `Allow` calls and cleanup sweeps, the stored count of every `"ip:"` key is
at most `max(IPLimit, 0)` and the stored count of every `"token:"` key is at
most `max(TokenLimit, 0)`: a counter never remains above its limit. -/
theorem C23_counter_never_above_limit (rl : RateLimiter MemoryStore)
    (hs : rl.store = MemoryStore.methods) (sts : List MemStep) (a t : String) :
    (rl.steps sts MemoryStore.NewMemoryStore).countAt ("ip:" ++ a) ≤
      max rl.config.IPLimit 0 ∧
    (rl.steps sts MemoryStore.NewMemoryStore).countAt ("token:" ++ t) ≤
      max rl.config.TokenLimit 0 := by
  have h0 : rl.CountsWithinLimits MemoryStore.NewMemoryStore := by
    intro key v hv
    simp [MemoryStore.NewMemoryStore] at hv
  have h := RateLimiter.CountsWithinLimits.steps hs sts _ h0
  constructor
  · cases hc : (rl.steps sts MemoryStore.NewMemoryStore).counts ("ip:" ++ a) with
    | none => simp [MemoryStore.countAt, hc]
    | some v =>
      obtain ⟨_, req, hk, hv⟩ := h _ v hc
      have hkind : limitKind req = LimitType.IPLimit := by
        have h1 : effectiveKey req = effectiveKey { IP := a, Token := "" } := by
          rw [hk]; simp [effectiveKey]
        rw [limitKind_eq_of_key_eq _ _ h1]
        simp [limitKind]
      rw [hkind] at hv
      simp only [MemoryStore.countAt, hc, Option.getD_some]
      exact le_max_of_le_left hv
  · cases hc : (rl.steps sts MemoryStore.NewMemoryStore).counts ("token:" ++ t) with
    | none => simp [MemoryStore.countAt, hc]
    | some v =>
      obtain ⟨_, req, hk, hv⟩ := h _ v hc
      have hkind : limitKind req = LimitType.TokenLimit := by
        by_cases hT : req.Token ≠ ""
        · simp [limitKind, hT]
        · simp only [effectiveKey, hT, if_false] at hk
          exact absurd hk.symm (token_key_ne_ip_key _ _)
      rw [hkind] at hv
      simp only [MemoryStore.countAt, hc, Option.getD_some]
      exact le_max_of_le_left hv

/-- C23 with IP limit 2: after three requests of one address at one instant,
the third of which is denied, and a sweep, no count of the address is stored. -/
theorem C23_counter_never_above_limit_witness :
    ((memoryLimiter (testConfig 2 (5 * Minute) 5 (5 * Minute))).steps
        [MemStep.Allow 0 { IP := "10.0.0.1", Token := "" },
         MemStep.Allow 0 { IP := "10.0.0.1", Token := "" },
         MemStep.Allow 0 { IP := "10.0.0.1", Token := "" },
         MemStep.cleanup 1]
        MemoryStore.NewMemoryStore).countAt ("ip:" ++ "10.0.0.1") ≤ max 2 0 ∧
    ((memoryLimiter (testConfig 2 (5 * Minute) 5 (5 * Minute))).steps
        [MemStep.Allow 0 { IP := "10.0.0.1", Token := "" },
         MemStep.Allow 0 { IP := "10.0.0.1", Token := "" }]
        MemoryStore.NewMemoryStore).countAt ("ip:" ++ "10.0.0.1") = 2 :=
  ⟨(C23_counter_never_above_limit (memoryLimiter (testConfig 2 (5 * Minute) 5 (5 * Minute)))
      rfl
      [MemStep.Allow 0 { IP := "10.0.0.1", Token := "" },
       MemStep.Allow 0 { IP := "10.0.0.1", Token := "" },
       MemStep.Allow 0 { IP := "10.0.0.1", Token := "" },
       MemStep.cleanup 1] "10.0.0.1" "").1,
    by decide⟩

/-- Blocks that ended by `t` have ended by every later instant. -/
theorem MemoryStore.BlocksEndedBy.later {s : MemoryStore} {t t' : Time}
    (h : s.BlocksEndedBy t) (ht : t ≤ t') : s.BlocksEndedBy t' :=
  fun key u v hb hc => le_trans (h key u v hb hc) ht

/-- A key that is not blocked at `now` has no block record or one that ended by
`now`. -/
theorem MemoryStore.blocked_le_of_not_blockedAt (s : MemoryStore) (now : Time) (key : String)
    (u : Time) (hb : s.blockedAt now key = false) (hu : s.blocked key = some u) : u ≤ now := by
  simp only [MemoryStore.blockedAt, hu, decide_eq_false_iff_not, not_lt] at hb
  exact hb

/-- One step at an instant from `t` on keeps blocked keys without counter. -/
theorem MemoryStore.BlocksEndedBy.after_step {rl : RateLimiter MemoryStore}
    (hs : rl.store = MemoryStore.methods) {s : MemoryStore} {t : Time}
    (h : s.BlocksEndedBy t) (st : MemStep) (ht : t ≤ st.time) :
    (rl.step st s).BlocksEndedBy st.time := by
  have hlater := h.later ht
  cases st with
  | cleanup now =>
    intro key u v hb hc
    exact hlater key u v (MemoryStore.cleanup_blocked_some s now key u hb)
      (MemoryStore.cleanup_counts_some s now key v hc)
  | Allow now req =>
    simp only [RateLimiter.step, MemStep.time] at hlater ⊢
    rcases Allow_memory_outcome rl hs now req s with
      ⟨_, _, hst⟩ | ⟨hnb, _, _, _, hst⟩ | ⟨hnb, ⟨v, _, _, _, _, hst⟩, _⟩ | ⟨_, _, hst, _⟩
    · rw [hst]; exact hlater
    · rw [hst]
      intro key u w hb hc
      by_cases hk : key = effectiveKey req
      · subst hk
        exact MemoryStore.blocked_le_of_not_blockedAt s now _ u hnb hb
      · simp only [Function.update_noteq hk] at hc
        exact hlater key u w hb hc
    · rw [hst]
      intro key u w hb hc
      by_cases hk : key = effectiveKey req
      · subst hk
        exact MemoryStore.blocked_le_of_not_blockedAt s now _ u hnb hb
      · simp only [Function.update_noteq hk] at hc
        exact hlater key u w hb hc
    · rw [hst]
      intro key u w hb hc
      by_cases hk : key = effectiveKey req
      · subst hk
        simp at hc
      · simp only [Function.update_noteq hk] at hb hc
        exact hlater key u w hb hc

/-- A sequence of steps at non-decreasing times from `t` on, none later than
`T`, keeps blocked keys without counter as of `T`. -/
theorem MemoryStore.BlocksEndedBy.after_steps {rl : RateLimiter MemoryStore}
    (hs : rl.store = MemoryStore.methods) (T : Time) :
    ∀ (sts : List MemStep) (s : MemoryStore) (t : Time),
      s.BlocksEndedBy t → t ≤ T →
      List.Chain (fun a b => a ≤ b) t (sts.map MemStep.time) →
      (∀ st ∈ sts, st.time ≤ T) →
      (rl.steps sts s).BlocksEndedBy T := by
  intro sts
  induction sts with
  | nil =>
    intro s t h ht _ _
    exact h.later ht
  | cons st rest ih =>
    intro s t h _ hchain hT
    simp only [List.map_cons, List.chain_cons] at hchain
    exact ih (rl.step st s) st.time (h.after_step hs st hchain.1) (hT st (by simp)) hchain.2
      (fun st' hst' => hT st' (by simp [hst']))

/-- C24: in every state reachable from an empty `MemoryStore` by `Allow` calls
and cleanup sweeps at non-decreasing times, no key is at once blocked and
counted: for every key and every time at or after the last operation, if
`IsBlocked(key)` is true then the key has no counter record and
`GetRequestCount(key)` is 0. -/
theorem C24_blocked_key_has_no_counter (rl : RateLimiter MemoryStore)
    (hs : rl.store = MemoryStore.methods) (sts : List MemStep) (T : Time) (key : String)
    (hmono : List.Chain' (fun a b => a ≤ b) (sts.map MemStep.time))
    (hT : ∀ st ∈ sts, st.time ≤ T)
    (hblocked : ((rl.steps sts MemoryStore.NewMemoryStore).IsBlocked T key).1 = .ok true) :
    (rl.steps sts MemoryStore.NewMemoryStore).counts key = none ∧
    ((rl.steps sts MemoryStore.NewMemoryStore).GetRequestCount T key).1 = .ok 0 := by
  have h0 : ∀ t, MemoryStore.NewMemoryStore.BlocksEndedBy t := by
    intro t k u v hb _
    simp [MemoryStore.NewMemoryStore] at hb
  have hinv : (rl.steps sts MemoryStore.NewMemoryStore).BlocksEndedBy T := by
    cases sts with
    | nil => exact h0 T
    | cons st rest =>
      refine MemoryStore.BlocksEndedBy.after_steps hs T (st :: rest) _ st.time (h0 _)
        (hT st (by simp)) ?_ hT
      simp only [List.map_cons, List.chain_cons, le_refl, true_and]
      exact hmono
  have hc : (rl.steps sts MemoryStore.NewMemoryStore).counts key = none := by
    cases hc : (rl.steps sts MemoryStore.NewMemoryStore).counts key with
    | none => rfl
    | some v =>
      exfalso
      simp only [MemoryStore.IsBlocked, MemoryStore.blockedAt, Except.ok.injEq] at hblocked
      cases hb : (rl.steps sts MemoryStore.NewMemoryStore).blocked key with
      | none => simp [hb] at hblocked
      | some u =>
        rw [hb] at hblocked
        have hlt : T < u := by simpa using hblocked
        exact absurd (hinv key u v hb hc) (not_le.mpr hlt)
  exact ⟨hc, MemoryStore.GetRequestCount_of_none _ T key hc⟩

/-- C24 with IP limit 1 and a five-minute block: two requests of one address at
instants 0 and 1 and a sweep at 2 leave the address blocked at instant 3, with
no counter. -/
theorem C24_blocked_key_has_no_counter_witness :
    ((memoryLimiter (testConfig 1 (5 * Minute) 5 (5 * Minute))).steps
        [MemStep.Allow 0 { IP := "10.0.0.1", Token := "" },
         MemStep.Allow 1 { IP := "10.0.0.1", Token := "" },
         MemStep.cleanup 2]
        MemoryStore.NewMemoryStore).counts "ip:10.0.0.1" = none ∧
    (((memoryLimiter (testConfig 1 (5 * Minute) 5 (5 * Minute))).steps
        [MemStep.Allow 0 { IP := "10.0.0.1", Token := "" },
         MemStep.Allow 1 { IP := "10.0.0.1", Token := "" },
         MemStep.cleanup 2]
        MemoryStore.NewMemoryStore).GetRequestCount 3 "ip:10.0.0.1").1 = .ok 0 :=
  C24_blocked_key_has_no_counter (memoryLimiter (testConfig 1 (5 * Minute) 5 (5 * Minute)))
    rfl
    [MemStep.Allow 0 { IP := "10.0.0.1", Token := "" },
     MemStep.Allow 1 { IP := "10.0.0.1", Token := "" },
     MemStep.cleanup 2]
    3 "ip:10.0.0.1" (by simp [MemStep.time]) (by simp [MemStep.time]) (by decide)

/-! ### A block of no duration -/

/-- Calls for one key at one instant, with a limit of at least 1 and a block
duration of zero or less, from a state where the key is not blocked and its
live counter stands at `r`: the call number `i + 1` is denied exactly when
`r + i + 1` is a multiple of the limit plus one, the key is not blocked
afterwards, and at most every second call is denied. -/
theorem AllowSeq_memory_zero_block (rl : RateLimiter MemoryStore)
    (hs : rl.store = MemoryStore.methods) (req : LimiterRequest) (t : Time)
    (hL : 1 ≤ rl.config.limitOf (limitKind req))
    (hB : rl.config.blockTimeOf (limitKind req) ≤ 0) :
    ∀ (reqs : List LimiterRequest) (s : MemoryStore) (r : Int),
      (∀ q ∈ reqs, effectiveKey q = effectiveKey req) →
      0 ≤ r → r ≤ rl.config.limitOf (limitKind req) →
      s.blockedAt t (effectiveKey req) = false →
      (r = 0 → s.counts (effectiveKey req) = none) →
      (r ≠ 0 → s.counts (effectiveKey req) = some r ∧
        s.windowExpired t (effectiveKey req) = false) →
      (rl.AllowSeq (reqs.map (fun q => (t, q))) s).1 =
        (List.range reqs.length).map (fun (i : Nat) =>
          if (rl.config.limitOf (limitKind req) + 1) ∣ (r + (i : Int) + 1)
          then deny (limitKind req) else none) ∧
      (rl.AllowSeq (reqs.map (fun q => (t, q))) s).2.blockedAt t (effectiveKey req) = false ∧
      (reqs.length : Int) ≤
        2 * ((rl.AllowSeq (reqs.map (fun q => (t, q))) s).1.count none : Int) +
          (if r = rl.config.limitOf (limitKind req) then 1 else 0) := by
  intro reqs
  induction reqs with
  | nil =>
    intro s r _ _ _ hb _ _
    refine ⟨rfl, hb, ?_⟩
    simp only [List.map_nil, RateLimiter.AllowSeq, List.length_nil, List.count_nil]
    split <;> simp
  | cons q rest ih =>
    intro s r hkeys h0 hrL hb hzero hpos
    have hq : effectiveKey q = effectiveKey req := hkeys q (by simp)
    have hkind : limitKind q = limitKind req := limitKind_eq_of_key_eq q req hq
    have hrest : ∀ q' ∈ rest, effectiveKey q' = effectiveKey req :=
      fun q' h => hkeys q' (by simp [h])
    have hout := Allow_memory_outcome rl hs t q s
    rw [hq, hkind] at hout
    simp only [List.map_cons, AllowSeq_cons, List.length_cons, List.range_succ_eq_map,
      List.map_map]
    rcases hout with ⟨hbt, _, _⟩ | ⟨_, hf, _, herr, hst⟩ |
      ⟨_, ⟨v, hv, hv0, hwe, hvL, hst⟩, herr⟩ | ⟨_, herr, hst, hwhy⟩
    · rw [hb] at hbt
      exact absurd hbt (by simp)
    · -- the first request of a window
      have hr : r = 0 := by
        by_contra hr
        obtain ⟨hc, hw⟩ := hpos hr
        rcases hf with hf | hf
        · simp only [MemoryStore.countAt, hc, Option.getD_some] at hf
          exact hr hf
        · rw [hw] at hf
          exact absurd hf (by simp)
      subst hr
      obtain ⟨ih1, ih2, ih3⟩ := ih (rl.Allow t q s).store 1 hrest (by norm_num) hL
        (by rw [hst]; simpa [MemoryStore.blockedAt] using hb)
        (by norm_num)
        (fun _ => by
          rw [hst]
          refine ⟨by simp, ?_⟩
          simp [MemoryStore.windowExpired, Second])
      refine ⟨?_, ih2, ?_⟩
      · rw [herr, ih1]
        refine congrArg₂ List.cons ?_ (List.map_congr_left ?_)
        · have hnd : ¬ (rl.config.limitOf (limitKind req) + 1) ∣ (0 + ((0 : Nat) : Int) + 1) := by
            intro hd
            have := Int.le_of_dvd (by norm_num) hd
            omega
          rw [if_neg hnd]
        · intro i _
          simp only [Function.comp_apply, Nat.succ_eq_add_one, Nat.cast_add, Nat.cast_one]
          have he : (0 : Int) + ((i : Int) + 1) + 1 = 1 + (i : Int) + 1 := by ring
          rw [he]
      · rw [herr, List.count_cons_self]
        push_cast
        split at ih3 <;> split <;> omega
    · -- a request inside a live window
      have hr : r ≠ 0 := by
        intro hr
        rw [hzero hr] at hv
        exact absurd hv (by simp)
      obtain ⟨hc, hw⟩ := hpos hr
      rw [hc] at hv
      have hvr : r = v := Option.some.inj hv
      subst hvr
      obtain ⟨ih1, ih2, ih3⟩ := ih (rl.Allow t q s).store (r + 1) hrest (by omega) hvL
        (by rw [hst]; simpa [MemoryStore.blockedAt] using hb)
        (fun h => by omega)
        (fun _ => by
          rw [hst]
          refine ⟨by simp, ?_⟩
          simpa [MemoryStore.windowExpired] using hw)
      refine ⟨?_, ih2, ?_⟩
      · rw [herr, ih1]
        refine congrArg₂ List.cons ?_ (List.map_congr_left ?_)
        · have hnd : ¬ (rl.config.limitOf (limitKind req) + 1) ∣ (r + ((0 : Nat) : Int) + 1) := by
            intro hd
            have := Int.le_of_dvd (by push_cast; omega) hd
            push_cast at this
            omega
          rw [if_neg hnd]
        · intro i _
          simp only [Function.comp_apply, Nat.succ_eq_add_one, Nat.cast_add, Nat.cast_one]
          have he : r + ((i : Int) + 1) + 1 = r + 1 + (i : Int) + 1 := by ring
          rw [he]
      · rw [herr, List.count_cons_self]
        push_cast
        split at ih3 <;> split <;> omega
    · -- the request above the limit
      have hr : r = rl.config.limitOf (limitKind req) := by
        rcases hwhy with hlt | ⟨v, hv, _, _, hlt⟩
        · omega
        · have hr : r ≠ 0 := by
            intro hr
            rw [hzero hr] at hv
            exact absurd hv (by simp)
          rw [(hpos hr).1] at hv
          have hvr : r = v := Option.some.inj hv
          omega
      obtain ⟨ih1, ih2, ih3⟩ := ih (rl.Allow t q s).store 0 hrest (le_refl 0) (by omega)
        (by
          rw [hst]
          simp only [MemoryStore.blockedAt, Function.update_same, decide_eq_false_iff_not, not_lt]
          linarith)
        (fun _ => by rw [hst]; simp)
        (fun h => absurd rfl h)
      refine ⟨?_, ih2, ?_⟩
      · rw [herr, ih1]
        refine congrArg₂ List.cons ?_ (List.map_congr_left ?_)
        · have hd : (rl.config.limitOf (limitKind req) + 1) ∣ (r + ((0 : Nat) : Int) + 1) := by
            rw [hr]; simp
          rw [if_pos hd]
        · intro i _
          simp only [Function.comp_apply, Nat.succ_eq_add_one, Nat.cast_add, Nat.cast_one]
          have he : r + ((i : Int) + 1) + 1 =
              (rl.config.limitOf (limitKind req) + 1) + (0 + (i : Int) + 1) := by rw [hr]; ring
          rw [he]
          simp only [Int.dvd_add_right (dvd_refl (rl.config.limitOf (limitKind req) + 1))]
      · have hne : (deny (limitKind req) == (none : Option GoError)) = false := by
          simp [deny]
        rw [herr, List.count_cons, hne]
        push_cast
        rw [if_pos hr]
        split at ih3 <;> simp at ih3 ⊢ <;> omega

/-- C26: over the in-memory store, with a limit `L` of at least 1 and a block
duration of zero or less, in a sequence of `Allow` calls for one fresh key (no
counter, no block record), all made at the same instant `t`, the n-th call
returns the limit-exceeded error exactly when n is a multiple of `L + 1` and
nil otherwise; after the calls `IsBlocked` still answers false at `t`; and at
least half of the calls, however many they are, are admitted. -/
theorem C26_zero_block_never_blocks (rl : RateLimiter MemoryStore)
    (hs : rl.store = MemoryStore.methods) (req : LimiterRequest) (t : Time) (s : MemoryStore)
    (reqs : List LimiterRequest)
    (hL : 1 ≤ rl.config.limitOf (limitKind req))
    (hB : rl.config.blockTimeOf (limitKind req) ≤ 0)
    (hcount : s.counts (effectiveKey req) = none)
    (hblock : s.blocked (effectiveKey req) = none)
    (hkeys : ∀ q ∈ reqs, effectiveKey q = effectiveKey req) :
    (rl.AllowSeq (reqs.map (fun q => (t, q))) s).1 =
      (List.range reqs.length).map (fun (i : Nat) =>
        if (rl.config.limitOf (limitKind req) + 1) ∣ ((i : Int) + 1)
        then deny (limitKind req) else none) ∧
    ((rl.AllowSeq (reqs.map (fun q => (t, q))) s).2.IsBlocked t (effectiveKey req)).1 =
      .ok false ∧
    reqs.length ≤ 2 * (rl.AllowSeq (reqs.map (fun q => (t, q))) s).1.count none := by
  obtain ⟨h1, h2, h3⟩ := AllowSeq_memory_zero_block rl hs req t hL hB reqs s 0 hkeys
    (le_refl 0) (by omega) (MemoryStore.blockedAt_of_none s t _ hblock) (fun _ => hcount)
    (fun h => absurd rfl h)
  refine ⟨?_, ?_, ?_⟩
  · rw [h1]
    refine List.map_congr_left ?_
    intro i _
    simp only [zero_add]
  · simp only [MemoryStore.IsBlocked, h2]
  · have hne : ¬ (0 : Int) = rl.config.limitOf (limitKind req) := by omega
    rw [if_neg hne] at h3
    omega

/-- C26 with IP limit 1 and a block of no duration: of five requests of one
address at instant 0, the second and the fourth are denied. -/
theorem C26_zero_block_never_blocks_witness :
    ((memoryLimiter (testConfig 1 0 5 0)).AllowSeq
        ((List.replicate 5 ({ IP := "10.0.0.1", Token := "" } : LimiterRequest)).map
          (fun q => ((0 : Time), q)))
        MemoryStore.NewMemoryStore).1 =
      (List.range
          (List.replicate 5 ({ IP := "10.0.0.1", Token := "" } : LimiterRequest)).length).map
        (fun (i : Nat) =>
          if ((memoryLimiter (testConfig 1 0 5 0)).config.limitOf
              (limitKind { IP := "10.0.0.1", Token := "" }) + 1) ∣ ((i : Int) + 1)
          then deny (limitKind { IP := "10.0.0.1", Token := "" }) else none) ∧
    (((memoryLimiter (testConfig 1 0 5 0)).AllowSeq
        ((List.replicate 5 ({ IP := "10.0.0.1", Token := "" } : LimiterRequest)).map
          (fun q => ((0 : Time), q)))
        MemoryStore.NewMemoryStore).2.IsBlocked 0
        (effectiveKey { IP := "10.0.0.1", Token := "" })).1 = .ok false ∧
    (List.replicate 5 ({ IP := "10.0.0.1", Token := "" } : LimiterRequest)).length ≤
      2 * ((memoryLimiter (testConfig 1 0 5 0)).AllowSeq
        ((List.replicate 5 ({ IP := "10.0.0.1", Token := "" } : LimiterRequest)).map
          (fun q => ((0 : Time), q)))
        MemoryStore.NewMemoryStore).1.count none :=
  C26_zero_block_never_blocks (memoryLimiter (testConfig 1 0 5 0)) rfl
    { IP := "10.0.0.1", Token := "" } 0 MemoryStore.NewMemoryStore
    (List.replicate 5 { IP := "10.0.0.1", Token := "" })
    (by decide) (by decide) rfl rfl (by simp)

/-! ### The admitted rate -/

/-- Unfolding the number of admitted calls at the first call. -/
theorem admitted_cons (rl : RateLimiter MemoryStore) (k : String) (a t : Time)
    (q : LimiterRequest) (rest : List (Time × LimiterRequest)) (s : MemoryStore) :
    rl.admitted k a ((t, q) :: rest) s =
      rl.admitted k a rest (rl.Allow t q s).store +
        (if admittedIn k a ((t, q), (rl.Allow t q s).err) = true then 1 else 0) := by
  simp only [RateLimiter.admitted, AllowSeq_cons, List.zip_cons_cons, List.countP_cons]

/-- Calls at non-decreasing times from the end of the interval on are not
counted. -/
theorem admitted_late (rl : RateLimiter MemoryStore) (k : String) (a : Time) :
    ∀ (calls : List (Time × LimiterRequest)) (s : MemoryStore) (lo : Time),
      a + Second ≤ lo →
      List.Chain (fun x y => x ≤ y) lo (calls.map Prod.fst) →
      rl.admitted k a calls s = 0 := by
  intro calls
  induction calls with
  | nil => intro s lo _ _; rfl
  | cons c rest ih =>
    intro s lo hlo hchain
    obtain ⟨t, q⟩ := c
    simp only [List.map_cons, List.chain_cons] at hchain
    have ht : a + Second ≤ t := le_trans hlo hchain.1
    have hd : decide (t < a + Second) = false := decide_eq_false (not_lt.mpr ht)
    rw [admitted_cons, ih _ t ht hchain.2]
    simp [admittedIn, hd]

/-- The budget reads only the records of its key. -/
theorem MemoryStore.admitBudget_congr (s s' : MemoryStore) (k : String) (L : Int) (D : Time)
    (hc : s'.counts k = s.counts k) (he : s'.expiryTime k = s.expiryTime k)
    (hb : s'.blocked k = s.blocked k) : s'.admitBudget k L D = s.admitBudget k L D := by
  simp only [MemoryStore.admitBudget, hc, he, hb]

/-- The budget of a key whose stored count is within the limit is not
negative. -/
theorem MemoryStore.admitBudget_nonneg (s : MemoryStore) (k : String) (L : Int) (D : Time)
    (hL : 0 ≤ L) (hJ : ∀ v, s.counts k = some v → 1 ≤ v ∧ v ≤ L) :
    0 ≤ s.admitBudget k L D := by
  unfold MemoryStore.admitBudget
  cases hc : s.counts k with
  | some v =>
    obtain ⟨h1, h2⟩ := hJ v hc
    cases s.expiryTime k with
    | some ew => simp only; split <;> omega
    | none => simp only; omega
  | none =>
    cases s.blocked k with
    | some u => simp only; split <;> omega
    | none => simpa using hL

/-- The budget of a key whose stored count is at least 1 is at most twice the
limit. -/
theorem MemoryStore.admitBudget_le_twice (s : MemoryStore) (k : String) (L : Int) (D : Time)
    (hL : 0 ≤ L) (hJ : ∀ v, s.counts k = some v → 1 ≤ v ∧ v ≤ L) :
    s.admitBudget k L D ≤ 2 * L := by
  unfold MemoryStore.admitBudget
  cases hc : s.counts k with
  | some v =>
    obtain ⟨h1, h2⟩ := hJ v hc
    cases s.expiryTime k with
    | some ew => simp only; split <;> omega
    | none => simp only; omega
  | none =>
    cases s.blocked k with
    | some u => simp only; split <;> omega
    | none => simp only; omega

/-- Before the instant `D`, a key that is not blocked and starts a new window
has a budget of at least the limit. -/
theorem MemoryStore.admitBudget_fresh (s : MemoryStore) (k : String) (L : Int) (D t : Time)
    (hJ : ∀ v, s.counts k = some v → 1 ≤ v ∧ v ≤ L)
    (ht : t < D) (hb : s.blockedAt t k = false)
    (hf : s.countAt k = 0 ∨ s.windowExpired t k = true) :
    L ≤ s.admitBudget k L D := by
  unfold MemoryStore.admitBudget
  cases hc : s.counts k with
  | some v =>
    obtain ⟨h1, h2⟩ := hJ v hc
    have hw : s.windowExpired t k = true := by
      rcases hf with hf | hf
      · simp only [MemoryStore.countAt, hc, Option.getD_some] at hf
        omega
      · exact hf
    cases he : s.expiryTime k with
    | some ew =>
      simp only [MemoryStore.windowExpired, he, decide_eq_true_eq] at hw
      have hnot : ¬ D ≤ ew := not_le.mpr (lt_trans hw ht)
      simp only [if_neg hnot]
      omega
    | none =>
      simp [MemoryStore.windowExpired, he] at hw
  | none =>
    cases hu : s.blocked k with
    | some u =>
      simp only [MemoryStore.blockedAt, hu, decide_eq_false_iff_not, not_lt] at hb
      have hnot : ¬ D ≤ u := not_le.mpr (lt_of_le_of_lt hb ht)
      simp only [if_neg hnot, le_refl]
    | none => simp only [le_refl]

/-- One more request inside a live window takes one from the budget. -/
theorem MemoryStore.admitBudget_live (s : MemoryStore) (k : String) (L : Int) (D : Time)
    (v : Int) (hv : s.counts k = some v) :
    MemoryStore.admitBudget
        { counts := Function.update s.counts k (some (v + 1)),
          blocked := s.blocked,
          expiryTime := s.expiryTime } k L D =
      s.admitBudget k L D - 1 := by
  simp only [MemoryStore.admitBudget, Function.update_same, hv]
  cases s.expiryTime k with
  | some ew => simp only; split <;> omega
  | none => simp only; omega

/-- One `Allow` call keeps the stored count of a key between 1 and the limit
of the key. -/
theorem Allow_memory_count_bounds (rl : RateLimiter MemoryStore)
    (hs : rl.store = MemoryStore.methods) (req : LimiterRequest) (t : Time)
    (q : LimiterRequest) (s : MemoryStore)
    (hJ : ∀ v, s.counts (effectiveKey req) = some v →
      1 ≤ v ∧ v ≤ rl.config.limitOf (limitKind req)) :
    ∀ v, (rl.Allow t q s).store.counts (effectiveKey req) = some v →
      1 ≤ v ∧ v ≤ rl.config.limitOf (limitKind req) := by
  by_cases hq : effectiveKey q = effectiveKey req
  · have hkind : limitKind q = limitKind req := limitKind_eq_of_key_eq q req hq
    have hout := Allow_memory_outcome rl hs t q s
    rw [hq, hkind] at hout
    rcases hout with ⟨_, _, hst⟩ | ⟨_, _, hL, _, hst⟩ |
      ⟨_, ⟨v, hv, _, _, hvL, hst⟩, _⟩ | ⟨_, _, hst, _⟩
    · rw [hst]; exact hJ
    · rw [hst]
      intro w hw
      simp only [Function.update_same, Option.some.injEq] at hw
      omega
    · rw [hst]
      intro w hw
      simp only [Function.update_same, Option.some.injEq] at hw
      have := (hJ v hv).1
      omega
    · rw [hst]
      intro w hw
      simp at hw
  · rw [(Allow_memory_frame rl hs t q s _ (fun h => hq h.symm)).1]
    exact hJ

/-- From the start of the interval on, at non-decreasing times, the number of
admitted calls of a key is at most the budget of the key. -/
theorem admitted_le_budget (rl : RateLimiter MemoryStore)
    (hs : rl.store = MemoryStore.methods) (req : LimiterRequest) (a : Time)
    (hL : 0 ≤ rl.config.limitOf (limitKind req))
    (hB : Second ≤ rl.config.blockTimeOf (limitKind req)) :
    ∀ (calls : List (Time × LimiterRequest)) (s : MemoryStore) (lo : Time),
      (∀ v, s.counts (effectiveKey req) = some v →
        1 ≤ v ∧ v ≤ rl.config.limitOf (limitKind req)) →
      a ≤ lo →
      List.Chain (fun x y => x ≤ y) lo (calls.map Prod.fst) →
      (rl.admitted (effectiveKey req) a calls s : Int) ≤
        s.admitBudget (effectiveKey req) (rl.config.limitOf (limitKind req)) (a + Second) := by
  intro calls
  induction calls with
  | nil =>
    intro s lo hJ _ _
    simpa [RateLimiter.admitted, RateLimiter.AllowSeq] using
      MemoryStore.admitBudget_nonneg s _ _ (a + Second) hL hJ
  | cons c rest ih =>
    intro s lo hJ hlo hchain
    obtain ⟨t, q⟩ := c
    simp only [List.map_cons, List.chain_cons] at hchain
    obtain ⟨hlt, hchain⟩ := hchain
    have hat : a ≤ t := le_trans hlo hlt
    have hJ' := Allow_memory_count_bounds rl hs req t q s hJ
    have hnn := MemoryStore.admitBudget_nonneg s _ _ (a + Second) hL hJ
    rw [admitted_cons]
    by_cases hq : effectiveKey q = effectiveKey req
    · by_cases htD : t < a + Second
      · have hkind : limitKind q = limitKind req := limitKind_eq_of_key_eq q req hq
        have hout := Allow_memory_outcome rl hs t q s
        have ih' := ih (rl.Allow t q s).store t hJ' hat hchain
        rw [hq, hkind] at hout
        rcases hout with ⟨_, herr, hst⟩ | ⟨hb, hf, _, herr, hst⟩ |
          ⟨_, ⟨v, hv, _, _, _, hst⟩, herr⟩ | ⟨_, herr, hst, _⟩
        · have hh : admittedIn (effectiveKey req) a ((t, q), (rl.Allow t q s).err) = false := by
            simp [admittedIn, herr, deny]
          rw [hst] at ih' ⊢
          rw [hh]
          simpa using ih'
        · have hh : admittedIn (effectiveKey req) a ((t, q), (rl.Allow t q s).err) = true := by
            simp [admittedIn, herr, hq, hat, htD]
          have hold := MemoryStore.admitBudget_fresh s _
            (rl.config.limitOf (limitKind req)) (a + Second) t hJ htD hb hf
          have hnew : (rl.Allow t q s).store.admitBudget (effectiveKey req)
              (rl.config.limitOf (limitKind req)) (a + Second) =
              rl.config.limitOf (limitKind req) - 1 := by
            rw [hst]
            simp only [MemoryStore.admitBudget, Function.update_same]
            rw [if_pos (add_le_add_right hat Second)]
          rw [hnew] at ih'
          rw [hh, if_pos rfl]
          push_cast
          omega
        · have hh : admittedIn (effectiveKey req) a ((t, q), (rl.Allow t q s).err) = true := by
            simp [admittedIn, herr, hq, hat, htD]
          rw [hst] at ih' ⊢
          rw [MemoryStore.admitBudget_live s _ _ _ v hv] at ih'
          rw [hh, if_pos rfl]
          push_cast
          omega
        · have hh : admittedIn (effectiveKey req) a ((t, q), (rl.Allow t q s).err) = false := by
            simp [admittedIn, herr, deny]
          have hnew : (rl.Allow t q s).store.admitBudget (effectiveKey req)
              (rl.config.limitOf (limitKind req)) (a + Second) = 0 := by
            rw [hst]
            simp only [MemoryStore.admitBudget, Function.update_same]
            rw [if_pos (add_le_add hat hB)]
          rw [hnew] at ih'
          rw [hh]
          simp only [Bool.false_eq_true, if_false, add_zero]
          omega
      · have hh : admittedIn (effectiveKey req) a ((t, q), (rl.Allow t q s).err) = false := by
          simp [admittedIn, htD]
        rw [admitted_late rl _ a rest _ t (not_lt.mp htD) hchain, hh]
        simpa using hnn
    · have hh : admittedIn (effectiveKey req) a ((t, q), (rl.Allow t q s).err) = false := by
        simp [admittedIn, hq]
      have hfr := Allow_memory_frame rl hs t q s _ (fun h => hq h.symm)
      have ih' := ih (rl.Allow t q s).store t hJ' hat hchain
      rw [MemoryStore.admitBudget_congr s _ _ _ _ hfr.1 hfr.2.1 hfr.2.2] at ih'
      rw [hh]
      simpa using ih'

/-- At non-decreasing times, from a store whose count of the key is within the
limit, the number of admitted calls of a key in an interval of one second is
at most twice the limit. -/
theorem admitted_le_twice (rl : RateLimiter MemoryStore)
    (hs : rl.store = MemoryStore.methods) (req : LimiterRequest) (a : Time)
    (hL : 0 ≤ rl.config.limitOf (limitKind req))
    (hB : Second ≤ rl.config.blockTimeOf (limitKind req)) :
    ∀ (calls : List (Time × LimiterRequest)) (s : MemoryStore),
      (∀ v, s.counts (effectiveKey req) = some v →
        1 ≤ v ∧ v ≤ rl.config.limitOf (limitKind req)) →
      List.Chain' (fun x y => x ≤ y) (calls.map Prod.fst) →
      (rl.admitted (effectiveKey req) a calls s : Int) ≤
        2 * rl.config.limitOf (limitKind req) := by
  intro calls
  induction calls with
  | nil =>
    intro s _ _
    simpa [RateLimiter.admitted, RateLimiter.AllowSeq] using hL
  | cons c rest ih =>
    intro s hJ hchain
    obtain ⟨t, q⟩ := c
    by_cases hat : a ≤ t
    · have hch : List.Chain (fun x y => x ≤ y) a (((t, q) :: rest).map Prod.fst) := by
        simp only [List.map_cons, List.chain_cons]
        exact ⟨hat, hchain⟩
      exact le_trans (admitted_le_budget rl hs req a hL hB _ s a hJ (le_refl a) hch)
        (MemoryStore.admitBudget_le_twice s _ _ _ hL hJ)
    · have hh : admittedIn (effectiveKey req) a ((t, q), (rl.Allow t q s).err) = false := by
        simp [admittedIn, hat]
      rw [admitted_cons, hh]
      simp only [Bool.false_eq_true, if_false, add_zero]
      exact ih (rl.Allow t q s).store (Allow_memory_count_bounds rl hs req t q s hJ)
        (List.Chain'.tail hchain)

/-- C22: over the in-memory store, starting from any state reachable from an
empty store, with a limit `L` of at least 0 and a block duration of at least
one second for the kind of a key, for every sequence of `Allow` calls at
non-decreasing times and every instant `a`, the number of calls for that key
that return nil and whose times fall in the half-open interval from `a` to
`a + time.Second` is at most `2 * L`. -/
theorem C22_admitted_rate_bounded (rl : RateLimiter MemoryStore)
    (hs : rl.store = MemoryStore.methods) (req : LimiterRequest) (a : Time)
    (pre : List MemStep) (calls : List (Time × LimiterRequest))
    (hL : 0 ≤ rl.config.limitOf (limitKind req))
    (hB : Second ≤ rl.config.blockTimeOf (limitKind req))
    (hmono : List.Chain' (fun x y => x ≤ y) (calls.map Prod.fst)) :
    (rl.admitted (effectiveKey req) a calls (rl.steps pre MemoryStore.NewMemoryStore) : Int) ≤
      2 * rl.config.limitOf (limitKind req) := by
  have h0 : rl.CountsWithinLimits MemoryStore.NewMemoryStore := by
    intro key v hv
    simp [MemoryStore.NewMemoryStore] at hv
  have h := RateLimiter.CountsWithinLimits.steps hs pre _ h0
  refine admitted_le_twice rl hs req a hL hB calls _ ?_ hmono
  intro v hv
  obtain ⟨h1, q, hk, hle⟩ := h _ v hv
  rw [limitKind_eq_of_key_eq q req hk] at hle
  exact ⟨h1, hle⟩

/-- C22 with IP limit 2 and a five-minute block: of four requests of one
address, three fall in the second that starts at instant 5, and those three
are admitted. -/
theorem C22_admitted_rate_bounded_witness :
    (((memoryLimiter (testConfig 2 (5 * Minute) 5 (5 * Minute))).admitted
        (effectiveKey { IP := "10.0.0.1", Token := "" }) 5
        ([(0, { IP := "10.0.0.1", Token := "" }),
          (10, { IP := "10.0.0.1", Token := "" }),
          (1000000001, { IP := "10.0.0.1", Token := "" }),
          (1000000002, { IP := "10.0.0.1", Token := "" })] : List (Time × LimiterRequest))
        ((memoryLimiter (testConfig 2 (5 * Minute) 5 (5 * Minute))).steps []
          MemoryStore.NewMemoryStore) : Nat) : Int) ≤
      2 * (memoryLimiter (testConfig 2 (5 * Minute) 5 (5 * Minute))).config.limitOf
        (limitKind { IP := "10.0.0.1", Token := "" }) :=
  C22_admitted_rate_bounded (memoryLimiter (testConfig 2 (5 * Minute) 5 (5 * Minute))) rfl
    { IP := "10.0.0.1", Token := "" } 5 []
    [(0, { IP := "10.0.0.1", Token := "" }),
     (10, { IP := "10.0.0.1", Token := "" }),
     (1000000001, { IP := "10.0.0.1", Token := "" }),
     (1000000002, { IP := "10.0.0.1", Token := "" })]
    (by decide) (by decide) (by simp)

/-! ### The client address -/

/-- A character of a text other than the dot lies in one of its fields. -/
theorem mem_dotFields (c : Char) (hc : c ≠ '.') :
    ∀ cs : List Char, c ∈ cs → ∃ f ∈ dotFields cs, c ∈ f := by
  intro cs
  induction cs with
  | nil => intro h; simp at h
  | cons d ds ih =>
    intro h
    by_cases hd : d = '.'
    · have hmem : c ∈ ds := by
        rcases List.mem_cons.mp h with h | h
        · exact absurd (h.trans hd) hc
        · exact h
      obtain ⟨f, hf, hcf⟩ := ih hmem
      exact ⟨f, by simp [dotFields, hd, hf], hcf⟩
    · cases hfs : dotFields ds with
      | nil =>
        rcases List.mem_cons.mp h with h | h
        · exact ⟨[d], by simp [dotFields, hd, hfs], by simp [h]⟩
        · obtain ⟨f, hf, _⟩ := ih h
          rw [hfs] at hf
          simp at hf
      | cons g gs =>
        rcases List.mem_cons.mp h with h | h
        · exact ⟨d :: g, by simp [dotFields, hd, hfs], by simp [h]⟩
        · obtain ⟨f, hf, hcf⟩ := ih h
          rw [hfs] at hf
          rcases List.mem_cons.mp hf with hf | hf
          · exact ⟨d :: g, by simp [dotFields, hd, hfs], by simp [← hf, hcf]⟩
          · exact ⟨f, by simp [dotFields, hd, hfs, hf], hcf⟩

/-- The digits loop accepts digits only. -/
theorem parseDigits_all_digits :
    ∀ (cs : List Char) (acc n : Nat), parseDigits cs acc = some n → ∀ c ∈ cs, c.isDigit = true := by
  intro cs
  induction cs with
  | nil => intro _ _ _ c hc; simp at hc
  | cons d ds ih =>
    intro acc n h c hc
    by_cases hd : d.isDigit = true
    · simp only [parseDigits, hd, if_true] at h
      rcases List.mem_cons.mp hc with hc | hc
      · rw [hc]; exact hd
      · exact ih _ n h c hc
    · simp [parseDigits, hd] at h

/-- The stand-in parses no text with a comma in it. -/
theorem dottedNet_rejects_comma (s ips : String) (h : dottedNet.ParseIP s = some ips) :
    ',' ∉ s.data := by
  intro hmem
  obtain ⟨f, hf, hcf⟩ := mem_dotFields ',' (by decide) s.data hmem
  simp only [dottedNet] at h
  split at h
  · rename_i hok
    have hfield := List.all_eq_true.mp hok.2 f hf
    unfold ipv4Field at hfield
    cases hp : parseDigits f 0 with
    | none => rw [hp] at hfield; simp at hfield
    | some n =>
      have := parseDigits_all_digits f 0 n hp ',' hcf
      exact absurd this (by decide)
  · simp at h

/-- With a parser that accepts no text with a comma in it, as `net.ParseIP`
does not, a forwarded-for header that lists more than one address counts for
nothing: the result is that of the same request without the header. -/
theorem getClientIP_forwarded_list (net : NetLib)
    (hnet : ∀ s ips, net.ParseIP s = some ips → ',' ∉ s.data) (r : Request)
    (hlist : ',' ∈ (r.Header "X-Forwarded-For").data) :
    getClientIP net r =
      getClientIP net
        { Header := Function.update r.Header "X-Forwarded-For" "", RemoteAddr := r.RemoteAddr } := by
  have hnone : net.ParseIP (r.Header "X-Forwarded-For") = none := by
    cases hp : net.ParseIP (r.Header "X-Forwarded-For") with
    | none => rfl
    | some ips => exact absurd hlist (hnet _ ips hp)
  have h1 : ("X-Real-IP" : String) ≠ "X-Forwarded-For" := by decide
  have h2 : ("X-Client-IP" : String) ≠ "X-Forwarded-For" := by decide
  simp [getClientIP, firstHeader, hnone, Function.update_noteq h1, Function.update_noteq h2]

/-- C21: `getClientIP` does not return the first IP of a forwarded-for list.
A header `X-Forwarded-For: 203.0.113.7` alone gives `203.0.113.7`; the list
`203.0.113.7, 10.0.0.1` is handed whole to `net.ParseIP`, which rejects it,
and the result is taken from the later sources: the host of `RemoteAddr`, or
`X-Real-IP` when that header is present. -/
theorem C21_forwarded_list_not_parsed :
    getClientIP dottedNet
        (requestWith [("X-Forwarded-For", "203.0.113.7")] "192.0.2.9:51234") =
      "203.0.113.7" ∧
    getClientIP dottedNet
        (requestWith [("X-Forwarded-For", "203.0.113.7, 10.0.0.1")] "192.0.2.9:51234") =
      "192.0.2.9" ∧
    getClientIP dottedNet
        (requestWith [("X-Forwarded-For", "203.0.113.7, 10.0.0.1"),
          ("X-Real-IP", "198.51.100.4")] "192.0.2.9:51234") =
      "198.51.100.4" ∧
    getClientIP dottedNet
        (requestWith [("X-Forwarded-For", "203.0.113.7, 10.0.0.1")] "192.0.2.9:51234") =
      getClientIP dottedNet
        { Header := Function.update
            (requestWith [("X-Forwarded-For", "203.0.113.7, 10.0.0.1")]
              "192.0.2.9:51234").Header "X-Forwarded-For" "",
          RemoteAddr := "192.0.2.9:51234" } := by
  refine ⟨by decide, by decide, by decide, ?_⟩
  exact getClientIP_forwarded_list dottedNet dottedNet_rejects_comma
    (requestWith [("X-Forwarded-For", "203.0.113.7, 10.0.0.1")] "192.0.2.9:51234")
    (by decide)

end Ratelimiter
